import Mathlib

/-!
# K8s-Lite: the registry, its resource server, the reconcilers, the scheduler, the
node agent and leader election

A shallow embedding of the Go sources under `internal/` and the properties of the
specification proved (or refuted) against it.

Conventions of the embedding.

* A Go `map[string]V` is a `GoMap V`: a list of entries with distinct keys.  The order of
  the entries is not observable by Go code except through `range`, whose order is
  unspecified; a nil map and an empty map are both the map without entries (every map
  field of the API types is tagged `omitempty`, and `len`, lookup and `range` treat them
  alike).
* A Go slice for which nil and empty are told apart by the code (`reflect.DeepEqual`,
  JSON `null` against `[]`) is a `Slice`; every other slice is a `List`.
* A pointer field (`*int32`, `*string`, `*time.Time`) is an `Option`.
* `int32` values are integers; where the source does `int32` arithmetic the result is
  wrapped with `wrap32`.
* `time.Time` is the number of nanoseconds since the zero instant (zone and monotonic
  reading are not represented: JSON transport drops the latter and the code never reads the
  former).
* A channel send that would wait for a receiver is the outcome `blocked`.
* A call on the container runtime, the prober or the registry whose result the caller
  only logs is recorded as a call; the results the caller reads are parameters.
* The URL of a request for an object is built from the name as the client builds it,
  without escapes: a plain end of the path reaches the handler under that name, a query or
  a fragment is cut off, and what the libraries make of any other name is a parameter.
* A Go `string` is a `String`, a Unicode text (strings that are not valid UTF-8 are not
  represented); a `[]byte` holding a JSON text is the list of its characters.
* A `float64` is the number it stands for: `m * 2 ^ e` with a sign, and arithmetic on it
  is the exact result rounded to the nearest `float64`, ties to even.
-/

namespace K8sLite

/-! ## Go values -/

/-- Go's `strings.HasPrefix(s, p)`. -/
def HasPrefix (s p : String) : Bool := p.data.isPrefixOf s.data

/-- Go's `a <= b` on strings (byte-wise lexicographic order; on valid UTF-8 this is the
order of the code points). -/
def strLE (a b : String) : Prop := a.data ≤ b.data

instance : DecidableRel strLE := fun a b => inferInstanceAs (Decidable (a.data ≤ b.data))

/-- Go's `a < b` on strings. -/
def strLT (a b : String) : Prop := a.data < b.data

instance : DecidableRel strLT := fun a b => inferInstanceAs (Decidable (a.data < b.data))

/-- Wrap an integer into the `int32` range (two's complement). -/
def wrap32 (n : Int) : Int := (n + 2147483648) % 4294967296 - 2147483648

/-- A Go `map[string]V`. -/
structure GoMap (ν : Type) where
  entries : List (String × ν)
  nodup : (entries.map Prod.fst).Nodup
deriving DecidableEq

namespace GoMap

variable {ν : Type}

/-- The map without entries (`nil` or `make(map[string]V)`). -/
def empty : GoMap ν := ⟨[], List.nodup_nil⟩

/-- Lookup `m[k]` with the comma-ok result. -/
def get? (m : GoMap ν) (k : String) : Option ν := m.entries.lookup k

/-- Whether `_, exists := m[k]` reports the key. -/
def contains (m : GoMap ν) (k : String) : Bool := (m.get? k).isSome

/-- Go's `len(m)`. -/
def len (m : GoMap ν) : Nat := m.entries.length

/-- Go's `delete(m, k)`. -/
def delete (m : GoMap ν) (k : String) : GoMap ν :=
  ⟨m.entries.filter (fun e => e.1 != k),
   (List.filter_sublist m.entries).map Prod.fst |>.nodup m.nodup⟩

/-- Go's `m[k] = v`. -/
def set (m : GoMap ν) (k : String) (v : ν) : GoMap ν :=
  ⟨m.entries.filter (fun e => e.1 != k) ++ [(k, v)], by
    rw [List.map_append, List.nodup_append]
    refine ⟨(List.filter_sublist m.entries).map Prod.fst |>.nodup m.nodup, by simp, ?_⟩
    intro a ha hb
    simp only [List.map_cons, List.map_nil, List.mem_singleton] at hb
    subst hb
    simp [List.mem_map, List.mem_filter] at ha⟩

/-- Two maps hold the same entries (equality of Go maps as finite maps). -/
def Equiv (m₁ m₂ : GoMap ν) : Prop := m₁.entries.Perm m₂.entries

end GoMap

/-- A Go slice whose nil-ness is observable: `none` is the nil slice. -/
abbrev Slice (α : Type) := Option (List α)

/-- Go's `len(s)` of a slice. -/
def Slice.len {α : Type} : Slice α → Nat
  | none => 0
  | some l => l.length

/-- Go's `append(s, x)`. -/
def Slice.append {α : Type} (s : Slice α) (x : α) : Slice α :=
  match s with
  | none => some [x]
  | some l => some (l ++ [x])

/-- The elements a `range` over the slice visits. -/
def Slice.toList {α : Type} : Slice α → List α
  | none => []
  | some l => l

/-- A `time.Time` value, given by its nanoseconds since the zero instant (`Add` is `+`,
`Before` is `<`). -/
abbrev Time := Int

/-! ## `internal/storage` -/

namespace storage

/-- The errors a store operation returns: the two sentinels of `interface.go` and any
other error (serialization, file write). -/
inductive StoreError
  | ErrNotFound
  | ErrConflict
  | other (msg : String)
deriving DecidableEq, Repr

/-- `EventType` of `interface.go`. -/
inductive EventType
  | Added
  | Modified
  | Deleted
  | Error
deriving DecidableEq, Repr

/-- The `Object interface{}` of an event: the object handed to `Create`/`Update`, or, for
`Delete`, the generic map that `json.Unmarshal` decodes from the stored bytes `raw`. -/
inductive EventObject (α β : Type)
  | obj (o : α)
  | decoded (raw : β)
deriving DecidableEq

/-- `Event` of `interface.go` (the field `Type` is spelled `Typ`). -/
structure Event (α β : Type) where
  Typ : EventType
  Object : EventObject α β
deriving DecidableEq

/-- Capacity of a watcher's channel: `make(chan Event, 10)`. -/
def resultChanCap : Nat := 10

/-- A `*memoryWatcher`: `ptr` is the identity of the pointer, `resultChan` the events
buffered in the channel, oldest first.  The back pointer `store` is the store holding it. -/
structure memoryWatcher (α β : Type) where
  ptr : Nat
  resultChan : List (Event α β)
  keyPrefix : String
deriving DecidableEq

/-- `MemoryStore`: `data` maps a key to the serialized object (`[]byte`, here `β`). -/
structure MemoryStore (α β : Type) where
  data : GoMap β
  watchers : List (memoryWatcher α β)
  filePath : String
deriving DecidableEq

/-- Result of the send loop of `notifyWatchers`: it ran through all watchers, or it waits
at a watcher whose channel is full (`ws` is the watcher list at that moment). -/
inductive Notified (ω : Type)
  | done (ws : List ω)
  | blocked (ws : List ω)
deriving DecidableEq

/-- Result of a store operation: it returned `err` (`none` is `nil`) leaving the store
`s`, or it waits inside `notifyWatchers`, holding the lock, with the store at `s`. -/
inductive Outcome (σ : Type)
  | returned (err : Option StoreError) (s : σ)
  | blocked (s : σ)
deriving DecidableEq

variable {α β : Type}

/-- `NewMemoryStore` with nothing to load. -/
def NewMemoryStore (filePath : String) : MemoryStore α β :=
  { data := GoMap.empty, watchers := [], filePath := filePath }

/-- `MemoryStore.sync`: nothing to do without a path; otherwise the result of
`os.WriteFile`, given as `write` (serializing `map[string][]byte` cannot fail). -/
def MemoryStore.sync (s : MemoryStore α β) (write : Option StoreError) : Option StoreError :=
  if s.filePath = "" then none else write

/-- `MemoryStore.notifyWatchers`: a (blocking) send to every watcher whose key begins
with the watcher's `keyPrefix`, in list order. -/
def notifyWatchers (eventType : EventType) (key : String) (obj : EventObject α β) :
    List (memoryWatcher α β) → Notified (memoryWatcher α β)
  | [] => .done []
  | w :: ws =>
    if HasPrefix key w.keyPrefix then
      if w.resultChan.length < resultChanCap then
        match notifyWatchers eventType key obj ws with
        | .done ws1 => .done ({ w with resultChan := w.resultChan ++ [⟨eventType, obj⟩] } :: ws1)
        | .blocked ws1 =>
          .blocked ({ w with resultChan := w.resultChan ++ [⟨eventType, obj⟩] } :: ws1)
      else .blocked (w :: ws)
    else
      match notifyWatchers eventType key obj ws with
      | .done ws1 => .done (w :: ws1)
      | .blocked ws1 => .blocked (w :: ws1)

/-- `MemoryStore.Create`; `marshal` is `json.Marshal` on the object type. -/
def MemoryStore.Create (marshal : α → Except StoreError β) (s : MemoryStore α β)
    (key : String) (obj : α) (write : Option StoreError) : Outcome (MemoryStore α β) :=
  if s.data.contains key then .returned (some .ErrConflict) s
  else
    match marshal obj with
    | .error e => .returned (some e) s
    | .ok data =>
      let s1 := { s with data := s.data.set key data }
      match notifyWatchers .Added key (.obj obj) s1.watchers with
      | .blocked ws => .blocked { s1 with watchers := ws }
      | .done ws => .returned (s1.sync write) { s1 with watchers := ws }

/-- `MemoryStore.Update`. -/
def MemoryStore.Update (marshal : α → Except StoreError β) (s : MemoryStore α β)
    (key : String) (obj : α) (write : Option StoreError) : Outcome (MemoryStore α β) :=
  if !s.data.contains key then .returned (some .ErrNotFound) s
  else
    match marshal obj with
    | .error e => .returned (some e) s
    | .ok data =>
      let s1 := { s with data := s.data.set key data }
      match notifyWatchers .Modified key (.obj obj) s1.watchers with
      | .blocked ws => .blocked { s1 with watchers := ws }
      | .done ws => .returned (s1.sync write) { s1 with watchers := ws }

/-- `MemoryStore.Get`; `unmarshal` is `json.Unmarshal` into a fresh object. -/
def MemoryStore.Get (unmarshal : β → Except StoreError α) (s : MemoryStore α β)
    (key : String) : Except StoreError α :=
  match s.data.get? key with
  | none => .error .ErrNotFound
  | some data => unmarshal data

/-- `MemoryStore.Delete`. -/
def MemoryStore.Delete (s : MemoryStore α β) (key : String) (write : Option StoreError) :
    Outcome (MemoryStore α β) :=
  match s.data.get? key with
  | none => .returned (some .ErrNotFound) s
  | some raw =>
    let s1 := { s with data := s.data.delete key }
    match notifyWatchers .Deleted key (.decoded raw) s1.watchers with
    | .blocked ws => .blocked { s1 with watchers := ws }
    | .done ws => .returned (s1.sync write) { s1 with watchers := ws }

/-- `MemoryStore.List`: the caller's slice after the call and the error returned (`none` is
nil).  `iter` is what is left of the order in which `range s.data` yields the entries
(some permutation of them) and `slice` is the caller's slice so far.  Each value under a
key with the prefix is decoded into a fresh element and appended; the first one that fails
to decode ends the call with the decoder's error, the elements appended before it staying
in the caller's slice. -/
def MemoryStore.ListObjs (unmarshal : β → Except StoreError α) :
    List (String × β) → String → List α → List α × Option StoreError
  | [], _, slice => (slice, none)
  | e :: iter, keyPrefix, slice =>
    if HasPrefix e.1 keyPrefix then
      match unmarshal e.2 with
      | .error err => (slice, some err)
      | .ok newElem => MemoryStore.ListObjs unmarshal iter keyPrefix (slice ++ [newElem])
    else MemoryStore.ListObjs unmarshal iter keyPrefix slice

/-- `MemoryStore.Watch`; `ptr` is the address of the watcher allocated by the call. -/
def MemoryStore.Watch (s : MemoryStore α β) (keyPrefix : String) (ptr : Nat) :
    MemoryStore α β :=
  { s with watchers := s.watchers ++ [{ ptr := ptr, resultChan := [], keyPrefix := keyPrefix }] }

/-- `memoryWatcher.Stop`: the first list entry that is this watcher is removed (and its
channel closed, after which the model no longer tracks it). -/
def memoryWatcher.Stop (s : MemoryStore α β) (ptr : Nat) : MemoryStore α β :=
  { s with watchers := s.watchers.eraseP (fun w => w.ptr == ptr) }

/-- A receive `<-w.ResultChan()` by the subscriber holding watcher `ptr`, on the watcher
list: the oldest buffered event is taken; `none` when the watcher is not in the list or
nothing is buffered (the receive would wait). -/
def recvFrom (ptr : Nat) :
    List (memoryWatcher α β) → Option (Event α β × List (memoryWatcher α β))
  | [] => none
  | w :: ws =>
    if w.ptr == ptr then
      match w.resultChan with
      | [] => none
      | e :: rest => some (e, { w with resultChan := rest } :: ws)
    else
      match recvFrom ptr ws with
      | none => none
      | some (e, ws1) => some (e, w :: ws1)

/-- A receive on the store holding the watcher. -/
def recv (s : MemoryStore α β) (ptr : Nat) : Option (Event α β × MemoryStore α β) :=
  match recvFrom ptr s.watchers with
  | none => none
  | some (e, ws) => some (e, { s with watchers := ws })

end storage

/-! ## `internal/api` -/

namespace api

/-- `TypeMeta`. -/
structure TypeMeta where
  Kind : String := ""
  APIVersion : String := ""
deriving DecidableEq

/-- `ObjectMeta`. -/
structure ObjectMeta where
  Name : String := ""
  Namespace : String := ""
  Labels : GoMap String := GoMap.empty
  Annotations : GoMap String := GoMap.empty
  ResourceVersion : String := ""
  CreationTimestamp : Time := 0
  DeletionTimestamp : Option Time := none
deriving DecidableEq

/-- `LeaseSpec`. -/
structure LeaseSpec where
  HolderIdentity : Option String := none
  LeaseDurationSeconds : Option Int := none
  AcquireTime : Option Time := none
  RenewTime : Option Time := none
  LeaseTransitions : Option Int := none
deriving DecidableEq

/-- `Lease` (both metas are embedded in the Go struct). -/
structure Lease extends TypeMeta, ObjectMeta where
  Spec : LeaseSpec := {}
deriving DecidableEq

/-- `IntOrString`: `Type` (spelled `Typ`) is 0 for the integer and 1 for the string. -/
structure IntOrString where
  Typ : Int := 0
  IntVal : Int := 0
  StrVal : String := ""
deriving DecidableEq

/-- `HTTPGetAction`. -/
structure HTTPGetAction where
  Path : String := ""
  Port : IntOrString := {}
deriving DecidableEq

/-- `TCPSocketAction`. -/
structure TCPSocketAction where
  Port : IntOrString := {}
deriving DecidableEq

/-- `Probe`. -/
structure Probe where
  HTTPGet : Option HTTPGetAction := none
  TCPSocket : Option TCPSocketAction := none
  InitialDelaySeconds : Int := 0
  PeriodSeconds : Int := 0
deriving DecidableEq

set_option linter.dupNamespace false in
/-- `ContainerPort`. -/
structure ContainerPort where
  Name : String := ""
  ContainerPort : Int := 0
  Protocol : String := ""
deriving DecidableEq

/-- `ResourceList`, a `map[string]string`. -/
abbrev ResourceList := GoMap String

/-- `ResourceRequirements`. -/
structure ResourceRequirements where
  Requests : ResourceList := GoMap.empty
  Limits : ResourceList := GoMap.empty
deriving DecidableEq

/-- `Container`. -/
structure Container where
  Name : String := ""
  Image : String := ""
  Command : List String := []
  Args : List String := []
  Ports : List ContainerPort := []
  Resources : ResourceRequirements := {}
  LivenessProbe : Option Probe := none
  ReadinessProbe : Option Probe := none
deriving DecidableEq

/-- `PodSpec`; `Containers` has no `omitempty`, so a nil slice is encoded as `null`. -/
structure PodSpec where
  Containers : Slice Container := none
  NodeName : String := ""
  RestartPolicy : String := ""
deriving DecidableEq

/-- `PodCondition`. -/
structure PodCondition where
  Typ : String := ""
  Status : String := ""
deriving DecidableEq

/-- `ContainerStateRunning`. -/
structure ContainerStateRunning where
  StartedAt : Time := 0
deriving DecidableEq

/-- `ContainerStateTerminated`. -/
structure ContainerStateTerminated where
  ExitCode : Int := 0
  Reason : String := ""
  Message : String := ""
  StartedAt : Time := 0
  FinishedAt : Time := 0
deriving DecidableEq

/-- `ContainerStateWaiting`. -/
structure ContainerStateWaiting where
  Reason : String := ""
  Message : String := ""
deriving DecidableEq

/-- `ContainerState`. -/
structure ContainerState where
  Running : Option ContainerStateRunning := none
  Terminated : Option ContainerStateTerminated := none
  Waiting : Option ContainerStateWaiting := none
deriving DecidableEq

/-- `ContainerStatus`. -/
structure ContainerStatus where
  Name : String := ""
  State : ContainerState := {}
  Ready : Bool := false
  RestartCount : Int := 0
  Image : String := ""
  ContainerID : String := ""
deriving DecidableEq

/-- `PodStatus`. -/
structure PodStatus where
  Phase : String := ""
  Conditions : List PodCondition := []
  HostIP : String := ""
  PodIP : String := ""
  ContainerStatuses : List ContainerStatus := []
deriving DecidableEq

/-- `Pod`. -/
structure Pod extends TypeMeta, ObjectMeta where
  Spec : PodSpec := {}
  Status : PodStatus := {}
deriving DecidableEq

/-- `LabelSelector`. -/
structure LabelSelector where
  MatchLabels : GoMap String := GoMap.empty
deriving DecidableEq

/-- `PodTemplateSpec`. -/
structure PodTemplateSpec extends ObjectMeta where
  Spec : PodSpec := {}
deriving DecidableEq

/-- `ReplicaSetSpec`. -/
structure ReplicaSetSpec where
  Replicas : Option Int := none
  Selector : LabelSelector := {}
  Template : PodTemplateSpec := {}
deriving DecidableEq

/-- `ReplicaSetStatus`. -/
structure ReplicaSetStatus where
  Replicas : Int := 0
  FullyLabeledReplicas : Int := 0
  ReadyReplicas : Int := 0
  AvailableReplicas : Int := 0
deriving DecidableEq

/-- `ReplicaSet`. -/
structure ReplicaSet extends TypeMeta, ObjectMeta where
  Spec : ReplicaSetSpec := {}
  Status : ReplicaSetStatus := {}
deriving DecidableEq

/-- `ServicePort`. -/
structure ServicePort where
  Name : String := ""
  Protocol : String := ""
  Port : Int := 0
  TargetPort : IntOrString := {}
  NodePort : Int := 0
deriving DecidableEq

/-- `ServiceSpec`. -/
structure ServiceSpec where
  Selector : GoMap String := GoMap.empty
  Ports : List ServicePort := []
  Typ : String := ""
  ClusterIP : String := ""
deriving DecidableEq

/-- `Service` (its `Status` is never read by the code embedded here and is left out). -/
structure Service extends TypeMeta, ObjectMeta where
  Spec : ServiceSpec := {}
deriving DecidableEq

/-- `EndpointAddress`. -/
structure EndpointAddress where
  IP : String := ""
  NodeName : String := ""
deriving DecidableEq

/-- `EndpointPort`. -/
structure EndpointPort where
  Name : String := ""
  Port : Int := 0
  Protocol : String := ""
deriving DecidableEq

/-- `EndpointSubset`; nil and empty slices are told apart by `reflect.DeepEqual`. -/
structure EndpointSubset where
  Addresses : Slice EndpointAddress := none
  Ports : Slice EndpointPort := none
deriving DecidableEq

/-- `Endpoints`. -/
structure Endpoints extends TypeMeta, ObjectMeta where
  Subsets : Slice EndpointSubset := none
deriving DecidableEq

end api

/-! ## URLs built from names -/

namespace client

/-- Whether a character stands for itself in the path of a URL: an ASCII letter, a digit,
`-`, `.`, `_` or `~`. -/
def unreserved (c : Char) : Bool :=
  c.isAlphanum || c == '-' || c == '.' || c == '_' || c == '~'

/-- A name that can end a URL path as it is: not empty, made of characters that stand for
themselves, and not one of the dot segments. -/
def plainName (name : String) : Bool :=
  name.data.all unreserved && name != "" && name != "." && name != ".."

/-- The text before the first `?` or `#`: `url.Parse` cuts the URL at the first `#` (the
fragment) and what is left at the first `?` (the query). -/
def pathEnd (name : String) : String :=
  String.mk (name.data.takeWhile (fun c => c != '?' && c != '#'))

/-- Where a request ends whose URL names an object: the router calls the handler of the
object route for the method with `name` as the `{name}` of the path; or the server answers
with a status, and maybe a body, without calling that handler; or `NewRequest` or `Do`
returns an error. -/
inductive Routed (β : Type)
  | object (name : String)
  | answered (status : Nat) (body : Option β)
  | failed (err : String)
deriving DecidableEq

/-- What becomes of the requests whose URL is not covered by `route`, by method, resource
and name. -/
abbrev Beyond (β : Type) := String → String → String → Routed β

/-- The request whose URL is `fmt.Sprintf("%s/.../<resource>/%s", c.BaseURL, name)`, the
name not escaped.  When the name is made of characters that stand for themselves, of `?`
and of `#`, and the text before the first `?` or `#` is a plain name, the URL parses, the
query and the fragment are cut off, and the router calls the handler of the object route
with that text.  What `net/url`, `net/http` and the router make of any other name is
`beyond`. -/
def route {β : Type} (beyond : Beyond β) (method resource name : String) : Routed β :=
  if name.data.all (fun c => unreserved c || c == '?' || c == '#') && plainName (pathEnd name)
  then .object (pathEnd name)
  else beyond method resource name

end client

/-! ## `internal/apiserver` -/

namespace apiserver

open storage

/-- The wire of one resource kind with Go type `α` and documents `β`: `marshal` is
`json.Marshal` (also `render.JSON`), `unmarshal` is decoding into a fresh `&api.X{}`,
`objectMeta` is `getObjectMeta`, and `beyond` is what becomes of a request for an object
whose URL was built from a name that `client.route` does not cover (never consulted for a
plain name). -/
structure Codec (α β : Type) where
  marshal : α → Except StoreError β
  unmarshal : β → Except StoreError α
  objectMeta : α → api.ObjectMeta
  beyond : client.Beyond β := fun _ _ _ => .answered 404 none

/-- What a handler did: it answered with an HTTP status (and, on success, the object it
rendered), or it hangs inside a store call that waits on a full watcher channel. -/
inductive Handled (α σ : Type)
  | response (status : Nat) (body : Option α) (s : σ)
  | hung (s : σ)
deriving DecidableEq

variable {α β : Type}

/-- The registry key `fmt.Sprintf("/registry/%s/%s", resource, name)`. -/
def registryKey (resource name : String) : String :=
  "/registry/" ++ resource ++ "/" ++ name

/-- `Server.handleUpdate` for a registered resource. -/
def handleUpdate (c : Codec α β) (s : MemoryStore α β) (resource name : String) (body : β)
    (write : Option StoreError) : Handled α (MemoryStore α β) :=
  let key := registryKey resource name
  match c.unmarshal body with
  | .error _ => .response 400 none s
  | .ok obj =>
    match s.Update c.marshal key obj write with
    | .blocked s1 => .hung s1
    | .returned (some .ErrNotFound) s1 => .response 404 none s1
    | .returned (some _) s1 => .response 500 none s1
    | .returned none s1 => .response 200 (some obj) s1

/-- `Server.handleCreate` for a registered resource. -/
def handleCreate (c : Codec α β) (s : MemoryStore α β) (resource : String) (body : β)
    (write : Option StoreError) : Handled α (MemoryStore α β) :=
  match c.unmarshal body with
  | .error _ => .response 400 none s
  | .ok obj =>
    if (c.objectMeta obj).Name = "" then .response 400 none s
    else
      let key := registryKey resource (c.objectMeta obj).Name
      match s.Create c.marshal key obj write with
      | .blocked s1 => .hung s1
      | .returned (some .ErrConflict) s1 => .response 409 none s1
      | .returned (some _) s1 => .response 500 none s1
      | .returned none s1 => .response 201 (some obj) s1

/-- `Server.handleGet` for a registered resource. -/
def handleGet (c : Codec α β) (s : MemoryStore α β) (resource name : String) :
    Nat × Option α :=
  match s.Get c.unmarshal (registryKey resource name) with
  | .error .ErrNotFound => (404, none)
  | .error _ => (500, none)
  | .ok obj => (200, some obj)

/-- `Server.handleDelete`. -/
def handleDelete (s : MemoryStore α β) (resource name : String)
    (write : Option StoreError) : Handled α (MemoryStore α β) :=
  match s.Delete (registryKey resource name) write with
  | .blocked s1 => .hung s1
  | .returned (some .ErrNotFound) s1 => .response 404 none s1
  | .returned (some _) s1 => .response 500 none s1
  | .returned none s1 => .response 200 none s1

end apiserver

/-! ## `internal/client` -/

namespace client

open storage apiserver

variable {α β : Type}

/-- What a client call that writes did: it returned (`none` is a nil error) leaving the
registry at `s`, or it never got an answer because the handler hangs. -/
inductive Called (σ : Type)
  | returned (err : Option String) (s : σ)
  | hung (s : σ)
deriving DecidableEq

/-- The `Create*` methods (`CreatePod`, `CreateLease`, `CreateEndpoints`, ...): marshal,
POST to the collection, success on 201 or 200. -/
def create (c : Codec α β) (s : MemoryStore α β) (resource : String) (obj : α)
    (write : Option StoreError) : Called (MemoryStore α β) :=
  match c.marshal obj with
  | .error _ => .returned (some "marshal") s
  | .ok body =>
    match handleCreate c s resource body write with
    | .hung s1 => .hung s1
    | .response status _ s1 =>
      if status = 201 ∨ status = 200 then .returned none s1
      else .returned (some ("failed to create: " ++ toString status)) s1

/-- The `Update*` methods (`UpdatePod`, `UpdateLease`, `UpdateEndpoints`, ...): marshal, PUT
to the URL built from `name` (the caller passes the name of the object), success on
200. -/
def update (c : Codec α β) (s : MemoryStore α β) (resource name : String) (obj : α)
    (write : Option StoreError) : Called (MemoryStore α β) :=
  match c.marshal obj with
  | .error _ => .returned (some "marshal") s
  | .ok body =>
    match route c.beyond "PUT" resource name with
    | .failed err => .returned (some err) s
    | .answered status _ =>
      if status = 200 then .returned none s
      else .returned (some ("failed to update: " ++ toString status)) s
    | .object urlName =>
      match handleUpdate c s resource urlName body write with
      | .hung s1 => .hung s1
      | .response status _ s1 =>
        if status = 200 then .returned none s1
        else .returned (some ("failed to update: " ++ toString status)) s1

/-- The `Get*` methods (`GetLease`, `GetEndpoints`): a 404 is the result `nil, nil`; on 200
the body is decoded into a fresh value. -/
def get (c : Codec α β) (s : MemoryStore α β) (resource name : String) :
    Except String (Option α) :=
  match route c.beyond "GET" resource name with
  | .failed err => .error err
  | .answered status body =>
    if status = 200 then
      match body with
      | none => .error "decode"
      | some b =>
        match c.unmarshal b with
        | .error _ => .error "decode"
        | .ok o => .ok (some o)
    else if status = 404 then .ok none
    else .error ("api request failed: " ++ toString status)
  | .object urlName =>
    match handleGet c s resource urlName with
    | (200, some obj) =>
      match c.marshal obj with
      | .error _ => .error "api request failed: 500"
      | .ok body =>
        match c.unmarshal body with
        | .error _ => .error "decode"
        | .ok o => .ok (some o)
    | (404, _) => .ok none
    | (status, _) => .error ("api request failed: " ++ toString status)

/-- What `DeletePod` returns for a status: success on 200 or 204, and a 404 is also
reported as success. -/
def deleted (status : Nat) (s : MemoryStore α β) : Called (MemoryStore α β) :=
  if status = 200 ∨ status = 204 then .returned none s
  else if status = 404 then .returned none s
  else .returned (some ("failed to delete: " ++ toString status)) s

/-- `DeletePod`: a DELETE request to the URL built from the name. -/
def delete (beyond : Beyond β) (s : MemoryStore α β) (resource name : String)
    (write : Option StoreError) : Called (MemoryStore α β) :=
  match route beyond "DELETE" resource name with
  | .failed err => .returned (some err) s
  | .answered status _ => deleted status s
  | .object urlName =>
    match handleDelete (α := α) s resource urlName write with
    | .hung s1 => .hung s1
    | .response status _ s1 => deleted status s1

/-- `Client.CreatePod`. -/
def CreatePod (c : Codec api.Pod β) (s : MemoryStore api.Pod β) (pod : api.Pod)
    (write : Option StoreError) : Called (MemoryStore api.Pod β) :=
  create c s "pods" pod write

/-- `Client.DeletePod`. -/
def DeletePod (beyond : Beyond β) (s : MemoryStore api.Pod β) (name : String)
    (write : Option StoreError) : Called (MemoryStore api.Pod β) :=
  delete beyond s "pods" name write

/-- `Client.GetEndpoints`. -/
def GetEndpoints (c : Codec api.Endpoints β) (s : MemoryStore api.Endpoints β)
    (name : String) : Except String (Option api.Endpoints) :=
  get c s "endpoints" name

/-- `Client.CreateEndpoints`. -/
def CreateEndpoints (c : Codec api.Endpoints β) (s : MemoryStore api.Endpoints β)
    (ep : api.Endpoints) (write : Option StoreError) : Called (MemoryStore api.Endpoints β) :=
  create c s "endpoints" ep write

/-- `Client.UpdateEndpoints`: the URL carries `ep.Name`. -/
def UpdateEndpoints (c : Codec api.Endpoints β) (s : MemoryStore api.Endpoints β)
    (ep : api.Endpoints) (write : Option StoreError) : Called (MemoryStore api.Endpoints β) :=
  update c s "endpoints" ep.Name ep write

/-- `Client.GetLease`. -/
def GetLease (c : Codec api.Lease β) (s : MemoryStore api.Lease β) (name : String) :
    Except String (Option api.Lease) :=
  get c s "leases" name

/-- `Client.CreateLease`. -/
def CreateLease (c : Codec api.Lease β) (s : MemoryStore api.Lease β) (lease : api.Lease)
    (write : Option StoreError) : Called (MemoryStore api.Lease β) :=
  create c s "leases" lease write

/-- `Client.UpdateLease`: the URL carries `lease.Name`. -/
def UpdateLease (c : Codec api.Lease β) (s : MemoryStore api.Lease β) (lease : api.Lease)
    (write : Option StoreError) : Called (MemoryStore api.Lease β) :=
  update c s "leases" lease.Name lease write

end client

/-! ## `encoding/json` on the API types, and the template hash -/

/-- A JSON document as `json.Marshal` lays it out: the members of an object are kept in
the order in which the encoder writes them. -/
inductive JSON
  | null
  | bool (b : Bool)
  | num (n : Int)
  | str (s : String)
  | arr (xs : List JSON)
  | obj (members : List (String × JSON))

namespace json

open api

/-- The entries of a map in the order the encoder writes them: sorted by key. -/
def sortedEntries {ν : Type} (m : GoMap ν) : List (String × ν) :=
  m.entries.insertionSort (fun a b => strLE a.1 b.1)

/-- Encoding of a `map[string]string`. -/
def marshalMap (m : GoMap String) : JSON :=
  .obj ((sortedEntries m).map (fun e => (e.1, JSON.str e.2)))

/-- A string field tagged `omitempty`. -/
def omitEmptyStr (name v : String) : List (String × JSON) :=
  if v = "" then [] else [(name, .str v)]

/-- An integer field tagged `omitempty`. -/
def omitEmptyInt (name : String) (n : Int) : List (String × JSON) :=
  if n = 0 then [] else [(name, .num n)]

/-- A map field tagged `omitempty`. -/
def omitEmptyMap (name : String) (m : GoMap String) : List (String × JSON) :=
  if m.len = 0 then [] else [(name, marshalMap m)]

/-- A slice field tagged `omitempty`, its elements already encoded. -/
def omitEmptyList (name : String) (xs : List JSON) : List (String × JSON) :=
  if xs.isEmpty then [] else [(name, .arr xs)]

/-- A pointer field tagged `omitempty`, its target already encoded. -/
def omitNil (name : String) (x : Option JSON) : List (String × JSON) :=
  match x with
  | none => []
  | some j => [(name, j)]

/-- `IntOrString.MarshalJSON`. -/
def marshalIntOrString (i : IntOrString) : JSON :=
  if i.Typ = 0 then .num i.IntVal else .str i.StrVal

/-- Encoding of `HTTPGetAction`. -/
def marshalHTTPGetAction (a : HTTPGetAction) : JSON :=
  .obj (omitEmptyStr "path" a.Path ++ [("port", marshalIntOrString a.Port)])

/-- Encoding of `TCPSocketAction`. -/
def marshalTCPSocketAction (a : TCPSocketAction) : JSON :=
  .obj [("port", marshalIntOrString a.Port)]

/-- Encoding of `Probe`. -/
def marshalProbe (p : Probe) : JSON :=
  .obj (omitNil "httpGet" (p.HTTPGet.map marshalHTTPGetAction)
    ++ omitNil "tcpSocket" (p.TCPSocket.map marshalTCPSocketAction)
    ++ omitEmptyInt "initialDelaySeconds" p.InitialDelaySeconds
    ++ omitEmptyInt "periodSeconds" p.PeriodSeconds)

/-- Encoding of `ContainerPort`. -/
def marshalContainerPort (p : ContainerPort) : JSON :=
  .obj (omitEmptyStr "name" p.Name ++ [("containerPort", .num p.ContainerPort)]
    ++ omitEmptyStr "protocol" p.Protocol)

/-- Encoding of `ResourceRequirements`. -/
def marshalResourceRequirements (r : ResourceRequirements) : JSON :=
  .obj (omitEmptyMap "requests" r.Requests ++ omitEmptyMap "limits" r.Limits)

/-- Encoding of `Container` (a struct field is written even when tagged `omitempty`). -/
def marshalContainer (c : Container) : JSON :=
  .obj ([("name", .str c.Name), ("image", .str c.Image)]
    ++ omitEmptyList "command" (c.Command.map JSON.str)
    ++ omitEmptyList "args" (c.Args.map JSON.str)
    ++ omitEmptyList "ports" (c.Ports.map marshalContainerPort)
    ++ [("resources", marshalResourceRequirements c.Resources)]
    ++ omitNil "livenessProbe" (c.LivenessProbe.map marshalProbe)
    ++ omitNil "readinessProbe" (c.ReadinessProbe.map marshalProbe))

/-- Encoding of `PodSpec`: a nil `Containers` is `null`. -/
def marshalPodSpec (s : PodSpec) : JSON :=
  .obj ([("containers",
      match s.Containers with
      | none => JSON.null
      | some cs => JSON.arr (cs.map marshalContainer))]
    ++ omitEmptyStr "nodeName" s.NodeName
    ++ omitEmptyStr "restartPolicy" s.RestartPolicy)

/-- Encoding of `ObjectMeta`; `timeText` is the RFC 3339 text `time.Time.MarshalJSON`
writes. -/
def marshalObjectMeta (timeText : Time → String) (m : ObjectMeta) : JSON :=
  .obj (omitEmptyStr "name" m.Name
    ++ omitEmptyStr "namespace" m.Namespace
    ++ omitEmptyMap "labels" m.Labels
    ++ omitEmptyMap "annotations" m.Annotations
    ++ omitEmptyStr "resourceVersion" m.ResourceVersion
    ++ [("creationTimestamp", .str (timeText m.CreationTimestamp))]
    ++ omitNil "deletionTimestamp" (m.DeletionTimestamp.map (fun t => JSON.str (timeText t))))

/-- Encoding of `PodTemplateSpec`. -/
def marshalPodTemplateSpec (timeText : Time → String) (t : PodTemplateSpec) : JSON :=
  .obj [("metadata", marshalObjectMeta timeText t.toObjectMeta), ("spec", marshalPodSpec t.Spec)]

end json

/-! ## `internal/controller/deployment` -/

namespace deployment

open api

/-- A lower-case hexadecimal digit. -/
def hexDigit (n : Nat) : Char := "0123456789abcdef".data.getD n '0'

/-- `hex.EncodeToString`. -/
def EncodeToString (bs : List UInt8) : String :=
  String.mk (bs.flatMap (fun b => [hexDigit (b.toNat / 16), hexDigit (b.toNat % 16)]))

/-- `computeHash`.  `render` writes a JSON document as bytes and `sha256` is
`sha256.Sum256`; an encoding error cannot arise for a template. -/
def computeHash (timeText : Time → String) (render : JSON → List UInt8)
    (sha256 : List UInt8 → List UInt8) (template : PodTemplateSpec) : String :=
  let data := render (json.marshalPodTemplateSpec timeText template)
  let hash := sha256 data
  EncodeToString hash

/-- Two resource requirements with the same content. -/
def SameResources (a b : ResourceRequirements) : Prop :=
  a.Requests.Equiv b.Requests ∧ a.Limits.Equiv b.Limits

/-- Two containers with the same content: equal fields, resource maps equal as maps. -/
def SameContainer (a b : Container) : Prop :=
  a.Name = b.Name ∧ a.Image = b.Image ∧ a.Command = b.Command ∧ a.Args = b.Args ∧
  a.Ports = b.Ports ∧ SameResources a.Resources b.Resources ∧
  a.LivenessProbe = b.LivenessProbe ∧ a.ReadinessProbe = b.ReadinessProbe

/-- Two container slices with the same content. -/
def SameContainers : Slice Container → Slice Container → Prop
  | none, none => True
  | some l₁, some l₂ => List.Forall₂ SameContainer l₁ l₂
  | _, _ => False

/-- Two pod templates with the same content: equal fields, the label, annotation and
resource maps equal as finite maps whatever the order of their entries. -/
def SameTemplate (a b : PodTemplateSpec) : Prop :=
  a.Name = b.Name ∧ a.Namespace = b.Namespace ∧ a.Labels.Equiv b.Labels ∧
  a.Annotations.Equiv b.Annotations ∧ a.ResourceVersion = b.ResourceVersion ∧
  a.CreationTimestamp = b.CreationTimestamp ∧ a.DeletionTimestamp = b.DeletionTimestamp ∧
  SameContainers a.Spec.Containers b.Spec.Containers ∧
  a.Spec.NodeName = b.Spec.NodeName ∧ a.Spec.RestartPolicy = b.Spec.RestartPolicy

end deployment

/-! ## `internal/controller/replicaset` -/

namespace replicaset

open api storage apiserver

/-- `labelsMatch` of the ReplicaSet controller.  The `range` over the selector returns
false at the first entry that the labels lack or map to another value; the result does
not depend on the order of the visit. -/
def labelsMatch (selector labels : GoMap String) : Bool :=
  if selector.len = 0 then false
  else
    selector.entries.all (fun e =>
      match labels.get? e.1 with
      | some val => val == e.2
      | none => false)

/-- A registry call of the ReplicaSet controller. -/
inductive Request
  | createPod (pod : Pod)
  | deletePod (name : String)
deriving DecidableEq

/-- The calls `reconcileRS` issues, in order, and whether it then stopped on an index out
of range. -/
structure Issued where
  calls : List Request
  panicked : Bool
deriving DecidableEq

/-- The pod `createPod` sends: the template's metadata and spec, named after the
ReplicaSet with the first five characters of a fresh UUID text (`uuid`). -/
def createPod (rs : ReplicaSet) (uuid : String) : Pod :=
  { Kind := "Pod",
    APIVersion := "v1",
    toObjectMeta :=
      { rs.Spec.Template.toObjectMeta with Name := rs.Name ++ "-" ++ String.mk (uuid.data.take 5) },
    Spec := rs.Spec.Template.Spec }

/-- The scale-up loop, with `n` iterations left; `uuids i` is the UUID drawn by the
iteration `i`. -/
def scaleUp (rs : ReplicaSet) (uuids : Nat → String) : Nat → Nat → List Request
  | _, 0 => []
  | i, n + 1 => .createPod (createPod rs (uuids i)) :: scaleUp rs uuids (i + 1) n

/-- The scale-down loop, with `n` iterations left: `ownedPods[i]` is deleted by name. -/
def scaleDown (ownedPods : List Pod) : Nat → Nat → Issued
  | _, 0 => { calls := [], panicked := false }
  | i, n + 1 =>
    match ownedPods.get? i with
    | none => { calls := [], panicked := true }
    | some pod =>
      { calls := .deletePod pod.Name :: (scaleDown ownedPods (i + 1) n).calls,
        panicked := (scaleDown ownedPods (i + 1) n).panicked }

/-- `Controller.reconcileRS` (the results of the calls are only logged). -/
def reconcileRS (rs : ReplicaSet) (allPods : List Pod) (uuids : Nat → String) : Issued :=
  match rs.Spec.Replicas with
  | none => { calls := [], panicked := false }
  | some desired =>
    let ownedPods := allPods.filter (fun pod => labelsMatch rs.Spec.Selector.MatchLabels pod.Labels)
    let current := wrap32 ownedPods.length
    if current < desired then
      let diff := wrap32 (desired - current)
      { calls := scaleUp rs uuids 0 diff.toNat, panicked := false }
    else if current > desired then
      let diff := wrap32 (current - desired)
      scaleDown ownedPods 0 diff.toNat
    else { calls := [], panicked := false }

/-- Pods on the wire and in the store: the JSON document of a pod is identified with the
pod it decodes to (the name and the labels, which are all the controller reads, survive
encoding and decoding). -/
def podCodec : Codec Pod Pod :=
  { marshal := fun p => .ok p, unmarshal := fun p => .ok p, objectMeta := fun p => p.toObjectMeta }

/-- One registry call of the controller through the client. -/
def issue (beyond : client.Beyond Pod) (s : MemoryStore Pod Pod)
    (write : Option StoreError) : Request → client.Called (MemoryStore Pod Pod)
  | .createPod pod => client.CreatePod podCodec s pod write
  | .deletePod name => client.DeletePod beyond s name write

/-- The calls of one tick issued in order, every one of them succeeding: `none` when a
call returns an error or hangs (`writes i` is the result of the file write of call `i`). -/
def issueAll (beyond : client.Beyond Pod) (writes : Nat → Option StoreError) :
    Nat → MemoryStore Pod Pod → List Request → Option (MemoryStore Pod Pod)
  | _, s, [] => some s
  | i, s, r :: rs =>
    match issue beyond s (writes i) r with
    | .returned none s1 => issueAll beyond writes (i + 1) s1 rs
    | _ => none

/-- The pods of the registry, as `ListPods` returns them, whose labels match the selector
of `rs`. -/
def matchingPods (rs : ReplicaSet) (s : MemoryStore Pod Pod) : List Pod :=
  ((s.data.entries.filter (fun e => HasPrefix e.1 "/registry/pods")).map Prod.snd).filter
    (fun pod => labelsMatch rs.Spec.Selector.MatchLabels pod.Labels)

end replicaset

/-! ## `strings` and `strconv` -/

/-- Go's `strings.HasSuffix(s, suffix)`. -/
def HasSuffix (s suffix : String) : Bool := suffix.data.isSuffixOf s.data

/-- Go's `strings.TrimSuffix(s, suffix)`. -/
def TrimSuffix (s suffix : String) : String :=
  if HasSuffix s suffix then String.mk (s.data.take (s.data.length - suffix.data.length)) else s

namespace strconv

/-- The value of a decimal digit character. -/
def digitVal (c : Char) : Option Nat :=
  if 48 ≤ c.toNat ∧ c.toNat ≤ 57 then some (c.toNat - 48) else none

/-- The character of a decimal digit. -/
def digitChar (d : Nat) : Char := Char.ofNat (48 + d)

/-- What `ParseUint` found. -/
inductive Parsed
  | value (n : Nat)
  | errSyntax
  | errRange
deriving DecidableEq, Repr

/-- The loop of `ParseUint(s, 10, 64)`: a character that is not a digit is a syntax
error, and the first digit that takes the value past `1<<64 - 1` a range error. -/
def ParseUint.loop (n : Nat) : List Char → Parsed
  | [] => .value n
  | c :: cs =>
    match digitVal c with
    | none => .errSyntax
    | some d => if n * 10 + d > 18446744073709551615 then .errRange else loop (n * 10 + d) cs

/-- `strconv.ParseUint(s, 10, 64)`. -/
def ParseUint (s : List Char) : Parsed :=
  if s = [] then .errSyntax else ParseUint.loop 0 s

/-- `strconv.ParseInt(s, 10, 64)`: the value and whether an error came with it.  A syntax
error comes with 0 and a range error with the nearest bound. -/
def ParseInt (s : List Char) : Int × Bool :=
  match s with
  | [] => (0, true)
  | c :: rest =>
    let neg := c == '-'
    let s1 := if c == '+' || c == '-' then rest else s
    match ParseUint s1 with
    | .errSyntax => (0, true)
    | .errRange => if neg then (-9223372036854775808, true) else (9223372036854775807, true)
    | .value un =>
      if !neg && un ≥ 9223372036854775808 then (9223372036854775807, true)
      else if neg && un > 9223372036854775808 then (-9223372036854775808, true)
      else (if neg then -(un : Int) else (un : Int), false)

/-- The digits of `n` put in front of `acc`, most significant first (`fuel` bounds the
number of digits). -/
def natTextAux : Nat → Nat → List Char → List Char
  | 0, _, acc => acc
  | fuel + 1, n, acc =>
    if n < 10 then digitChar n :: acc
    else natTextAux fuel (n / 10) (digitChar (n % 10) :: acc)

/-- The decimal text of a natural number. -/
def natText (n : Nat) : List Char := natTextAux (n + 1) n []

/-- The decimal text of an integer: `strconv.AppendInt(.., n, 10)`. -/
def FormatInt (n : Int) : List Char :=
  if n < 0 then '-' :: natText (-n).toNat else natText n.toNat

/-- A finite `float64`: the number `m * 2 ^ e`, negated when `neg` is set. -/
structure Float64 where
  neg : Bool
  m : Nat
  e : Int
deriving DecidableEq, Repr

/-- The number of binary digits of `n` (`fuel` bounds it). -/
def bitLenAux : Nat → Nat → Nat
  | 0, _ => 0
  | fuel + 1, n => if n = 0 then 0 else bitLenAux fuel (n / 2) + 1

/-- The number of binary digits of `n`: `bits.Len`. -/
def bitLen (n : Nat) : Nat := bitLenAux n n

/-- Whether `2 ^ e ≤ a / b`, for positive `b`. -/
def geTwoPow (a b : Nat) (e : Int) : Bool :=
  if 0 ≤ e then decide (b * 2 ^ e.toNat ≤ a) else decide (b ≤ a * 2 ^ (-e).toNat)

/-- The integer part of the binary logarithm of `a / b`, for positive `a` and `b`: the
difference of the numbers of binary digits, or one less. -/
def floorLog2 (a b : Nat) : Int :=
  let e : Int := (bitLen a : Int) - (bitLen b : Int)
  if geTwoPow a b e then e else e - 1

/-- The integer nearest to `a / b`, the even one of two that are equally near. -/
def roundHalfEven (a b : Nat) : Nat :=
  let q := a / b
  let r := a % b
  if 2 * r < b then q else if b < 2 * r then q + 1 else if q % 2 = 0 then q else q + 1

/-- The `float64` nearest to `a / b` (IEEE 754 round to nearest, ties to even), with the
sign `neg`: 53 significant bits, or fewer below `2 ^ -1022`.  `none`: the magnitude rounds
to `2 ^ 1024` or more, which is an infinity. -/
def nearest64 (neg : Bool) (a b : Nat) : Option Float64 :=
  if a = 0 then some ⟨neg, 0, 0⟩
  else
    let u : Int := max (floorLog2 a b - 52) (-1074)
    let m := if 0 ≤ u then roundHalfEven a (b * 2 ^ u.toNat)
      else roundHalfEven (a * 2 ^ (-u).toNat) b
    if 971 < u ∨ (u = 971 ∧ 9007199254740992 ≤ m) then none else some ⟨neg, m, u⟩

/-- A plain decimal text: an optional sign, digits, and optionally a point and more
digits, with a digit somewhere.  The result is the sign, the number the digits spell
without the point, and the count of digits after the point. -/
def plainDecimal (s : List Char) : Option (Bool × Nat × Nat) :=
  let signed : Bool × List Char := match s with
    | '-' :: r => (true, r)
    | '+' :: r => (false, r)
    | _ => (false, s)
  let whole := signed.2.takeWhile (fun c => c != '.')
  let frac := (signed.2.dropWhile (fun c => c != '.')).drop 1
  let digits := whole ++ frac
  if !digits.isEmpty && digits.all (fun c => (digitVal c).isSome) then
    some (signed.1, digits.foldl (fun acc c => acc * 10 + (c.toNat - 48)) 0, frac.length)
  else none

/-- `strconv.ParseFloat(s, 64)` on a plain decimal text: the nearest `float64`
(`some none` is an infinity, which comes with a range error).  The outer `none` is a
text that is not a plain decimal; what `ParseFloat` makes of exponents, hexadecimal
digits, underscores, infinities and NaN is not embedded. -/
def ParseFloat (s : List Char) : Option (Option Float64) :=
  match plainDecimal s with
  | none => none
  | some (neg, a, k) => some (nearest64 neg a (10 ^ k))

/-- The `float64` product `f * k` for a natural number `k` that is itself a `float64`:
the exact product, rounded. -/
def Float64.mul (f : Float64) (k : Nat) : Option Float64 :=
  if 0 ≤ f.e then nearest64 f.neg (k * f.m * 2 ^ f.e.toNat) 1
  else nearest64 f.neg (k * f.m) (2 ^ (-f.e).toNat)

/-- The conversion `int64(f)`: the fraction is discarded.  `none`: the value is outside
`int64`, where the result depends on the machine. -/
def Float64.toInt64 (f : Float64) : Option Int :=
  let t : Nat := if 0 ≤ f.e then f.m * 2 ^ f.e.toNat else f.m / 2 ^ (-f.e).toNat
  let v : Int := if f.neg then -(t : Int) else (t : Int)
  if -9223372036854775808 ≤ v ∧ v ≤ 9223372036854775807 then some v else none

/-- The `float64` sum `f + k` for a natural number `k` that is itself a `float64` and
is taken with the sign of `f`: the exact sum, rounded. -/
def Float64.add (f : Float64) (k : Nat) : Option Float64 :=
  if 0 ≤ f.e then nearest64 f.neg (k + f.m * 2 ^ f.e.toNat) 1
  else nearest64 f.neg (k * 2 ^ (-f.e).toNat + f.m) (2 ^ (-f.e).toNat)

/-- The conversion `int32(f)`: the fraction is discarded.  `none`: the value is outside
`int32`, where the result depends on the machine. -/
def Float64.toInt32 (f : Float64) : Option Int :=
  let t : Nat := if 0 ≤ f.e then f.m * 2 ^ f.e.toNat else f.m / 2 ^ (-f.e).toNat
  let v : Int := if f.neg then -(t : Int) else (t : Int)
  if -2147483648 ≤ v ∧ v ≤ 2147483647 then some v else none

end strconv

/-! ## `time` -/

/-- `Duration.Seconds` of a duration of `d` nanoseconds: `float64(sec) + float64(nsec)/1e9`
for the whole seconds `sec` and the remaining nanoseconds `nsec` of `d`, both of the sign
of `d`.  The two conversions are exact; the quotient and the sum are rounded. -/
def time.Duration.Seconds (d : Int) : Option strconv.Float64 :=
  match strconv.nearest64 (decide (d < 0)) (Int.tmod d 1000000000).natAbs 1000000000 with
  | none => none
  | some frac => frac.add (Int.tdiv d 1000000000).natAbs



/-! ## `internal/leaderelection` -/

namespace leaderelection

open api storage apiserver

/-- `Config` (durations in nanoseconds; the callbacks and the client are not data). -/
structure Config where
  LockName : String
  Identity : String
  LeaseDuration : Int
  RenewDeadline : Int
  RetryPeriod : Int
deriving DecidableEq

/-- `int32(le.config.LeaseDuration.Seconds())`.  A number of seconds outside `int32` is
converted as amd64 converts it, to -2147483648 (the language leaves that result to the
implementation; whatever it is, it is an `int32`). -/
def leaseDurationSeconds (cfg : Config) : Int :=
  match time.Duration.Seconds cfg.LeaseDuration with
  | some f => f.toInt32.getD (-2147483648)
  | none => -2147483648

/-- What `tryAcquireOrRenew` does after reading the lease: it returns an error without
writing, it issues `CreateLease` or `UpdateLease`, or it dereferences a nil
`LeaseDurationSeconds`. -/
inductive Request
  | fail (msg : String)
  | create (lease : Lease)
  | update (lease : Lease)
  | nilDereference
deriving DecidableEq

/-- The lease written when the lock is taken over (`election.go`, after the checks). -/
def takeOver (cfg : Config) (now : Time) (lease : Lease) : Lease :=
  { lease with
    Spec := { lease.Spec with
      HolderIdentity := some cfg.Identity,
      AcquireTime := some now,
      RenewTime := some now,
      LeaseDurationSeconds := some (leaseDurationSeconds cfg) } }

/-- The part of `tryAcquireOrRenew` between the read and the write: from the result of
`GetLease` (`none` is a lease that was not found) to the request sent to the registry. -/
def tryAcquireOrRenew.request (cfg : Config) (now : Time) : Option Lease → Request
  | none =>
    .create
      { Name := cfg.LockName,
        Spec := { HolderIdentity := some cfg.Identity,
                  AcquireTime := some now,
                  RenewTime := some now,
                  LeaseDurationSeconds := some (leaseDurationSeconds cfg) } }
  | some lease =>
    match lease.Spec.HolderIdentity with
    | none => .update (takeOver cfg now lease)
    | some holder =>
      if holder = cfg.Identity then
        .update { lease with Spec := { lease.Spec with RenewTime := some now } }
      else
        match lease.Spec.RenewTime with
        | none => .update (takeOver cfg now lease)
        | some renewTime =>
          match lease.Spec.LeaseDurationSeconds with
          | none => .nilDereference
          | some seconds =>
            if now < renewTime + seconds * 1000000000 then
              .fail ("lease currently held by " ++ holder)
            else .update (takeOver cfg now lease)

/-- Result of one `tryAcquireOrRenew`: the error it returned (`none` is nil: the caller
leads) and the registry it left, a call that never returned, or a panic. -/
inductive Attempt (σ : Type)
  | returned (err : Option String) (s : σ)
  | hung (s : σ)
  | panicked
deriving DecidableEq

variable {β : Type}

/-- The write that ends `tryAcquireOrRenew`. -/
def tryAcquireOrRenew.perform (c : Codec Lease β) (s : MemoryStore Lease β)
    (write : Option StoreError) : Request → Attempt (MemoryStore Lease β)
  | .fail msg => .returned (some msg) s
  | .nilDereference => .panicked
  | .create lease =>
    match client.CreateLease c s lease write with
    | .returned err s1 => .returned err s1
    | .hung s1 => .hung s1
  | .update lease =>
    match client.UpdateLease c s lease write with
    | .returned err s1 => .returned err s1
    | .hung s1 => .hung s1

/-- `LeaderElector.tryAcquireOrRenew` at time `now` against the registry `s`. -/
def tryAcquireOrRenew (c : Codec Lease β) (cfg : Config) (now : Time)
    (s : MemoryStore Lease β) (write : Option StoreError) : Attempt (MemoryStore Lease β) :=
  match client.GetLease c s cfg.LockName with
  | .error e => .returned (some e) s
  | .ok lease => tryAcquireOrRenew.perform c s write (tryAcquireOrRenew.request cfg now lease)

end leaderelection

/-! ## `internal/controller/service` -/

namespace json

open api

/-- What decoding gives back for a slice field tagged `omitempty` after it was encoded:
an empty slice is left out of the document, so the decoded field is nil. -/
def roundTripSlice {α : Type} (f : α → α) : Slice α → Slice α
  | none => none
  | some [] => none
  | some (x :: xs) => some ((x :: xs).map f)

/-- Encoding and decoding of an `EndpointSubset` (`addresses` and `ports` are
`omitempty`; the fields of an address and of a port come back unchanged). -/
def roundTripEndpointSubset (s : EndpointSubset) : EndpointSubset :=
  { Addresses := roundTripSlice id s.Addresses, Ports := roundTripSlice id s.Ports }

/-- Encoding and decoding of an `Endpoints` object (`subsets` is `omitempty`). -/
def roundTripEndpoints (ep : Endpoints) : Endpoints :=
  { ep with Subsets := roundTripSlice roundTripEndpointSubset ep.Subsets }

end json

namespace service

open api

/-- `isMatch` of the service controller. -/
def isMatch (labels selector : GoMap String) : Bool :=
  selector.entries.all (fun e => (labels.get? e.1).getD "" == e.2)

/-- The pods `reconcileService` keeps: same namespace, labels matching the selector,
phase Running and a pod IP. -/
def matchingPods (svc : Service) (pods : List Pod) : List Pod :=
  pods.filter (fun pod =>
    pod.Namespace == svc.Namespace && isMatch pod.Labels svc.Spec.Selector &&
    (pod.Status.Phase == "Running" && pod.Status.PodIP != ""))

/-- `sort.Slice` of the addresses by `IP` with `<`.  Go sorts up to 12 elements by
insertion, which is this stable sort; longer slices come out sorted as well, but entries
with equal IP may then be ordered differently. -/
def sortAddresses (l : List EndpointAddress) : List EndpointAddress :=
  l.insertionSort (fun a b => strLE a.IP b.IP)

/-- The `EndpointPort` built for one service port. -/
def endpointPort (sp : ServicePort) : EndpointPort :=
  let p : EndpointPort :=
    { Name := sp.Name, Port := sp.TargetPort.IntVal, Protocol := sp.Protocol }
  let p := if sp.Protocol = "" then { p with Protocol := "TCP" } else p
  if sp.TargetPort.Typ = 1 then p
  else if sp.TargetPort.IntVal = 0 then { p with Port := sp.Port }
  else p

/-- The subset `reconcileService` builds: `append` on a nil slice leaves it nil when
nothing is appended. -/
def desiredSubset (svc : Service) (pods : List Pod) : EndpointSubset :=
  { Addresses :=
      match (matchingPods svc pods).map (fun pod =>
          ({ IP := pod.Status.PodIP, NodeName := pod.Spec.NodeName } : EndpointAddress)) with
      | [] => none
      | l => some (sortAddresses l),
    Ports :=
      match svc.Spec.Ports.map endpointPort with
      | [] => none
      | l => some l }

/-- The `desiredEp` of `reconcileService`: `Subsets` starts as the empty, non-nil slice
`[]api.EndpointSubset` and receives the subset when it has an address. -/
def desiredEp (svc : Service) (pods : List Pod) : Endpoints :=
  { Name := svc.Name, Namespace := svc.Namespace, Labels := svc.Labels,
    Subsets :=
      if 0 < (desiredSubset svc pods).Addresses.len then some [desiredSubset svc pods]
      else some [] }

/-- The registry call `reconcileService` ends with. -/
inductive Action
  | nothing
  | create (ep : Endpoints)
  | update (ep : Endpoints)
deriving DecidableEq

/-- `ServiceController.reconcileService`, given the results of its two reads (`ListPods`
and `GetEndpoints`): the call it issues, or the read error it returns.
`reflect.DeepEqual` on the subsets is equality of the `Slice` values. -/
def reconcileService (svc : Service) (listPods : Except String (List Pod))
    (getEndpoints : Except String (Option Endpoints)) : Except String Action :=
  if svc.Spec.Selector.len = 0 then .ok .nothing
  else
    match listPods with
    | .error e => .error e
    | .ok pods =>
      match getEndpoints with
      | .error e => .error e
      | .ok none => .ok (.create (desiredEp svc pods))
      | .ok (some existingEp) =>
        if existingEp.Subsets ≠ (desiredEp svc pods).Subsets then
          .ok (.update { existingEp with Subsets := (desiredEp svc pods).Subsets })
        else .ok .nothing

end service

/-! ## Vocabulary for the registry properties -/

namespace storage

variable {α β : Type}

/-- The watcher after an event for `key` was sent: the event is appended to the channel
of a watcher whose `keyPrefix` begins the key, any other watcher is untouched. -/
def deliver (e : Event α β) (key : String) (w : memoryWatcher α β) : memoryWatcher α β :=
  if HasPrefix key w.keyPrefix then { w with resultChan := w.resultChan ++ [e] } else w

/-- Some watcher subscribed to a prefix of `key` has its channel filled to capacity, so
that a send to it waits. -/
def wouldBlock (key : String) (ws : List (memoryWatcher α β)) : Bool :=
  ws.any (fun w => HasPrefix key w.keyPrefix && decide (resultChanCap ≤ w.resultChan.length))

/-- A call on the registry or on one of its subscriptions. -/
inductive Call (α : Type)
  | create (key : String) (obj : α) (write : Option StoreError)
  | update (key : String) (obj : α) (write : Option StoreError)
  | delete (key : String) (write : Option StoreError)
  | watch (keyPrefix : String) (ptr : Nat)
  | stop (ptr : Nat)
  | recv (ptr : Nat)
deriving DecidableEq

/-- The key and the event of a mutation applied to the store `s`: Added and Modified carry
the object of the call, Deleted the body stored under the key. -/
def Call.event (s : MemoryStore α β) : Call α → Option (String × Event α β)
  | .create key obj _ => some (key, ⟨.Added, .obj obj⟩)
  | .update key obj _ => some (key, ⟨.Modified, .obj obj⟩)
  | .delete key _ => (s.data.get? key).map (fun raw => (key, ⟨.Deleted, .decoded raw⟩))
  | .watch _ _ => none
  | .stop _ => none
  | .recv _ => none

/-- One call that goes through: a mutation has to return nil, a receive has to find an
event, which is reported with the receiving watcher. -/
def step (marshal : α → Except StoreError β) (s : MemoryStore α β) :
    Call α → Option (MemoryStore α β × Option (Nat × Event α β))
  | .create key obj write =>
    match s.Create marshal key obj write with
    | .returned none s1 => some (s1, none)
    | _ => none
  | .update key obj write =>
    match s.Update marshal key obj write with
    | .returned none s1 => some (s1, none)
    | _ => none
  | .delete key write =>
    match s.Delete key write with
    | .returned none s1 => some (s1, none)
    | _ => none
  | .watch keyPrefix ptr => some (s.Watch keyPrefix ptr, none)
  | .stop ptr => some (memoryWatcher.Stop s ptr, none)
  | .recv ptr =>
    match recv s ptr with
    | some (e, s1) => some (s1, some (ptr, e))
    | none => none

/-- A sequence of calls every one of which goes through: the final store, the events of
the mutations in the order they were applied (each with its key), and the events received
by the subscribers in the order they were taken (each with the receiving watcher). -/
def run (marshal : α → Except StoreError β) : MemoryStore α β → List (Call α) →
    Option (MemoryStore α β × List (String × Event α β) × List (Nat × Event α β))
  | s, [] => some (s, [], [])
  | s, c :: cs =>
    match step marshal s c with
    | none => none
    | some (s1, rcpt) =>
      match run marshal s1 cs with
      | none => none
      | some (s2, muts, rcpts) => some (s2, (c.event s).toList ++ muts, rcpt.toList ++ rcpts)

/-- The key and the event type a mutation call stands for: Create is Added, Update is
Modified, Delete is Deleted. -/
def Call.kind : Call α → Option (String × EventType)
  | .create key _ _ => some (key, .Added)
  | .update key _ _ => some (key, .Modified)
  | .delete key _ => some (key, .Deleted)
  | .watch _ _ => none
  | .stop _ => none
  | .recv _ => none

/-- The events of `muts` whose key begins with `keyPrefix`, in order. -/
def matching (keyPrefix : String) (muts : List (String × Event α β)) : List (Event α β) :=
  (muts.filter (fun m => HasPrefix m.1 keyPrefix)).map Prod.snd

/-- The events of `rcpts` taken by watcher `ptr`, in order. -/
def takenBy (ptr : Nat) (rcpts : List (Nat × Event α β)) : List (Event α β) :=
  (rcpts.filter (fun r => r.1 == ptr)).map Prod.snd

/-- The watcher `ptr` as the store holds it. -/
def MemoryStore.watcher? (s : MemoryStore α β) (ptr : Nat) : Option (memoryWatcher α β) :=
  s.watchers.find? (fun w => w.ptr == ptr)

end storage

/-! ## Concrete inputs -/

namespace examples

open storage apiserver api

/-- Leases on the wire and in the store: the JSON document of a lease is identified with
the lease it decodes to (every field of `Lease` survives encoding and decoding). -/
def leaseCodec : Codec Lease Lease :=
  { marshal := fun l => .ok l, unmarshal := fun l => .ok l, objectMeta := fun l => l.toObjectMeta }

/-- A lease named `lock` carrying the given resourceVersion and holder. -/
def leaseAt (rv holder : String) : Lease :=
  { Name := "lock", ResourceVersion := rv, Spec := { HolderIdentity := some holder } }

/-- The key of the lease `lock`. -/
def lockKey : String := registryKey "leases" "lock"

/-- A registry whose only object is the lease `lock` at resourceVersion 5. -/
def storeV5 : MemoryStore Lease Lease :=
  { data := GoMap.empty.set lockKey (leaseAt "5" "a"), watchers := [], filePath := "" }

/-- An empty registry watched by one subscriber of the lease keys. -/
def watchedStore : MemoryStore Lease Lease :=
  (NewMemoryStore "").Watch "/registry/leases" 0

/-- Ten events, a full channel. -/
def tenEvents : List (Event Lease Lease) :=
  List.replicate 10 ⟨.Added, .obj (leaseAt "1" "a")⟩

/-- The registry `watchedStore` after `lock` was created at resourceVersion 5. -/
def createdV5 : MemoryStore Lease Lease :=
  { data := GoMap.empty.set lockKey (leaseAt "5" "a"),
    watchers := [{ ptr := 0, resultChan := [⟨.Added, .obj (leaseAt "5" "a")⟩],
                   keyPrefix := "/registry/leases" }],
    filePath := "" }

/-- The registry `createdV5` after `lock` was updated with an object at resourceVersion 3. -/
def updatedV3 : MemoryStore Lease Lease :=
  { data := (GoMap.empty.set lockKey (leaseAt "5" "a")).set lockKey (leaseAt "3" "a"),
    watchers := [{ ptr := 0,
                   resultChan := [⟨.Added, .obj (leaseAt "5" "a")⟩,
                                  ⟨.Modified, .obj (leaseAt "3" "a")⟩],
                   keyPrefix := "/registry/leases" }],
    filePath := "" }

/-- The registry holding `lock` with three subscribers of the lease keys: the second has
ten undelivered events, the first and the third none. -/
def slowMiddleStore : MemoryStore Lease Lease :=
  { data := GoMap.empty.set lockKey (leaseAt "5" "a"),
    watchers := [{ ptr := 1, resultChan := [], keyPrefix := "/registry/leases" },
                 { ptr := 0, resultChan := tenEvents, keyPrefix := "/registry/leases" },
                 { ptr := 2, resultChan := [], keyPrefix := "/registry/leases" }],
    filePath := "" }

/-- A key outside the lease keys. -/
def podKey : String := registryKey "pods" "x"

/-- Calls made after a subscription to the lease keys: two mutations of `lock` around a
receive, one mutation of another key, and the deletion of `lock`. -/
def someCalls : List (Call Lease) :=
  [.create lockKey (leaseAt "5" "a") none, .recv 0, .update lockKey (leaseAt "3" "a") none,
   .create podKey (leaseAt "1" "z") none, .delete lockKey none]

/-- The registry after `someCalls`. -/
def afterSomeCalls : MemoryStore Lease Lease :=
  { data := (((GoMap.empty.set lockKey (leaseAt "5" "a")).set lockKey (leaseAt "3" "a")).set
      podKey (leaseAt "1" "z")).delete lockKey,
    watchers := [{ ptr := 0,
                   resultChan := [⟨.Modified, .obj (leaseAt "3" "a")⟩,
                                  ⟨.Deleted, .decoded (leaseAt "3" "a")⟩],
                   keyPrefix := "/registry/leases" }],
    filePath := "" }

/-- The events of the mutations of `someCalls`. -/
def someMutations : List (String × Event Lease Lease) :=
  [(lockKey, ⟨.Added, .obj (leaseAt "5" "a")⟩), (lockKey, ⟨.Modified, .obj (leaseAt "3" "a")⟩),
   (podKey, ⟨.Added, .obj (leaseAt "1" "z")⟩), (lockKey, ⟨.Deleted, .decoded (leaseAt "3" "a")⟩)]

end examples

namespace examples

open api

/-- A stand-in for the RFC 3339 text of an instant (the decimal nanosecond count). -/
def timeText (t : Time) : String := toString t

/-- A stand-in for the byte writer of `encoding/json`. -/
def render (_ : JSON) : List UInt8 := []

/-- A stand-in for `sha256.Sum256`. -/
def digest (bs : List UInt8) : List UInt8 := bs

/-- A container whose resource requests were filled in one order. -/
def containerAB : Container :=
  { Name := "c",
    Image := "nginx",
    Resources := { Requests := ⟨[("cpu", "100m"), ("memory", "64Mi")], (by decide)⟩ } }

/-- The same container with its resource requests filled in the other order. -/
def containerBA : Container :=
  { Name := "c",
    Image := "nginx",
    Resources := { Requests := ⟨[("memory", "64Mi"), ("cpu", "100m")], (by decide)⟩ } }

/-- A pod template whose maps were filled in one order. -/
def templateAB : PodTemplateSpec :=
  { Labels := ⟨[("app", "web"), ("tier", "fe")], (by decide)⟩,
    Spec := { Containers := some [containerAB] } }

/-- The same pod template with its maps filled in the other order. -/
def templateBA : PodTemplateSpec :=
  { Labels := ⟨[("tier", "fe"), ("app", "web")], (by decide)⟩,
    Spec := { Containers := some [containerBA] } }

end examples

namespace examples

open storage apiserver api

/-- Endpoints on the wire and in the store: a document is identified with the value it
decodes to, so encoding is the round trip through JSON. -/
def endpointsCodec : Codec Endpoints Endpoints :=
  { marshal := fun ep => .ok (json.roundTripEndpoints ep),
    unmarshal := fun ep => .ok ep,
    objectMeta := fun ep => ep.toObjectMeta }

/-- A service selecting the pods labelled `app=web`. -/
def webService : Service :=
  { Name := "web",
    Spec := { Selector := ⟨[("app", "web")], (by decide)⟩, Ports := [{ Port := 80 }] } }

/-- The Endpoints object of `web` as the registry returns it when no pod backs the
service: the `subsets` member is absent, the field decodes to nil. -/
def storedWebEndpoints : Endpoints := { Name := "web", Subsets := none }

/-- The registry holding `storedWebEndpoints`. -/
def webRegistry : MemoryStore Endpoints Endpoints :=
  { data := GoMap.empty.set (registryKey "endpoints" "web") storedWebEndpoints,
    watchers := [], filePath := "" }

/-- The registry after one more Update of the same object. -/
def webRegistryAgain : MemoryStore Endpoints Endpoints :=
  { data := (GoMap.empty.set (registryKey "endpoints" "web") storedWebEndpoints).set
      (registryKey "endpoints" "web") storedWebEndpoints,
    watchers := [], filePath := "" }

end examples


namespace examples

open storage apiserver api leaderelection

/-- Second: one second in nanoseconds. -/
def second : Int := 1000000000

/-- The elector with identity `a` (15 s lease, 10 s renew deadline, 2 s retry period). -/
def electorA : Config :=
  { LockName := "lock", Identity := "a", LeaseDuration := 15 * second,
    RenewDeadline := 10 * second, RetryPeriod := 2 * second }

/-- The elector with identity `b`. -/
def electorB : Config :=
  { LockName := "lock", Identity := "b", LeaseDuration := 15 * second,
    RenewDeadline := 10 * second, RetryPeriod := 2 * second }

/-- The lease `lock` held by `holder` since `t`, for 15 seconds. -/
def leaseHeld (holder : String) (t : Time) : Lease :=
  { Name := "lock",
    Spec := { HolderIdentity := some holder, LeaseDurationSeconds := some 15,
              AcquireTime := some t, RenewTime := some t } }

/-- The registry holding the given lease under the key of `lock`. -/
def leaseRegistry (l : Lease) : MemoryStore Lease Lease :=
  { data := GoMap.empty.set lockKey l, watchers := [], filePath := "" }

/-- The registry after one more write of the lease. -/
def leaseRegistry2 (l₁ l₂ : Lease) : MemoryStore Lease Lease :=
  { data := (GoMap.empty.set lockKey l₁).set lockKey l₂, watchers := [], filePath := "" }

/-- The registry after two more writes of the lease. -/
def leaseRegistry3 (l₁ l₂ l₃ : Lease) : MemoryStore Lease Lease :=
  { data := ((GoMap.empty.set lockKey l₁).set lockKey l₂).set lockKey l₃,
    watchers := [], filePath := "" }

end examples


namespace examples

open storage apiserver api replicaset

/-- The labels `app=web`. -/
def webLabels : GoMap String := ⟨[("app", "web")], (by decide)⟩

/-- A ReplicaSet asking for two replicas of a template labelled like its selector. -/
def webRS : ReplicaSet :=
  { Name := "web",
    Spec := { Replicas := some 2,
              Selector := { MatchLabels := webLabels },
              Template := { Labels := webLabels } } }

/-- The registry after the first tick for `webRS`: the two pods it created. -/
def twoWebPods : MemoryStore Pod Pod :=
  { data := (GoMap.empty.set (registryKey "pods" "web-aaaaa") (createPod webRS "aaaaa")).set
      (registryKey "pods" "web-bbbbb") (createPod webRS "bbbbb"),
    watchers := [], filePath := "" }

end examples

/-! ## `encoding/json` on texts -/

namespace json

/-- JSON white space. -/
def isSpace (c : Char) : Bool := c == ' ' || c == '\t' || c == '\r' || c == '\n'

/-- A text without the white space around it. -/
def trimSpace (data : List Char) : List Char :=
  ((data.dropWhile isSpace).reverse.dropWhile isSpace).reverse

/-- Whether a text is `0` or a digit other than `0` followed by digits. -/
def unsignedLiteral (digits : List Char) : Bool :=
  match digits with
  | [] => false
  | c :: rest =>
    if c == '0' then rest.isEmpty
    else (strconv.digitVal c).isSome && rest.all (fun d => (strconv.digitVal d).isSome)

/-- Whether a text is a JSON number without fraction and exponent: an optional minus
sign, then `0` or a digit other than `0` followed by digits. -/
def integerLiteral (item : List Char) : Bool :=
  match item with
  | [] => false
  | c :: rest => if c == '-' then unsignedLiteral rest else unsignedLiteral item

/-- `json.Unmarshal(data, &n)` for a fresh `n` of type `int32`.  The literal `null` leaves
`n` at 0; a number is read with `strconv.ParseInt` and must fit; a number with a
fraction or an exponent, a value of another kind and a text that is not JSON are
errors. -/
def unmarshalInt32 (data : List Char) : Except String Int :=
  let item := trimSpace data
  if item = ['n', 'u', 'l', 'l'] then .ok 0
  else if integerLiteral item then
    match strconv.ParseInt item with
    | (n, false) =>
      if -2147483648 ≤ n ∧ n ≤ 2147483647 then .ok n
      else .error "json: cannot unmarshal number into Go value of type int32"
    | (_, true) => .error "json: cannot unmarshal number into Go value of type int32"
  else .error "json: cannot unmarshal into Go value of type int32"

/-- A lower-case hexadecimal digit, as the encoder writes it. -/
def hex (n : Nat) : Char := "0123456789abcdef".data.getD n '0'

/-- The value of a hexadecimal digit of either case. -/
def hexVal (c : Char) : Option Nat :=
  if 48 ≤ c.toNat ∧ c.toNat ≤ 57 then some (c.toNat - 48)
  else if 97 ≤ c.toNat ∧ c.toNat ≤ 102 then some (c.toNat - 87)
  else if 65 ≤ c.toNat ∧ c.toNat ≤ 70 then some (c.toNat - 55)
  else none

/-- The number four hexadecimal digits spell (`getu4` after the `\u`). -/
def hex4 (a b c d : Char) : Option Nat :=
  match hexVal a, hexVal b, hexVal c, hexVal d with
  | some x, some y, some z, some w => some (x * 4096 + y * 256 + z * 16 + w)
  | _, _, _, _ => none

/-- The character a one-letter escape stands for. -/
def simpleEscape (e : Char) : Option Char :=
  if e = '"' then some '"'
  else if e = '\\' then some '\\'
  else if e = '/' then some '/'
  else if e = 'b' then some (Char.ofNat 8)
  else if e = 'f' then some (Char.ofNat 12)
  else if e = 'n' then some '\n'
  else if e = 'r' then some '\r'
  else if e = 't' then some '\t'
  else none

/-- The replacement character U+FFFD. -/
def replacementChar : Char := Char.ofNat 65533

/-- The character an escape stands for and the text after the escape; the argument is
the text after the backslash.  A `\u` escape that is half of a surrogate pair is
combined with the other half when that follows, and is U+FFFD otherwise. -/
def escaped (rest : List Char) : Option (Char × List Char) :=
  match rest with
  | [] => none
  | e :: rest1 =>
    if e = 'u' then
      match rest1 with
      | h1 :: h2 :: h3 :: h4 :: rest2 =>
        match hex4 h1 h2 h3 h4 with
        | none => none
        | some rr =>
          if 55296 ≤ rr ∧ rr < 57344 then
            match rest2 with
            | b :: u :: l1 :: l2 :: l3 :: l4 :: rest3 =>
              match hex4 l1 l2 l3 l4 with
              | some rr1 =>
                if b = '\\' ∧ u = 'u' ∧ rr < 56320 ∧ 56320 ≤ rr1 ∧ rr1 < 57344 then
                  some (Char.ofNat ((rr - 55296) * 1024 + (rr1 - 56320) + 65536), rest3)
                else some (replacementChar, rest2)
              | none => some (replacementChar, rest2)
            | _ => some (replacementChar, rest2)
          else some (Char.ofNat rr, rest2)
      | _ => none
    else
      match simpleEscape e with
      | some ch => some (ch, rest1)
      | none => none

/-- The text of a JSON string literal after its opening quote, up to the closing quote,
which has to end the text (`unquote`, after the validity scan).  A control character
and an unknown escape make the text invalid.  `fuel` bounds the number of characters
read. -/
def stringBodyAux : Nat → List Char → Option (List Char)
  | 0, _ => none
  | _ + 1, [] => none
  | fuel + 1, c :: rest =>
    if c = '"' then (if rest.isEmpty then some [] else none)
    else if c = '\\' then
      match escaped rest with
      | some (ch, rest1) => (stringBodyAux fuel rest1).map (fun s => ch :: s)
      | none => none
    else if c.toNat < 32 then none
    else (stringBodyAux fuel rest).map (fun s => c :: s)

/-- The text of a JSON string literal after its opening quote. -/
def stringBody (body : List Char) : Option (List Char) := stringBodyAux body.length body

/-- `json.Unmarshal(data, &s)` for a fresh `s` of type `string`. -/
def unmarshalString (data : List Char) : Except String String :=
  let item := trimSpace data
  if item = ['n', 'u', 'l', 'l'] then .ok ""
  else match item with
    | '"' :: body =>
      match stringBody body with
      | some s => .ok (String.mk s)
      | none => .error "invalid character in string literal"
    | _ => .error "json: cannot unmarshal into Go value of type string"

/-- What the encoder writes for one character of a string (`escapeHTML` is on for
`json.Marshal`).  `short` tells whether backspace and form feed are written `\b` and
`\f` (Go 1.22 and later) or as `\u0008` and `\u000c`. -/
def escapeChar (short : Bool) (c : Char) : List Char :=
  if c = '"' then ['\\', '"']
  else if c = '\\' then ['\\', '\\']
  else if c = '\n' then ['\\', 'n']
  else if c = '\r' then ['\\', 'r']
  else if c = '\t' then ['\\', 't']
  else if short ∧ c = Char.ofNat 8 then ['\\', 'b']
  else if short ∧ c = Char.ofNat 12 then ['\\', 'f']
  else if c.toNat < 32 ∨ c = '<' ∨ c = '>' ∨ c = '&' then
    ['\\', 'u', '0', '0', hex (c.toNat / 16), hex (c.toNat % 16)]
  else if c.toNat = 8232 ∨ c.toNat = 8233 then
    ['\\', 'u', '2', '0', '2', hex (c.toNat % 16)]
  else [c]

/-- `json.Marshal(s)` for a string. -/
def marshalString (short : Bool) (s : String) : List Char :=
  '"' :: (s.data.flatMap (escapeChar short) ++ ['"'])

/-- `json.Marshal(n)` for an `int32`. -/
def marshalInt32 (n : Int) : List Char := strconv.FormatInt n

end json

namespace api

/-- `IntOrString.MarshalJSON`, as bytes. -/
def IntOrString.MarshalJSON (short : Bool) (i : IntOrString) : List Char :=
  if i.Typ = 0 then json.marshalInt32 i.IntVal
  else json.marshalString short i.StrVal

/-- `IntOrString.UnmarshalJSON`: the receiver after the call, or the error. -/
def IntOrString.UnmarshalJSON (i : IntOrString) (data : List Char) :
    Except String IntOrString :=
  match data with
  | [] => .ok i
  | c :: _ =>
    if c = '"' then
      match json.unmarshalString data with
      | .error err => .error err
      | .ok s => .ok { i with Typ := 1, StrVal := s }
    else
      match json.unmarshalInt32 data with
      | .error err => .error err
      | .ok n => .ok { i with Typ := 0, IntVal := n }

end api

/-! ## `internal/scheduler` -/

namespace api

/-- `NodeSpec`. -/
structure NodeSpec where
  Unschedulable : Bool := false
  PodCIDR : String := ""
deriving DecidableEq

/-- `NodeCondition`. -/
structure NodeCondition where
  Typ : String := ""
  Status : String := ""
  LastHeartbeatTime : Time := 0
deriving DecidableEq

/-- `NodeAddress`. -/
structure NodeAddress where
  Typ : String := ""
  Address : String := ""
deriving DecidableEq

/-- `NodeSystemInfo`. -/
structure NodeSystemInfo where
  MachineID : String := ""
  KernelVersion : String := ""
  OSImage : String := ""
  ContainerRuntimeVersion : String := ""
  KubeletVersion : String := ""
  OperatingSystem : String := ""
  Architecture : String := ""
deriving DecidableEq

/-- `NodeStatus`. -/
structure NodeStatus where
  Capacity : ResourceList := GoMap.empty
  Allocatable : ResourceList := GoMap.empty
  Conditions : List NodeCondition := []
  Addresses : List NodeAddress := []
  NodeInfo : NodeSystemInfo := {}
deriving DecidableEq

/-- `Node`. -/
structure Node extends TypeMeta, ObjectMeta where
  Spec : NodeSpec := {}
  Status : NodeStatus := {}
deriving DecidableEq

end api

namespace scheduler

open api

/-- `getRequest`: both branches return the text `"0"`. -/
def getRequest (pod : Pod) (_resourceName : String) : String :=
  if pod.Spec.Containers.len > 0 then "0" else "0"

/-- `parseCPU`: millicores.  `beyond val` stands for the result on a text for which
`ParseFloat`, the product or the conversion is not embedded. -/
def parseCPU (beyond : String → Int) (val : String) : Int :=
  if val = "" then 0
  else if HasSuffix val "m" then (strconv.ParseInt (TrimSuffix val "m").data).1
  else
    match strconv.ParseFloat val.data with
    | some (some f) =>
      match f.mul 1000 with
      | some g =>
        match g.toInt64 with
        | some i => i
        | none => beyond val
      | none => beyond val
    | _ => beyond val

/-- `Scheduler.podFitsResources`. -/
def podFitsResources (beyond : String → Int) (pod : Pod) (node : Node) : Bool :=
  let isReady := node.Status.Conditions.any (fun cond => cond.Typ == "Ready" && cond.Status == "True")
  if !isReady then false
  else
    let podCPU := parseCPU beyond (getRequest pod "cpu")
    let nodeCPU := parseCPU beyond ((node.Status.Capacity.get? "cpu").getD "")
    if podCPU > nodeCPU then false else true

/-- `Scheduler.selectNode`; `rand.Intn(n)` returns a number below `n`, here the
remainder of the number `pick` drawn for the call (so the last case is never reached).
The error result is always nil. -/
def selectNode (beyond : String → Int) (pick : Nat) (pod : Pod) (nodes : List Node) : String :=
  let feasible := nodes.filter (podFitsResources beyond pod)
  if feasible.length = 0 then ""
  else
    match feasible.get? (pick % feasible.length) with
    | some selected => selected.Name
    | none => ""

/-- `Scheduler.bind`: the pod sent with `UpdatePod`. -/
def bind (pod : Pod) (nodeName : String) : Pod :=
  { pod with Spec := { pod.Spec with NodeName := nodeName } }

/-- The loop of `scheduleOneRound` over the unscheduled pods: the pods sent with
`UpdatePod`, in order.  `picks` holds, for each pod in turn, the number drawn for it
when `selectNode` draws one. -/
def scheduleEach (beyond : String → Int) (nodes : List Node) : List Pod → List Nat → List Pod
  | [], _ => []
  | pod :: rest, picks =>
    let node := selectNode beyond (picks.headD 0) pod nodes
    let more := scheduleEach beyond nodes rest picks.tail
    if node != "" then bind pod node :: more else more

/-- `Scheduler.scheduleOneRound`: the pods sent with `UpdatePod`.  `listPods` and
`listNodes` are the results of the two list calls. -/
def scheduleOneRound (beyond : String → Int) (listPods : Except String (List Pod))
    (listNodes : Except String (List Node)) (picks : List Nat) : List Pod :=
  match listPods with
  | .error _ => []
  | .ok pods =>
    let unscheduled := pods.filter (fun p => p.Spec.NodeName == "")
    if unscheduled.length = 0 then []
    else
      match listNodes with
      | .error _ => []
      | .ok nodes =>
        if nodes.length = 0 then [] else scheduleEach beyond nodes unscheduled picks

end scheduler

namespace examples

open api

/-- A pod whose only container requests two cores. -/
def hungryPod : Pod :=
  { Name := "hungry",
    Spec := { Containers := some [{ Name := "app", Image := "app:1",
                                    Resources := { Requests := ⟨[("cpu", "2")], by decide⟩ } }] } }

/-- A ready node with one core, of capacity and allocatable alike. -/
def smallNode : Node :=
  { Name := "small",
    Status := { Capacity := ⟨[("cpu", "1")], by decide⟩,
                Allocatable := ⟨[("cpu", "1")], by decide⟩,
                Conditions := [{ Typ := "Ready", Status := "True" }] } }

end examples

/-! ## Vocabulary for the resource server properties -/

namespace apiserver

open storage

variable {α β : Type}

/-- A request that writes to the registry, as the router passes it to a handler (the name
is the `{name}` of the URL, the body the document sent); `write` is the result of the
file write the request leads to. -/
inductive Request (β : Type)
  | create (resource : String) (body : β) (write : Option StoreError)
  | update (resource name : String) (body : β) (write : Option StoreError)
  | delete (resource name : String) (write : Option StoreError)

/-- The store a handler leaves behind. -/
def Handled.store {σ : Type} : Handled α σ → σ
  | .response _ _ s => s
  | .hung s => s

/-- The handler the router calls for a request; `codec resource` is the JSON handling of
the Go type that the handler's `switch resource` picks. -/
def serve (codec : String → Codec α β) (s : MemoryStore α β) :
    Request β → Handled α (MemoryStore α β)
  | .create resource body write => handleCreate (codec resource) s resource body write
  | .update resource name body write => handleUpdate (codec resource) s resource name body write
  | .delete resource name write => handleDelete s resource name write

/-- The registry after a sequence of requests served one after the other.  A handler that
hangs keeps the lock of the store, so no later request gets to the registry. -/
def serveAll (codec : String → Codec α β) :
    MemoryStore α β → List (Request β) → MemoryStore α β
  | s, [] => s
  | s, r :: rest =>
    match serve codec s r with
    | .response _ _ s1 => serveAll codec s1 rest
    | .hung s1 => s1

/-- Every key of the registry is the key of a resource and a non-empty name. -/
def KeysNamed (s : MemoryStore α β) : Prop :=
  ∀ e ∈ s.data.entries, ∃ resource name, name ≠ "" ∧ e.1 = registryKey resource name

end apiserver

namespace examples

open api apiserver storage

/-- The lease `lock`, sent again without its name. -/
def namelessLease : Lease := { leaseAt "2" "a" with Name := "" }

/-- The pod `web` of the given namespace. -/
def podIn (ns : String) : Pod := { Name := "web", Namespace := ns }

end examples

/-! ## Vocabulary and inputs for take-over, deletion, listing and scaling -/

namespace replicaset

/-- The pods of the `CreatePod` calls among `calls`, in order. -/
def creations : List Request → List api.Pod
  | [] => []
  | .createPod pod :: rest => pod :: creations rest
  | .deletePod _ :: rest => creations rest

/-- The names of the `DeletePod` calls among `calls`, in order. -/
def deletions : List Request → List String
  | [] => []
  | .createPod _ :: rest => deletions rest
  | .deletePod name :: rest => name :: deletions rest

end replicaset

namespace examples

open api storage apiserver replicaset

/-- The lease `lock` held by `c` since the zero instant for 15 seconds, after three
transitions. -/
def leaseHeldThrice : Lease :=
  { Name := "lock",
    Spec := { HolderIdentity := some "c", LeaseDurationSeconds := some 15,
              AcquireTime := some 0, RenewTime := some 0, LeaseTransitions := some 3 } }

/-- A stored document: the JSON of a lease, or the JSON of a Go string (`Create` takes any
`interface{}`). -/
inductive Document
  | lease (l : Lease)
  | text (s : String)
deriving DecidableEq

/-- `json.Unmarshal` of a stored document into a fresh `api.Lease`. -/
def unmarshalLease : Document → Except StoreError Lease
  | .lease l => .ok l
  | .text _ => .error (.other "json: cannot unmarshal string into Go value of type api.Lease")

/-- A registry holding the lease `lock` and, under another lease key, a string. -/
def mixedStore : MemoryStore Lease Document :=
  { data := (GoMap.empty.set lockKey (.lease (leaseAt "5" "a"))).set
      (registryKey "leases" "note") (.text "remember"),
    watchers := [], filePath := "" }

/-- The ReplicaSet `webRS` without a replica count. -/
def idleRS : ReplicaSet :=
  { Name := "web",
    Spec := { Replicas := none,
              Selector := { MatchLabels := webLabels },
              Template := { Labels := webLabels } } }

/-- Two pods carrying the labels of the selector of `webRS`. -/
def webPods : List Pod := [createPod webRS "aaaaa", createPod webRS "bbbbb"]

end examples

/-! ## `internal/controller/deployment`: the reconciler -/

namespace api

/-- `RollingUpdateDeployment`. -/
structure RollingUpdateDeployment where
  MaxUnavailable : Option IntOrString := none
  MaxSurge : Option IntOrString := none
deriving DecidableEq

/-- `DeploymentStrategy`. -/
structure DeploymentStrategy where
  Typ : String := ""
  RollingUpdate : Option RollingUpdateDeployment := none
deriving DecidableEq

/-- `DeploymentSpec`. -/
structure DeploymentSpec where
  Replicas : Option Int := none
  Selector : LabelSelector := {}
  Template : PodTemplateSpec := {}
  Strategy : DeploymentStrategy := {}
deriving DecidableEq

/-- `DeploymentStatus`. -/
structure DeploymentStatus where
  ObservedGeneration : Int := 0
  Replicas : Int := 0
  UpdatedReplicas : Int := 0
  ReadyReplicas : Int := 0
  AvailableReplicas : Int := 0
  UnavailableReplicas : Int := 0
deriving DecidableEq

/-- `Deployment`. -/
structure Deployment extends TypeMeta, ObjectMeta where
  Spec : DeploymentSpec := {}
  Status : DeploymentStatus := {}
deriving DecidableEq

end api

namespace deployment

open api

/-- `labelsMatch` of the Deployment controller: a label that is missing reads as the
empty string, and an empty selector matches. -/
def labelsMatch (selector labels : GoMap String) : Bool :=
  selector.entries.all (fun e => (labels.get? e.1).getD "" == e.2)

/-- The annotation that carries the template hash. -/
def revisionAnnotation : String := "deployment.kubernetes.io/revision"

/-- A registry write of the Deployment controller. -/
inductive Request
  | createReplicaSet (rs : ReplicaSet)
  | updateReplicaSet (rs : ReplicaSet)
deriving DecidableEq

/-- The ReplicaSet `createNewReplicaSet` builds and sends with `CreateReplicaSet`. -/
def createNewReplicaSet (d : Deployment) (hash : String) : ReplicaSet :=
  let replicas : Int :=
    match d.Spec.Replicas with
    | some n => n
    | none => 0
  { Kind := "ReplicaSet",
    APIVersion := "apps/v1",
    Name := d.Name ++ "-" ++ String.mk (hash.data.take 10),
    Namespace := d.Namespace,
    Labels := d.Spec.Template.Labels,
    Annotations := GoMap.empty.set revisionAnnotation hash,
    Spec := { Replicas := some replicas, Selector := d.Spec.Selector, Template := d.Spec.Template } }

/-- The ReplicaSets `syncDeployment` takes as owned: those whose labels match the
selector of the Deployment, in list order. -/
def ownedRS (d : Deployment) (allRS : List ReplicaSet) : List ReplicaSet :=
  allRS.filter (fun rs => labelsMatch d.Spec.Selector.MatchLabels rs.Labels)

/-- The first owned ReplicaSet that carries the hash in its revision annotation. -/
def findNewRS (hash : String) (owned : List ReplicaSet) : Option ReplicaSet :=
  owned.find? (fun rs => (rs.Annotations.get? revisionAnnotation).getD "" == hash)

/-- The `desiredReplicas` of `syncDeployment`: 1 unless the Deployment gives a count. -/
def desiredReplicas (d : Deployment) : Int :=
  match d.Spec.Replicas with
  | some n => n
  | none => 1

/-- The update `syncDeployment` sends for an old ReplicaSet: none unless its replica count
is present and positive. -/
def scaleDownOld (old : ReplicaSet) : Option Request :=
  match old.Spec.Replicas with
  | some n =>
    if n > 0 then
      some (.updateReplicaSet { old with Spec := { old.Spec with Replicas := some 0 } })
    else none
  | none => none

/-- The last two steps of `syncDeployment`: the update that sets the new ReplicaSet to the
desired replica count, unless it has it, and the updates that set to 0 every owned
ReplicaSet of another name with a positive replica count. -/
def scale (d : Deployment) (newRS : ReplicaSet) (owned : List ReplicaSet) : List Request :=
  (if newRS.Spec.Replicas = none ∨ newRS.Spec.Replicas ≠ some (desiredReplicas d) then
      [.updateReplicaSet
        { newRS with Spec := { newRS.Spec with Replicas := some (desiredReplicas d) } }]
    else []) ++
  (owned.filter (fun rs => rs.Name != newRS.Name)).filterMap scaleDownOld

/-- `Controller.syncDeployment`: the registry writes it issues, in order, and the error it
returns.  `listRS` is the result of `ListReplicaSets` and `created` that of
`CreateReplicaSet`, should it be called; the results of the updates are only logged.  The
first three arguments are those of `computeHash`. -/
def syncDeployment (timeText : Time → String) (render : JSON → List UInt8)
    (sha256 : List UInt8 → List UInt8) (d : Deployment)
    (listRS : Except String (List ReplicaSet)) (created : Option String) :
    List Request × Option String :=
  match listRS with
  | .error e => ([], some e)
  | .ok allRS =>
    let owned := ownedRS d allRS
    let podTemplateHash := computeHash timeText render sha256 d.Spec.Template
    match findNewRS podTemplateHash owned with
    | some newRS => (scale d newRS owned, none)
    | none =>
      let newRS := createNewReplicaSet d podTemplateHash
      match created with
      | some e => ([.createReplicaSet newRS], some ("failed to create new RS: " ++ e))
      | none => (.createReplicaSet newRS :: scale d newRS (owned ++ [newRS]), none)

/-- An old ReplicaSet as `syncDeployment` sends it: with the replica count 0. -/
def scaledDown (old : ReplicaSet) : ReplicaSet :=
  { old with Spec := { old.Spec with Replicas := some 0 } }

/-- Whether the replica count of a ReplicaSet is present and positive. -/
def positive (rs : ReplicaSet) : Bool :=
  match rs.Spec.Replicas with
  | some n => decide (n > 0)
  | none => false

/-- The ReplicaSets sent with `CreateReplicaSet` among the requests, in order. -/
def creations : List Request → List ReplicaSet
  | [] => []
  | .createReplicaSet rs :: rest => rs :: creations rest
  | .updateReplicaSet _ :: rest => creations rest

/-- The ReplicaSets sent with `UpdateReplicaSet` among the requests, in order. -/
def updates : List Request → List ReplicaSet
  | [] => []
  | .createReplicaSet _ :: rest => updates rest
  | .updateReplicaSet rs :: rest => rs :: updates rest

/-- ReplicaSets on the wire and in the store: the JSON document of a ReplicaSet is
identified with the ReplicaSet it decodes to. -/
def rsCodec : apiserver.Codec ReplicaSet ReplicaSet :=
  { marshal := fun r => .ok r, unmarshal := fun r => .ok r,
    objectMeta := fun r => r.toObjectMeta }

/-- One registry write of the controller through the client (`CreateReplicaSet` and
`UpdateReplicaSet`, whose URL carries `rs.Name`). -/
def issue (s : storage.MemoryStore ReplicaSet ReplicaSet) (write : Option storage.StoreError) :
    Request → client.Called (storage.MemoryStore ReplicaSet ReplicaSet)
  | .createReplicaSet rs => client.create rsCodec s "replicasets" rs write
  | .updateReplicaSet rs => client.update rsCodec s "replicasets" rs.Name rs write

/-- The registry after the requests were issued in order, every one of them succeeding;
`none` when one returns an error or hangs. -/
def issueAll : storage.MemoryStore ReplicaSet ReplicaSet → List Request →
    Option (storage.MemoryStore ReplicaSet ReplicaSet)
  | s, [] => some s
  | s, r :: rest =>
    match issue s none r with
    | .returned none s1 => issueAll s1 rest
    | _ => none

end deployment

namespace examples

open api deployment

/-- A stand-in for `sha256.Sum256` that returns 32 bytes. -/
def digest32 (_ : List UInt8) : List UInt8 := List.replicate 32 171

/-- The hash of every template under `digest32`. -/
def hashAB : String :=
  "abababababababababababababababababababababababababababababababab"

/-- A Deployment labelled `tier=backend` for pods labelled `app=web`, without a replica
count. -/
def webDeployment : Deployment :=
  { Name := "web",
    Labels := ⟨[("tier", "backend")], (by decide)⟩,
    Spec := { Selector := { MatchLabels := webLabels }, Template := { Labels := webLabels } } }

end examples

namespace examples

open api deployment storage apiserver

/-- The ReplicaSet of the current template of `webDeployment`, at three replicas. -/
def currentRS : ReplicaSet :=
  { createNewReplicaSet webDeployment hashAB with
    Spec := { (createNewReplicaSet webDeployment hashAB).Spec with Replicas := some 3 } }

/-- A ReplicaSet of an earlier template of `webDeployment`, without a replica count. -/
def unsetRS : ReplicaSet :=
  { Name := "web-0123456789", Labels := webLabels,
    Annotations := GoMap.empty.set revisionAnnotation "0123456789",
    Spec := { Selector := { MatchLabels := webLabels }, Template := { Labels := webLabels } } }

/-- A ReplicaSet of an earlier template of `webDeployment`, at two replicas. -/
def earlierRS : ReplicaSet :=
  { Name := "web-9876543210", Labels := webLabels,
    Annotations := GoMap.empty.set revisionAnnotation "9876543210",
    Spec := { Replicas := some 2, Selector := { MatchLabels := webLabels },
              Template := { Labels := webLabels } } }

/-- The registry holding `currentRS` and `unsetRS`. -/
def rsRegistry : MemoryStore ReplicaSet ReplicaSet :=
  { data := (GoMap.empty.set (registryKey "replicasets" currentRS.Name) currentRS).set
      (registryKey "replicasets" unsetRS.Name) unsetRS,
    watchers := [], filePath := "" }

end examples

/-! ## `internal/kubelet` -/

namespace kubelet

open api

/-- `ContainerInfo`: a container as the runtime lists it. -/
structure ContainerInfo where
  ID : String := ""
  Name : String := ""
  Image : String := ""
  State : String := ""
  PodName : String := ""
  PodNamespace : String := ""
deriving DecidableEq

/-- A call `reconcilePod` makes on the runtime, the prober or the API client. -/
inductive Call
  | RunContainer (pod : Pod) (container : Container)
  | StopContainer (containerID : String) (timeoutSeconds : Int)
  | GetContainerIP (containerID : String)
  | Probe (pod : Pod) (container : Container) (probe : api.Probe)
  | UpdatePodStatus (pod : Pod)
deriving DecidableEq

/-- The results of the calls whose result `reconcilePod` reads: `GetContainerIP` and
`Prober.Probe` (the errors of the other calls are only logged). -/
structure World where
  ip : String → Except String String
  probe : Pod → Container → api.Probe → Except String Bool

/-- The name `RunContainer` gives the container of a pod:
`fmt.Sprintf("k8s-lite-%s-%s", pod.Name, container.Name)`. -/
def expectedName (pod : Pod) (container : Container) : String :=
  "k8s-lite-" ++ pod.Name ++ "-" ++ container.Name

/-- The pod after `GetContainerIP` answered: the address is taken when the call succeeds
with a non-empty text. -/
def withIP (pod : Pod) (answer : Except String String) : Pod :=
  match answer with
  | .ok ip => if ip ≠ "" then { pod with Status := { pod.Status with PodIP := ip } } else pod
  | .error _ => pod

/-- One turn of the outer loop of `reconcilePod`, for the container `specContainer` of the
pod: the pod afterwards and the calls made, in order.  The inner loop stops at the first
runtime container with the expected name. -/
def reconcileContainer (w : World) (runningContainers : List ContainerInfo) (pod : Pod)
    (specContainer : Container) : Pod × List Call :=
  match runningContainers.find? (fun rc => rc.Name == expectedName pod specContainer) with
  | some rc =>
    if HasPrefix rc.State "Exit" then
      (pod, [.StopContainer rc.ID 0, .RunContainer pod specContainer])
    else
      let pod1 := withIP pod (w.ip rc.ID)
      match specContainer.LivenessProbe with
      | none => (pod1, [.GetContainerIP rc.ID])
      | some probe =>
        match w.probe pod1 specContainer probe with
        | .error _ => (pod1, [.GetContainerIP rc.ID, .Probe pod1 specContainer probe])
        | .ok true => (pod1, [.GetContainerIP rc.ID, .Probe pod1 specContainer probe])
        | .ok false =>
          (pod1, [.GetContainerIP rc.ID, .Probe pod1 specContainer probe,
                  .StopContainer rc.ID 1, .RunContainer pod1 specContainer])
  | none => (pod, [.RunContainer pod specContainer])

/-- The outer loop of `reconcilePod` over the containers of the pod. -/
def reconcileContainers (w : World) (runningContainers : List ContainerInfo) :
    Pod → List Container → Pod × List Call
  | pod, [] => (pod, [])
  | pod, c :: rest =>
    let step := reconcileContainer w runningContainers pod c
    let more := reconcileContainers w runningContainers step.1 rest
    (more.1, step.2 ++ more.2)

/-- The phase `reconcilePod` computes. -/
def newPhase (runningContainers : List ContainerInfo) : String :=
  if runningContainers.length > 0 then "Running" else "Pending"

/-- `Agent.reconcilePod`: the calls it makes, in order. -/
def reconcilePod (w : World) (pod : Pod) (runningContainers : List ContainerInfo) : List Call :=
  let looped := reconcileContainers w runningContainers pod pod.Spec.Containers.toList
  let pod1 := looped.1
  if pod1.Status.Phase ≠ newPhase runningContainers ∨ pod1.Status.PodIP ≠ "" then
    looped.2 ++
      [.UpdatePodStatus { pod1 with Status := { pod1.Status with Phase := newPhase runningContainers } }]
  else looped.2

/-- The pod after the loop of `reconcilePod`, before the status is published. -/
def podAfterLoop (w : World) (pod : Pod) (runningContainers : List ContainerInfo) : Pod :=
  (reconcileContainers w runningContainers pod pod.Spec.Containers.toList).1

/-- The pods sent with `UpdatePodStatus` among the calls, in order. -/
def statusUpdates : List Call → List Pod
  | [] => []
  | .UpdatePodStatus pod :: rest => pod :: statusUpdates rest
  | _ :: rest => statusUpdates rest

/-- The `RunContainer` and `StopContainer` calls among the calls, in order. -/
def runsAndStops : List Call → List Call
  | [] => []
  | .RunContainer pod c :: rest => .RunContainer pod c :: runsAndStops rest
  | .StopContainer id t :: rest => .StopContainer id t :: runsAndStops rest
  | _ :: rest => runsAndStops rest

end kubelet

namespace examples

open api kubelet

/-- A pod `web` with one container `app` that has no probe. -/
def appPod : Pod :=
  { Name := "web", Spec := { Containers := some [{ Name := "app", Image := "nginx" }] } }

/-- The runtime container of `app`, in the given state. -/
def appContainer (state : String) : ContainerInfo :=
  { ID := "4f2a", Name := "k8s-lite-web-app", Image := "nginx", State := state, PodName := "web" }

/-- A world in which every container has the address 10.0.0.5 and every probe
succeeds. -/
def calmWorld : World :=
  { ip := fun _ => .ok "10.0.0.5", probe := fun _ _ _ => .ok true }

/-- The pod `web` as the registry holds it once it runs at 10.0.0.5. -/
def runningAppPod : Pod :=
  { appPod with Status := { Phase := "Running", PodIP := "10.0.0.5" } }

end examples

/-! ## Vocabulary and inputs for the endpoints of a service -/

namespace service

open api

/-- The address `reconcileService` appends for a pod. -/
def addressOf (pod : Pod) : EndpointAddress :=
  { IP := pod.Status.PodIP, NodeName := pod.Spec.NodeName }

end service

namespace examples

open api

/-- A `targetPort` given by name, as `UnmarshalJSON` decodes the text `"http"` into a
fresh value. -/
def namedTargetPort : IntOrString := { Typ := 1, StrVal := "http" }

/-- A service with two ports: port 80 with the named target port `http`, and port 443
with the integer target port 0. -/
def namedPortService : Service :=
  { Name := "web",
    Spec := { Selector := ⟨[("app", "web")], (by decide)⟩,
              Ports := [{ Name := "http", Port := 80, TargetPort := namedTargetPort },
                        { Name := "https", Port := 443, TargetPort := { Typ := 0, IntVal := 0 } }] } }

/-- A running pod labelled `app=web` with the given name, address and node. -/
def runningWebPod (name ip node : String) : Pod :=
  { Name := name, Labels := ⟨[("app", "web")], (by decide)⟩,
    Spec := { NodeName := node }, Status := { Phase := "Running", PodIP := ip } }

/-- Four pods: two running pods of `web`, a pending one and one with other labels. -/
def fourPods : List Pod :=
  [runningWebPod "web-b" "10.0.0.7" "n2",
   { runningWebPod "web-c" "" "n1" with Status := { Phase := "Pending" } },
   { runningWebPod "db" "10.0.0.9" "n1" with Labels := ⟨[("app", "db")], (by decide)⟩ },
   runningWebPod "web-a" "10.0.0.3" "n1"]

end examples

/-! ## Inputs for the lease decision, the selectors and a negative replica count -/

namespace examples

open api storage apiserver leaderelection

/-- The lease `lock` held by `c`, renewed at 10 s, whose `leaseDurationSeconds` member is
absent. -/
def leaseWithoutDuration : Lease :=
  { Name := "lock",
    Spec := { HolderIdentity := some "c", AcquireTime := some (10 * second),
              RenewTime := some (10 * second) } }

/-- A ReplicaSet `web` whose `spec.replicas` is -1. -/
def negativeRS : ReplicaSet :=
  { Name := "web",
    Spec := { Replicas := some (-1),
              Selector := { MatchLabels := webLabels },
              Template := { Labels := webLabels } } }

/-- The elector `a` configured with a lease of three thousand million seconds. -/
def longElector : Config := { electorA with LeaseDuration := 3000000000 * second }

/-- The elector `a` configured with a lease of one second and a half. -/
def halfElector : Config := { electorA with LeaseDuration := 1500000000 }

/-- A selector asking for the label `tier` with the empty value. -/
def emptyValueSelector : GoMap String := ⟨[("tier", "")], (by decide)⟩

/-- A service `web` whose selector asks for the label `tier` with the empty value. -/
def emptyValueService : Service :=
  { Name := "web", Spec := { Selector := emptyValueSelector, Ports := [{ Port := 80 }] } }

/-- A running pod at 10.0.0.9 on node `n1` labelled `app=web`: it has no label `tier`. -/
def tierlessPod : Pod := runningWebPod "db" "10.0.0.9" "n1"

end examples

/-! ## Vocabulary for the template hash -/

namespace JSON

/-- The member of an object written under `key` (the first one, should there be two). -/
def member (key : String) : JSON → Option JSON
  | .obj members => members.lookup key
  | _ => none

/-- The element `i` of an array. -/
def item (i : Nat) : JSON → Option JSON
  | .arr xs => xs.get? i
  | _ => none

end JSON

namespace json

/-- The document `j` is the object of the map `m` with the keys in increasing order: one
member for each entry of the map, the value a string, and nothing else. -/
def SortedObject (m : GoMap String) (j : JSON) : Prop :=
  ∃ l : List (String × String),
    j = .obj (l.map (fun e => (e.1, JSON.str e.2))) ∧ l.Perm m.entries ∧
    List.Sorted strLE (l.map Prod.fst)

/-- The member `key` of the document `j` is the sorted object of the map `m`, and is left
out when the map is empty. -/
def MapMember (j : JSON) (key : String) (m : GoMap String) : Prop :=
  (m.len = 0 → j.member key = none) ∧
  (m.len ≠ 0 → ∃ o, j.member key = some o ∧ SortedObject m o)

end json

namespace api

/-- An `IntOrString` as `UnmarshalJSON` fills a fresh value: the field of the other
variant is left at its zero value. -/
def IntOrString.Decoded (i : IntOrString) : Prop :=
  (i.Typ = 0 ∧ i.StrVal = "") ∨ (i.Typ = 1 ∧ i.IntVal = 0)

/-- A probe whose ports are as decoded. -/
def Probe.Decoded (p : Probe) : Prop :=
  (∀ a, p.HTTPGet = some a → a.Port.Decoded) ∧ (∀ a, p.TCPSocket = some a → a.Port.Decoded)

/-- A container whose probes are as decoded. -/
def Container.Decoded (c : Container) : Prop :=
  (∀ p, c.LivenessProbe = some p → p.Decoded) ∧ (∀ p, c.ReadinessProbe = some p → p.Decoded)

end api

namespace deployment

open api

/-- A pod template whose containers are as decoded from JSON. -/
def DecodedTemplate (t : PodTemplateSpec) : Prop :=
  ∀ c ∈ t.Spec.Containers.toList, c.Decoded

end deployment

namespace examples

open api

/-- The bytes of a text of ASCII characters. -/
def bytes (s : String) : List UInt8 := s.data.map (fun c => c.toNat.toUInt8)

/-- A stand-in for the byte writer of `encoding/json` that writes the whole document:
members and elements with commas between them, a string between quotes as it is. -/
def renderText : JSON → List UInt8
  | .null => bytes "null"
  | .bool b => bytes (if b then "true" else "false")
  | .num n => bytes (String.mk (strconv.FormatInt n))
  | .str s => bytes ("\"" ++ s ++ "\"")
  | .arr xs => bytes "[" ++ renderItems xs ++ bytes "]"
  | .obj ms => bytes "\x7b" ++ renderMembers ms ++ bytes "\x7d"
where
  /-- The elements of an array. -/
  renderItems : List JSON → List UInt8
    | [] => []
    | [x] => renderText x
    | x :: y :: xs => renderText x ++ bytes "," ++ renderItems (y :: xs)
  /-- The members of an object. -/
  renderMembers : List (String × JSON) → List UInt8
    | [] => []
    | [(k, x)] => bytes ("\"" ++ k ++ "\":") ++ renderText x
    | (k, x) :: y :: ms => bytes ("\"" ++ k ++ "\":") ++ renderText x ++ bytes "," ++
        renderMembers (y :: ms)

/-- The text of ASCII bytes. -/
def textOf (bs : List UInt8) : String := String.mk (bs.map (fun b => Char.ofNat b.toNat))

end examples

/-! # Properties -/

/-! ## Lemmas on Go maps and on notification -/

namespace GoMap

variable {ν : Type}

theorem lookup_filter_ne (k : String) (l : List (String × ν)) :
    (l.filter (fun e => e.1 != k)).lookup k = none := by
  induction l with
  | nil => rfl
  | cons e l ih =>
    obtain ⟨a, b⟩ := e
    by_cases h : a = k
    · subst h
      simpa [List.filter_cons] using ih
    · have hk : (k == a) = false := by simpa using fun h1 => h h1.symm
      have hf : ((a, b) :: l).filter (fun e => e.1 != k) = (a, b) :: l.filter (fun e => e.1 != k) := by
        simp [List.filter_cons, h]
      rw [hf, List.lookup_cons, hk]
      exact ih

theorem lookup_filter_other (k k1 : String) (hk : k1 ≠ k) (l : List (String × ν)) :
    (l.filter (fun e => e.1 != k)).lookup k1 = l.lookup k1 := by
  induction l with
  | nil => rfl
  | cons e l ih =>
    obtain ⟨a, b⟩ := e
    by_cases h : a = k
    · subst h
      have h1 : (k1 == a) = false := by simpa using hk
      have hf : ((a, b) :: l).filter (fun e => e.1 != a) = l.filter (fun e => e.1 != a) := by
        simp [List.filter_cons]
      rw [hf, List.lookup_cons, h1]
      exact ih
    · have hf : ((a, b) :: l).filter (fun e => e.1 != k) = (a, b) :: l.filter (fun e => e.1 != k) := by
        simp [List.filter_cons, h]
      rw [hf, List.lookup_cons, List.lookup_cons, ih]

theorem get?_set_self (m : GoMap ν) (k : String) (v : ν) : (m.set k v).get? k = some v := by
  simp [get?, set, List.lookup_append, lookup_filter_ne, List.lookup_cons]

theorem get?_set_other (m : GoMap ν) (k k1 : String) (v : ν) (hk : k1 ≠ k) :
    (m.set k v).get? k1 = m.get? k1 := by
  have h1 : (k1 == k) = false := by simpa using hk
  simp [get?, set, List.lookup_append, lookup_filter_other k k1 hk, List.lookup_cons, h1]

theorem get?_delete_self (m : GoMap ν) (k : String) : (m.delete k).get? k = none := by
  simp [get?, delete, lookup_filter_ne]

theorem get?_delete_other (m : GoMap ν) (k k1 : String) (hk : k1 ≠ k) :
    (m.delete k).get? k1 = m.get? k1 := by
  simp [get?, delete, lookup_filter_other k k1 hk]

theorem contains_set_self (m : GoMap ν) (k : String) (v : ν) :
    (m.set k v).contains k = true := by
  simp [contains, get?_set_self]

end GoMap

namespace storage

variable {α β : Type}

theorem notifyWatchers_done (t : EventType) (key : String) (obj : EventObject α β)
    (ws : List (memoryWatcher α β)) (h : wouldBlock key ws = false) :
    notifyWatchers t key obj ws = .done (ws.map (deliver ⟨t, obj⟩ key)) := by
  induction ws with
  | nil => rfl
  | cons w ws ih =>
    simp only [wouldBlock, List.any_cons, Bool.or_eq_false_iff, Bool.and_eq_false_iff,
      decide_eq_false_iff_not, not_le] at h
    have ih1 := ih (by simpa [wouldBlock] using h.2)
    by_cases hp : HasPrefix key w.keyPrefix = true
    · have hlen : w.resultChan.length < resultChanCap := by
        rcases h.1 with h1 | h1
        · simp [hp] at h1
        · exact h1
      simp [notifyWatchers, hp, hlen, ih1, deliver]
    · simp [notifyWatchers, hp, ih1, deliver]

theorem notifyWatchers_blocked (t : EventType) (key : String) (obj : EventObject α β)
    (ws : List (memoryWatcher α β)) (h : wouldBlock key ws = true) :
    ∃ ws1, notifyWatchers t key obj ws = .blocked ws1 ∧
      ws1.map (fun w => w.ptr) = ws.map (fun w => w.ptr) ∧
      ∀ w ∈ ws, HasPrefix key w.keyPrefix = true → resultChanCap ≤ w.resultChan.length →
        w ∈ ws1 := by
  induction ws with
  | nil => simp [wouldBlock] at h
  | cons w ws ih =>
    by_cases hp : HasPrefix key w.keyPrefix = true
    · by_cases hlen : w.resultChan.length < resultChanCap
      · have hrest : wouldBlock key ws = true := by
          simp only [wouldBlock, List.any_cons, Bool.or_eq_true, Bool.and_eq_true,
            decide_eq_true_eq] at h
          rcases h with h | h
          · omega
          · simpa [wouldBlock] using h
        obtain ⟨ws1, h1, h2, h3⟩ := ih hrest
        refine ⟨{ w with resultChan := w.resultChan ++ [⟨t, obj⟩] } :: ws1,
          by simp [notifyWatchers, hp, hlen, h1], by simp [h2], ?_⟩
        intro x hx hxp hxl
        rcases List.mem_cons.1 hx with rfl | hx
        · omega
        · exact List.mem_cons_of_mem _ (h3 x hx hxp hxl)
      · exact ⟨w :: ws, by simp [notifyWatchers, hp, hlen], rfl, fun x hx _ _ => hx⟩
    · have hrest : wouldBlock key ws = true := by
        simpa [wouldBlock, hp] using h
      obtain ⟨ws1, h1, h2, h3⟩ := ih hrest
      refine ⟨w :: ws1, by simp [notifyWatchers, hp, h1], by simp [h2], ?_⟩
      intro x hx hxp hxl
      rcases List.mem_cons.1 hx with rfl | hx
      · exact absurd hxp hp
      · exact List.mem_cons_of_mem _ (h3 x hx hxp hxl)

end storage

/-! ## Registry: versions, creation, slow watchers -/

namespace storage

variable {α β : Type}

open apiserver

/-- C1 (counterexample).  The registry holds the lease `lock` at resourceVersion 5; an
Update carrying resourceVersion 3 does not fail with Conflict: it returns nil and replaces
the stored value, and the PUT handler answers 200. -/
theorem Update_accepts_stale_resourceVersion :
    examples.storeV5.data.get? examples.lockKey = some (examples.leaseAt "5" "a") ∧
    (examples.leaseAt "3" "b").ResourceVersion = "3" ∧
    examples.storeV5.Update examples.leaseCodec.marshal examples.lockKey
        (examples.leaseAt "3" "b") none
      = .returned none
          { examples.storeV5 with
            data := examples.storeV5.data.set examples.lockKey (examples.leaseAt "3" "b") } ∧
    (examples.storeV5.data.set examples.lockKey (examples.leaseAt "3" "b")).get?
        examples.lockKey = some (examples.leaseAt "3" "b") ∧
    handleUpdate examples.leaseCodec examples.storeV5 "leases" "lock"
        (examples.leaseAt "3" "b") none
      = .response 200 (some (examples.leaseAt "3" "b"))
          { examples.storeV5 with
            data := examples.storeV5.data.set examples.lockKey (examples.leaseAt "3" "b") } := by
  decide

theorem handleUpdate_status (c : Codec α β) (s t : MemoryStore α β)
    (resource name : String) (body : β) (write : Option StoreError) (status : Nat)
    (o : Option α) (h : handleUpdate c s resource name body write = .response status o t) :
    status = 200 ∨ status = 400 ∨ status = 404 ∨ status = 500 := by
  unfold handleUpdate at h
  dsimp only at h
  split at h
  · injection h with h1
    omega
  · split at h
    · cases h
    · injection h with h1
      omega
    · injection h with h1
      omega
    · injection h with h1
      omega

/-- C1 (amended).  Update never compares versions: for every key holding a stored value
and every object that serializes, whatever resourceVersion it carries, Update (no matching
watcher channel being full, the file write succeeding) replaces the stored value by the
object's serialization, sends one Modified event to the matching watchers and returns nil,
not Conflict, and the PUT handler answers 200; whatever the request, the PUT handler
answers 200, 400, 404 or 500, never 409. -/
theorem Update_is_unconditional (c : Codec α β) (s : MemoryStore α β)
    (resource name : String) (body : β) (obj : α) (data : β) (write : Option StoreError)
    (hkey : s.data.contains (registryKey resource name) = true)
    (hbody : c.unmarshal body = .ok obj) (hm : c.marshal obj = .ok data)
    (hw : wouldBlock (registryKey resource name) s.watchers = false)
    (hsync : s.sync write = none) :
    s.Update c.marshal (registryKey resource name) obj write
      = .returned none
          { data := s.data.set (registryKey resource name) data,
            watchers := s.watchers.map
              (deliver ⟨.Modified, .obj obj⟩ (registryKey resource name)),
            filePath := s.filePath } ∧
    (s.data.set (registryKey resource name) data).get? (registryKey resource name)
      = some data ∧
    handleUpdate c s resource name body write
      = .response 200 (some obj)
          { data := s.data.set (registryKey resource name) data,
            watchers := s.watchers.map
              (deliver ⟨.Modified, .obj obj⟩ (registryKey resource name)),
            filePath := s.filePath } ∧
    ∀ (b : β) (w : Option StoreError) (status : Nat) (o : Option α) (t : MemoryStore α β),
      handleUpdate c s resource name b w = .response status o t →
      status = 200 ∨ status = 400 ∨ status = 404 ∨ status = 500 := by
  have hU : s.Update c.marshal (registryKey resource name) obj write
      = .returned none
          { data := s.data.set (registryKey resource name) data,
            watchers := s.watchers.map
              (deliver ⟨.Modified, .obj obj⟩ (registryKey resource name)),
            filePath := s.filePath } := by
    have hsync1 : MemoryStore.sync
        ({ s with data := s.data.set (registryKey resource name) data } : MemoryStore α β)
        write = none := hsync
    simp [MemoryStore.Update, hkey, hm, notifyWatchers_done _ _ _ _ hw, hsync1]
  refine ⟨hU, GoMap.get?_set_self _ _ _, ?_,
    fun b w status o t h => handleUpdate_status c s t resource name b w status o h⟩
  simp [handleUpdate, hbody, hU]

/-- C1 (amended), at a concrete input: the stale Update of `storeV5`. -/
theorem Update_is_unconditional_witness :
    examples.storeV5.Update examples.leaseCodec.marshal (registryKey "leases" "lock")
        (examples.leaseAt "3" "b") none
      = .returned none
          { data := examples.storeV5.data.set (registryKey "leases" "lock")
              (examples.leaseAt "3" "b"),
            watchers := examples.storeV5.watchers.map
              (deliver ⟨.Modified, .obj (examples.leaseAt "3" "b")⟩
                (registryKey "leases" "lock")),
            filePath := examples.storeV5.filePath } :=
  (Update_is_unconditional examples.leaseCodec examples.storeV5 "leases" "lock"
    (examples.leaseAt "3" "b") (examples.leaseAt "3" "b") (examples.leaseAt "3" "b") none
    (by decide) rfl rfl (by decide) (by decide)).1

/-- C2 (counterexample).  On a watched registry, Create of `lock` with resourceVersion 5
followed by Update with resourceVersion 3 both succeed; the stored object and the emitted
Added and Modified events carry 5 and then 3, the values the caller supplied: the version
after the second call is not greater than the one after the first. -/
theorem versions_not_monotonic :
    examples.watchedStore.Create examples.leaseCodec.marshal examples.lockKey
        (examples.leaseAt "5" "a") none = .returned none examples.createdV5 ∧
    examples.createdV5.Update examples.leaseCodec.marshal examples.lockKey
        (examples.leaseAt "3" "a") none = .returned none examples.updatedV3 ∧
    (examples.createdV5.data.get? examples.lockKey).map (fun l => l.ResourceVersion)
      = some "5" ∧
    (examples.updatedV3.data.get? examples.lockKey).map (fun l => l.ResourceVersion)
      = some "3" ∧
    examples.updatedV3.watchers.map (fun w => w.resultChan)
      = [[⟨.Added, .obj (examples.leaseAt "5" "a")⟩,
          ⟨.Modified, .obj (examples.leaseAt "3" "a")⟩]] ∧
    ¬ strLT "5" "3" := by
  decide

/-- C2 (amended).  The registry assigns no resourceVersion: a Create on an absent key and
an Update on a present key (the object serializing, no matching watcher channel full)
store exactly the serialization of the caller's object, which a following Get decodes, and
send the caller's object itself in the Added, respectively Modified, event; the version
stored and emitted is the one the caller supplied. -/
theorem stored_version_is_the_callers (c : Codec α β) (s : MemoryStore α β) (key : String)
    (obj : α) (data : β) (write : Option StoreError)
    (hm : c.marshal obj = .ok data) (hw : wouldBlock key s.watchers = false) :
    (s.data.contains key = false →
      s.Create c.marshal key obj write
        = .returned (s.sync write)
            { data := s.data.set key data,
              watchers := s.watchers.map (deliver ⟨.Added, .obj obj⟩ key),
              filePath := s.filePath }) ∧
    (s.data.contains key = true →
      s.Update c.marshal key obj write
        = .returned (s.sync write)
            { data := s.data.set key data,
              watchers := s.watchers.map (deliver ⟨.Modified, .obj obj⟩ key),
              filePath := s.filePath }) ∧
    ∀ ws, MemoryStore.Get c.unmarshal
        ({ data := s.data.set key data, watchers := ws, filePath := s.filePath } :
          MemoryStore α β) key = c.unmarshal data := by
  refine ⟨fun hk => ?_, fun hk => ?_, fun ws => ?_⟩
  · simp [MemoryStore.Create, hk, hm, notifyWatchers_done _ _ _ _ hw, MemoryStore.sync]
  · simp [MemoryStore.Update, hk, hm, notifyWatchers_done _ _ _ _ hw, MemoryStore.sync]
  · simp [MemoryStore.Get, GoMap.get?_set_self]

/-- C2 (amended), at a concrete input: the Create of `lock` on the watched registry. -/
theorem stored_version_is_the_callers_witness :
    examples.watchedStore.Create examples.leaseCodec.marshal examples.lockKey
        (examples.leaseAt "5" "a") none
      = .returned (examples.watchedStore.sync none)
          { data := examples.watchedStore.data.set examples.lockKey (examples.leaseAt "5" "a"),
            watchers := examples.watchedStore.watchers.map
              (deliver ⟨.Added, .obj (examples.leaseAt "5" "a")⟩ examples.lockKey),
            filePath := examples.watchedStore.filePath } :=
  (stored_version_is_the_callers examples.leaseCodec examples.watchedStore examples.lockKey
    (examples.leaseAt "5" "a") (examples.leaseAt "5" "a") none rfl (by decide)).1 (by decide)

/-- C6 (counterexample).  In `slowMiddleStore` the second of three subscribers has ten
undelivered events.  An Update of the watched key does not complete: it waits at the full
channel.  The slow subscription is still in the watcher list with its ten events, the
subscriber before it has received the event and the one after it has not. -/
theorem full_watcher_is_not_dropped :
    examples.slowMiddleStore.Update examples.leaseCodec.marshal examples.lockKey
        (examples.leaseAt "6" "b") none
      = .blocked
          { data := examples.slowMiddleStore.data.set examples.lockKey
              (examples.leaseAt "6" "b"),
            watchers :=
              [{ ptr := 1, resultChan := [⟨.Modified, .obj (examples.leaseAt "6" "b")⟩],
                 keyPrefix := "/registry/leases" },
               { ptr := 0, resultChan := examples.tenEvents,
                 keyPrefix := "/registry/leases" },
               { ptr := 2, resultChan := [], keyPrefix := "/registry/leases" }],
            filePath := "" } := by
  decide

/-- C6 (amended).  Slow watchers are waited for: when some watcher subscribed to a prefix
of the key holds its full capacity of 10 undelivered events, a Create (key absent), an
Update or a Delete (key present) of that key does not complete but waits in the send;
every subscription is still in the watcher list, in the same order, and each full matching
watcher is there unchanged (neither closed nor removed). -/
theorem full_watcher_blocks_mutation (marshal : α → Except StoreError β)
    (s : MemoryStore α β) (key : String) (obj : α) (data : β) (write : Option StoreError)
    (hm : marshal obj = .ok data) (hfull : wouldBlock key s.watchers = true) :
    (s.data.contains key = false →
      ∃ s1, s.Create marshal key obj write = .blocked s1 ∧
        s1.watchers.map (fun w => w.ptr) = s.watchers.map (fun w => w.ptr) ∧
        ∀ w ∈ s.watchers, HasPrefix key w.keyPrefix = true →
          resultChanCap ≤ w.resultChan.length → w ∈ s1.watchers) ∧
    (s.data.contains key = true →
      (∃ s1, s.Update marshal key obj write = .blocked s1 ∧
        s1.watchers.map (fun w => w.ptr) = s.watchers.map (fun w => w.ptr) ∧
        ∀ w ∈ s.watchers, HasPrefix key w.keyPrefix = true →
          resultChanCap ≤ w.resultChan.length → w ∈ s1.watchers) ∧
      (∃ s1, s.Delete key write = .blocked s1 ∧
        s1.watchers.map (fun w => w.ptr) = s.watchers.map (fun w => w.ptr) ∧
        ∀ w ∈ s.watchers, HasPrefix key w.keyPrefix = true →
          resultChanCap ≤ w.resultChan.length → w ∈ s1.watchers)) := by
  refine ⟨fun hk => ?_, fun hk => ⟨?_, ?_⟩⟩
  · obtain ⟨ws1, h1, h2, h3⟩ :=
      notifyWatchers_blocked .Added key (.obj obj : EventObject α β) s.watchers hfull
    exact ⟨{ data := s.data.set key data, watchers := ws1, filePath := s.filePath },
      by simp [MemoryStore.Create, hk, hm, h1], h2, h3⟩
  · obtain ⟨ws1, h1, h2, h3⟩ :=
      notifyWatchers_blocked .Modified key (.obj obj : EventObject α β) s.watchers hfull
    exact ⟨{ data := s.data.set key data, watchers := ws1, filePath := s.filePath },
      by simp [MemoryStore.Update, hk, hm, h1], h2, h3⟩
  · obtain ⟨raw, hraw⟩ := Option.isSome_iff_exists.1 (by simpa [GoMap.contains] using hk)
    obtain ⟨ws1, h1, h2, h3⟩ :=
      notifyWatchers_blocked .Deleted key (.decoded raw : EventObject α β) s.watchers hfull
    exact ⟨{ data := s.data.delete key, watchers := ws1, filePath := s.filePath },
      by simp [MemoryStore.Delete, hraw, h1], h2, h3⟩

/-- C6 (amended), at a concrete input: the Update of `slowMiddleStore`. -/
theorem full_watcher_blocks_mutation_witness :
    ∃ s1, examples.slowMiddleStore.Update examples.leaseCodec.marshal examples.lockKey
        (examples.leaseAt "6" "b") none = .blocked s1 ∧
      s1.watchers.map (fun w => w.ptr)
        = examples.slowMiddleStore.watchers.map (fun w => w.ptr) ∧
      ∀ w ∈ examples.slowMiddleStore.watchers,
        HasPrefix examples.lockKey w.keyPrefix = true →
          resultChanCap ≤ w.resultChan.length → w ∈ s1.watchers :=
  ((full_watcher_blocks_mutation examples.leaseCodec.marshal examples.slowMiddleStore
    examples.lockKey (examples.leaseAt "6" "b") (examples.leaseAt "6" "b") none rfl
    (by decide)).2 (by decide)).1

/-! ## Registry: watch delivery -/

theorem notifyWatchers_eq_done (t : EventType) (key : String) (obj : EventObject α β)
    (ws ws1 : List (memoryWatcher α β)) (h : notifyWatchers t key obj ws = .done ws1) :
    ws1 = ws.map (deliver ⟨t, obj⟩ key) := by
  cases hb : wouldBlock key ws
  · rw [notifyWatchers_done _ _ _ _ hb] at h
    injection h with h
    exact h.symm
  · obtain ⟨ws2, h2, _⟩ := notifyWatchers_blocked t key obj ws hb
    rw [h2] at h
    cases h

theorem Create_returned_nil (marshal : α → Except StoreError β) (s s1 : MemoryStore α β)
    (key : String) (obj : α) (write : Option StoreError)
    (h : s.Create marshal key obj write = .returned none s1) :
    s1.watchers = s.watchers.map (deliver ⟨.Added, .obj obj⟩ key) := by
  unfold MemoryStore.Create at h
  split at h
  · cases h
  · split at h
    · cases h
    · dsimp only at h
      split at h
      · cases h
      · next ws hn =>
        injection h with _ h2
        rw [← h2]
        exact notifyWatchers_eq_done _ _ _ _ _ hn

theorem Update_returned_nil (marshal : α → Except StoreError β) (s s1 : MemoryStore α β)
    (key : String) (obj : α) (write : Option StoreError)
    (h : s.Update marshal key obj write = .returned none s1) :
    s1.watchers = s.watchers.map (deliver ⟨.Modified, .obj obj⟩ key) := by
  unfold MemoryStore.Update at h
  split at h
  · cases h
  · split at h
    · cases h
    · dsimp only at h
      split at h
      · cases h
      · next ws hn =>
        injection h with _ h2
        rw [← h2]
        exact notifyWatchers_eq_done _ _ _ _ _ hn

theorem Delete_returned_nil (s s1 : MemoryStore α β) (key : String)
    (write : Option StoreError) (h : s.Delete key write = .returned none s1) :
    ∃ raw, s.data.get? key = some raw ∧
      s1.watchers = s.watchers.map (deliver ⟨.Deleted, .decoded raw⟩ key) := by
  unfold MemoryStore.Delete at h
  split at h
  · cases h
  · next raw hraw =>
    dsimp only at h
    split at h
    · cases h
    · next ws hn =>
      injection h with _ h2
      rw [← h2]
      exact ⟨raw, hraw, notifyWatchers_eq_done _ _ _ _ _ hn⟩

theorem deliver_ptr (e : Event α β) (key : String) (w : memoryWatcher α β) :
    (deliver e key w).ptr = w.ptr := by
  unfold deliver
  split <;> rfl

theorem deliver_keyPrefix (e : Event α β) (key : String) (w : memoryWatcher α β) :
    (deliver e key w).keyPrefix = w.keyPrefix := by
  unfold deliver
  split <;> rfl

theorem deliver_resultChan (e : Event α β) (key : String) (w : memoryWatcher α β) :
    (deliver e key w).resultChan = w.resultChan ++ matching w.keyPrefix [(key, e)] := by
  unfold deliver matching
  by_cases h : HasPrefix key w.keyPrefix = true
  · simp [h]
  · simp [h]

theorem find?_cons_of_eq (ptr : Nat) (w : memoryWatcher α β)
    (ws : List (memoryWatcher α β)) (h : w.ptr = ptr) :
    (w :: ws).find? (fun x => x.ptr == ptr) = some w := by
  have h1 : (w.ptr == ptr) = true := by simpa using h
  rw [List.find?_cons, h1]

theorem find?_cons_of_ne (ptr : Nat) (w : memoryWatcher α β)
    (ws : List (memoryWatcher α β)) (h : w.ptr ≠ ptr) :
    (w :: ws).find? (fun x => x.ptr == ptr) = ws.find? (fun x => x.ptr == ptr) := by
  have h1 : (w.ptr == ptr) = false := by simpa using h
  rw [List.find?_cons, h1]

theorem find?_map_deliver (e : Event α β) (key : String) (ptr : Nat)
    (ws : List (memoryWatcher α β)) :
    (ws.map (deliver e key)).find? (fun w => w.ptr == ptr)
      = (ws.find? (fun w => w.ptr == ptr)).map (deliver e key) := by
  induction ws with
  | nil => rfl
  | cons w ws ih =>
    rw [List.map_cons]
    by_cases h : w.ptr = ptr
    · rw [find?_cons_of_eq ptr _ _ ((deliver_ptr e key w).trans h), find?_cons_of_eq ptr _ _ h]
      rfl
    · rw [find?_cons_of_ne ptr _ _ (by rw [deliver_ptr]; exact h), find?_cons_of_ne ptr _ _ h,
        ih]

theorem find?_eraseP_other (ptr q : Nat) (hq : q ≠ ptr) (ws : List (memoryWatcher α β)) :
    (ws.eraseP (fun w => w.ptr == q)).find? (fun w => w.ptr == ptr)
      = ws.find? (fun w => w.ptr == ptr) := by
  induction ws with
  | nil => rfl
  | cons w ws ih =>
    by_cases h : w.ptr = q
    · have h1 : (w.ptr == q) = true := by simpa using h
      have h2 : w.ptr ≠ ptr := fun h2 => hq (h ▸ h2)
      rw [List.eraseP_cons, h1, cond_true, find?_cons_of_ne ptr _ _ h2]
    · have h1 : (w.ptr == q) = false := by simpa using h
      rw [List.eraseP_cons, h1, cond_false]
      by_cases h2 : w.ptr = ptr
      · rw [find?_cons_of_eq ptr _ _ h2, find?_cons_of_eq ptr _ _ h2]
      · rw [find?_cons_of_ne ptr _ _ h2, find?_cons_of_ne ptr _ _ h2, ih]

theorem recvFrom_cons_eq (q : Nat) (w : memoryWatcher α β) (ws : List (memoryWatcher α β))
    (e : Event α β) (rest : List (Event α β)) (h : w.ptr = q)
    (hrc : w.resultChan = e :: rest) :
    recvFrom q (w :: ws) = some (e, { w with resultChan := rest } :: ws) := by
  have h1 : (w.ptr == q) = true := by simpa using h
  simp only [recvFrom, h1, if_true, hrc]

theorem recvFrom_cons_eq_nil (q : Nat) (w : memoryWatcher α β)
    (ws : List (memoryWatcher α β)) (h : w.ptr = q) (hrc : w.resultChan = []) :
    recvFrom q (w :: ws) = none := by
  have h1 : (w.ptr == q) = true := by simpa using h
  simp only [recvFrom, h1, if_true, hrc]

theorem recvFrom_cons_ne (q : Nat) (w : memoryWatcher α β) (ws : List (memoryWatcher α β))
    (h : w.ptr ≠ q) :
    recvFrom q (w :: ws)
      = (recvFrom q ws).map (fun r => (r.1, w :: r.2)) := by
  have h1 : (w.ptr == q) = false := by simpa using h
  simp only [recvFrom, h1]
  cases recvFrom q ws with
  | none => rfl
  | some r => rfl

theorem takenBy_self (ptr : Nat) (e : Event α β) : takenBy ptr [(ptr, e)] = [e] := by
  simp [takenBy]

theorem takenBy_other (ptr q : Nat) (e : Event α β) (h : q ≠ ptr) :
    takenBy ptr [(q, e)] = [] := by
  simp [takenBy, h]

theorem recvFrom_find (ptr q : Nat) (ws ws1 : List (memoryWatcher α β)) (e : Event α β)
    (x : memoryWatcher α β) (h : recvFrom q ws = some (e, ws1))
    (hx : ws.find? (fun w => w.ptr == ptr) = some x) :
    ∃ x1, ws1.find? (fun w => w.ptr == ptr) = some x1 ∧ x1.keyPrefix = x.keyPrefix ∧
      takenBy ptr [(q, e)] ++ x1.resultChan = x.resultChan := by
  induction ws generalizing ws1 with
  | nil => simp [recvFrom] at h
  | cons w ws ih =>
    by_cases hq : w.ptr = q
    · cases hrc : w.resultChan with
      | nil =>
        rw [recvFrom_cons_eq_nil q w ws hq hrc] at h
        cases h
      | cons e1 rest =>
        rw [recvFrom_cons_eq q w ws e1 rest hq hrc] at h
        injection h with h
        injection h with he hws
        subst he hws
        by_cases hp : q = ptr
        · have hwp : w.ptr = ptr := hq.trans hp
          rw [find?_cons_of_eq ptr _ _ hwp] at hx
          injection hx with hx
          subst hx
          refine ⟨{ w with resultChan := rest }, find?_cons_of_eq ptr _ _ hwp, rfl, ?_⟩
          rw [hp, takenBy_self, hrc]
          rfl
        · have hwp : w.ptr ≠ ptr := fun h2 => hp (hq ▸ h2)
          rw [find?_cons_of_ne ptr _ _ hwp] at hx
          refine ⟨x, ?_, rfl, ?_⟩
          · rw [find?_cons_of_ne ptr { w with resultChan := rest } ws hwp]
            exact hx
          · rw [takenBy_other ptr q _ hp]
            rfl
    · rw [recvFrom_cons_ne q w ws hq] at h
      cases hrec : recvFrom q ws with
      | none =>
        rw [hrec] at h
        cases h
      | some r =>
        rw [hrec] at h
        injection h with h
        injection h with he hws
        obtain ⟨e2, ws2⟩ := r
        simp only at he hws
        subst he hws
        by_cases hwp : w.ptr = ptr
        · rw [find?_cons_of_eq ptr _ _ hwp] at hx
          injection hx with hx
          subst hx
          have hqp : q ≠ ptr := fun h2 => hq (hwp.trans h2.symm)
          refine ⟨w, find?_cons_of_eq ptr _ _ hwp, rfl, ?_⟩
          rw [takenBy_other ptr q _ hqp]
          rfl
        · rw [find?_cons_of_ne ptr _ _ hwp] at hx
          obtain ⟨x1, h1, h2, h3⟩ := ih ws2 hrec hx
          exact ⟨x1, by rw [find?_cons_of_ne ptr _ _ hwp]; exact h1, h2, h3⟩

theorem step_watcher (marshal : α → Except StoreError β) (s s1 : MemoryStore α β)
    (c : Call α) (rcpt : Option (Nat × Event α β)) (ptr : Nat) (x : memoryWatcher α β)
    (hstep : step marshal s c = some (s1, rcpt)) (hc : c ≠ .stop ptr)
    (hx : s.watcher? ptr = some x) :
    ∃ x1, s1.watcher? ptr = some x1 ∧ x1.keyPrefix = x.keyPrefix ∧
      takenBy ptr rcpt.toList ++ x1.resultChan
        = x.resultChan ++ matching x.keyPrefix (c.event s).toList := by
  unfold MemoryStore.watcher? at hx ⊢
  cases c with
  | create key obj write =>
    simp only [step] at hstep
    split at hstep
    · next s2 hC =>
      injection hstep with h
      injection h with h1 h2
      subst h1 h2
      rw [Create_returned_nil _ _ _ _ _ _ hC, find?_map_deliver, hx]
      exact ⟨_, rfl, deliver_keyPrefix _ _ _, by
        simp [takenBy, Call.event, deliver_resultChan]⟩
    · cases hstep
  | update key obj write =>
    simp only [step] at hstep
    split at hstep
    · next s2 hC =>
      injection hstep with h
      injection h with h1 h2
      subst h1 h2
      rw [Update_returned_nil _ _ _ _ _ _ hC, find?_map_deliver, hx]
      exact ⟨_, rfl, deliver_keyPrefix _ _ _, by
        simp [takenBy, Call.event, deliver_resultChan]⟩
    · cases hstep
  | delete key write =>
    simp only [step] at hstep
    split at hstep
    · next s2 hC =>
      injection hstep with h
      injection h with h1 h2
      subst h1 h2
      obtain ⟨raw, hraw, hws⟩ := Delete_returned_nil _ _ _ _ hC
      rw [hws, find?_map_deliver, hx]
      exact ⟨_, rfl, deliver_keyPrefix _ _ _, by
        simp [takenBy, Call.event, hraw, deliver_resultChan]⟩
    · cases hstep
  | watch keyPrefix q =>
    simp only [step] at hstep
    injection hstep with h
    injection h with h1 h2
    subst h1 h2
    exact ⟨x, by simp [MemoryStore.Watch, List.find?_append, hx], rfl, by
      simp [takenBy, Call.event, matching]⟩
  | stop q =>
    simp only [step] at hstep
    injection hstep with h
    injection h with h1 h2
    subst h1 h2
    have hq : q ≠ ptr := fun h => hc (h ▸ rfl)
    exact ⟨x, by simp [memoryWatcher.Stop, find?_eraseP_other ptr q hq, hx], rfl, by
      simp [takenBy, Call.event, matching]⟩
  | recv q =>
    simp only [step, recv] at hstep
    split at hstep
    · next e s2 hr =>
      injection hstep with h
      injection h with h1 h2
      subst h1 h2
      split at hr
      · cases hr
      · next e1 ws1 hrf =>
        injection hr with hr
        injection hr with he hs
        subst he hs
        obtain ⟨x1, h1, h2, h3⟩ := recvFrom_find ptr q _ _ _ x hrf hx
        exact ⟨x1, h1, h2, by simpa [Call.event, matching] using h3⟩
    · cases hstep

theorem takenBy_append (ptr : Nat) (a b : List (Nat × Event α β)) :
    takenBy ptr (a ++ b) = takenBy ptr a ++ takenBy ptr b := by
  simp [takenBy]

theorem matching_append (p : String) (a b : List (String × Event α β)) :
    matching p (a ++ b) = matching p a ++ matching p b := by
  simp [matching]

theorem run_watcher (marshal : α → Except StoreError β) (ptr : Nat) (calls : List (Call α))
    (hlive : ∀ c ∈ calls, c ≠ .stop ptr) :
    ∀ (s s1 : MemoryStore α β) (x : memoryWatcher α β)
      (muts : List (String × Event α β)) (rcpts : List (Nat × Event α β)),
      s.watcher? ptr = some x → run marshal s calls = some (s1, muts, rcpts) →
      ∃ x1, s1.watcher? ptr = some x1 ∧ x1.keyPrefix = x.keyPrefix ∧
        takenBy ptr rcpts ++ x1.resultChan = x.resultChan ++ matching x.keyPrefix muts := by
  induction calls with
  | nil =>
    intro s s1 x muts rcpts hx hrun
    simp only [run] at hrun
    injection hrun with h
    injection h with h1 h2
    injection h2 with h2 h3
    subst h1 h2 h3
    exact ⟨x, hx, rfl, by simp [takenBy, matching]⟩
  | cons c cs ih =>
    intro s s1 x muts rcpts hx hrun
    simp only [run] at hrun
    split at hrun
    · cases hrun
    · next s2 rcpt hstep =>
      split at hrun
      · cases hrun
      · next s3 muts1 rcpts1 hrest =>
        injection hrun with h
        injection h with h1 h2
        injection h2 with h2 h3
        subst h1 h2 h3
        obtain ⟨x1, hx1, hp1, hq1⟩ :=
          step_watcher marshal s s2 c rcpt ptr x hstep (hlive c (List.mem_cons_self _ _)) hx
        obtain ⟨x2, hx2, hp2, hq2⟩ :=
          ih (fun d hd => hlive d (List.mem_cons_of_mem _ hd)) s2 s3 x1 muts1 rcpts1 hx1 hrest
        refine ⟨x2, hx2, hp2.trans hp1, ?_⟩
        rw [takenBy_append, matching_append, List.append_assoc, hq2, ← List.append_assoc, hq1,
          hp1, List.append_assoc]

theorem run_kinds (marshal : α → Except StoreError β) (calls : List (Call α)) :
    ∀ (s s1 : MemoryStore α β) (muts : List (String × Event α β))
      (rcpts : List (Nat × Event α β)),
      run marshal s calls = some (s1, muts, rcpts) →
      muts.map (fun m => (m.1, m.2.Typ)) = calls.filterMap Call.kind := by
  induction calls with
  | nil =>
    intro s s1 muts rcpts hrun
    simp only [run] at hrun
    injection hrun with h
    injection h with h1 h2
    injection h2 with h2 h3
    subst h2
    rfl
  | cons c cs ih =>
    intro s s1 muts rcpts hrun
    simp only [run] at hrun
    split at hrun
    · cases hrun
    · next s2 rcpt hstep =>
      split at hrun
      · cases hrun
      · next s3 muts1 rcpts1 hrest =>
        injection hrun with h
        injection h with h1 h2
        injection h2 with h2 h3
        subst h2
        have ih1 := ih s2 s3 muts1 rcpts1 hrest
        rw [List.map_append, ih1]
        cases c with
        | create key obj write => rfl
        | update key obj write => rfl
        | delete key write =>
          simp only [step] at hstep
          split at hstep
          · next s4 hD =>
            obtain ⟨raw, hraw, _⟩ := Delete_returned_nil _ _ _ _ hD
            simp [Call.event, hraw, Call.kind, List.filterMap_cons]
          · cases hstep
        | watch keyPrefix q => rfl
        | stop q => rfl
        | recv q => rfl

/-- C5.  Watch prefix fidelity.  Let a watcher be subscribed with prefix `P` (by a Watch
call returning the fresh watcher `ptr`), and let any sequence of calls follow in which
every Create, Update and Delete succeeds, subscribers take events, other subscriptions
come and go, and this watcher is not stopped.  Then each mutation stands for exactly one
event, of type Added, Modified or Deleted respectively, and the events the watcher has
taken followed by those still in its queue are exactly the events of the mutations whose
key begins with `P`, in the order the mutations were applied: there is none for another
key and none from before the subscription. -/
theorem watch_prefix_fidelity (marshal : α → Except StoreError β) (s0 s1 : MemoryStore α β)
    (P : String) (ptr : Nat) (calls : List (Call α)) (muts : List (String × Event α β))
    (rcpts : List (Nat × Event α β))
    (hfresh : ∀ w ∈ s0.watchers, w.ptr ≠ ptr) (hlive : ∀ c ∈ calls, c ≠ .stop ptr)
    (hrun : run marshal (s0.Watch P ptr) calls = some (s1, muts, rcpts)) :
    muts.map (fun m => (m.1, m.2.Typ)) = calls.filterMap Call.kind ∧
    ∃ x, s1.watcher? ptr = some x ∧ x.keyPrefix = P ∧
      takenBy ptr rcpts ++ x.resultChan = matching P muts := by
  refine ⟨run_kinds marshal calls _ _ _ _ hrun, ?_⟩
  have h0 : (s0.Watch P ptr).watcher? ptr
      = some { ptr := ptr, resultChan := [], keyPrefix := P } := by
    have hnone : s0.watchers.find? (fun w => w.ptr == ptr) = none := by
      rw [List.find?_eq_none]
      intro w hw
      simpa using hfresh w hw
    simp [MemoryStore.watcher?, MemoryStore.Watch, List.find?_append, hnone]
  obtain ⟨x, hx, hp, hq⟩ := run_watcher marshal ptr calls hlive _ _ _ _ _ h0 hrun
  exact ⟨x, hx, hp, by simpa using hq⟩

/-- C5, at a concrete input: `someCalls` after a subscription to the lease keys of an
empty registry. -/
theorem watch_prefix_fidelity_witness :
    examples.someMutations.map (fun m => (m.1, m.2.Typ))
      = examples.someCalls.filterMap Call.kind ∧
    ∃ x, examples.afterSomeCalls.watcher? 0 = some x ∧ x.keyPrefix = "/registry/leases" ∧
      takenBy 0 [(0, ⟨.Added, .obj (examples.leaseAt "5" "a")⟩)] ++ x.resultChan
        = matching "/registry/leases" examples.someMutations :=
  watch_prefix_fidelity examples.leaseCodec.marshal (NewMemoryStore "") examples.afterSomeCalls
    "/registry/leases" 0 examples.someCalls examples.someMutations
    [(0, ⟨.Added, .obj (examples.leaseAt "5" "a")⟩)] (by decide) (by decide) (by rfl)

end storage

/-! ## ReplicaSet reconciler -/

namespace GoMap

variable {ν : Type}

theorem lookup_eq_some_of_mem (l : List (String × ν)) (hl : (l.map Prod.fst).Nodup)
    (k : String) (v : ν) (h : (k, v) ∈ l) : l.lookup k = some v := by
  induction l with
  | nil => cases h
  | cons e l ih =>
    obtain ⟨a, b⟩ := e
    rw [List.map_cons, List.nodup_cons] at hl
    rcases List.mem_cons.1 h with h1 | h1
    · injection h1 with h2 h3
      subst h2 h3
      simp [List.lookup_cons]
    · have hk : k ≠ a := by
        intro hka
        subst hka
        exact hl.1 (List.mem_map.2 ⟨(k, v), h1, rfl⟩)
      have hk1 : (k == a) = false := by simpa using hk
      rw [List.lookup_cons, hk1]
      exact ih hl.2 h1

theorem mem_of_lookup_eq_some (l : List (String × ν)) (k : String) (v : ν)
    (h : l.lookup k = some v) : (k, v) ∈ l := by
  induction l with
  | nil => cases h
  | cons e l ih =>
    obtain ⟨a, b⟩ := e
    by_cases hk : k = a
    · subst hk
      simp only [List.lookup_cons, beq_self_eq_true] at h
      injection h with h
      subst h
      exact List.mem_cons_self _ _
    · have hk1 : (k == a) = false := by simpa using hk
      rw [List.lookup_cons, hk1] at h
      exact List.mem_cons_of_mem _ (ih h)

theorem mem_entries_iff (m : GoMap ν) (k : String) (v : ν) :
    (k, v) ∈ m.entries ↔ m.get? k = some v :=
  ⟨lookup_eq_some_of_mem m.entries m.nodup k v, mem_of_lookup_eq_some m.entries k v⟩

end GoMap

namespace replicaset

/-- C7.  Label selector soundness: `labelsMatch S L` holds exactly when `S` is non-empty
and every key of `S` is present in `L` with the value `S` gives it; an empty `S` matches
no label map. -/
theorem labelsMatch_sound (S L : GoMap String) :
    (labelsMatch S L = true ↔
      S.len ≠ 0 ∧ ∀ k v, S.get? k = some v → L.get? k = some v) ∧
    (S.len = 0 → labelsMatch S L = false) := by
  constructor
  · unfold labelsMatch
    by_cases h0 : S.len = 0
    · simp [h0]
    · simp only [h0, if_false, List.all_eq_true, ne_eq, not_false_eq_true, true_and]
      constructor
      · intro h k v hkv
        have hmem := (GoMap.mem_entries_iff S k v).2 hkv
        have := h (k, v) hmem
        cases hL : L.get? k with
        | none => simp [hL] at this
        | some val =>
          simp only [hL, beq_iff_eq] at this
          rw [this]
      · intro h e he
        have := h e.1 e.2 ((GoMap.mem_entries_iff S e.1 e.2).1 he)
        simp [this]
  · intro h0
    simp [labelsMatch, h0]

end replicaset

/-! ## Deployment reconciler: the template hash -/

namespace json

open api

variable {ν : Type}

theorem keyTotal : IsTotal (String × ν) (fun a b => strLE a.1 b.1) :=
  ⟨fun a b => le_total a.1.data b.1.data⟩

theorem keyTrans : IsTrans (String × ν) (fun a b => strLE a.1 b.1) :=
  ⟨fun a b c (h₁ : a.1.data ≤ b.1.data) (h₂ : b.1.data ≤ c.1.data) => le_trans h₁ h₂⟩

theorem strLE_antisymm : IsAntisymm String strLE :=
  ⟨fun a b (h₁ : a.data ≤ b.data) (h₂ : b.data ≤ a.data) => String.ext (le_antisymm h₁ h₂)⟩

theorem eq_of_perm_of_keys_eq (l₁ : List (String × ν)) :
    ∀ l₂ : List (String × ν), l₁.Perm l₂ → (l₁.map Prod.fst).Nodup →
      l₁.map Prod.fst = l₂.map Prod.fst → l₁ = l₂ := by
  induction l₁ with
  | nil =>
    intro l₂ hp _ _
    exact (List.Perm.nil_eq hp)
  | cons e t ih =>
    intro l₂ hp hn hk
    cases l₂ with
    | nil => cases hk
    | cons e₂ t₂ =>
      obtain ⟨k, v⟩ := e
      obtain ⟨k₂, v₂⟩ := e₂
      simp only [List.map_cons, List.cons.injEq] at hk
      obtain ⟨hk1, hk2⟩ := hk
      subst hk1
      rw [List.map_cons, List.nodup_cons] at hn
      have hmem : (k, v) ∈ (k, v₂) :: t₂ := hp.subset (List.mem_cons_self _ _)
      have hv : v = v₂ := by
        rcases List.mem_cons.1 hmem with h | h
        · injection h
        · exact absurd (hk2 ▸ List.mem_map.2 ⟨(k, v), h, rfl⟩) hn.1
      subst hv
      rw [ih t₂ (List.Perm.cons_inv hp) hn.2 hk2]

theorem sortedEntries_sorted (m : GoMap ν) :
    List.Sorted strLE ((sortedEntries m).map Prod.fst) := by
  haveI := keyTotal (ν := ν)
  haveI := keyTrans (ν := ν)
  unfold List.Sorted
  rw [List.pairwise_map]
  exact List.sorted_insertionSort (fun a b : String × ν => strLE a.1 b.1) m.entries

theorem sortedEntries_perm (m : GoMap ν) : (sortedEntries m).Perm m.entries :=
  List.perm_insertionSort _ _

theorem sortedEntries_congr (m₁ m₂ : GoMap ν) (h : m₁.Equiv m₂) :
    sortedEntries m₁ = sortedEntries m₂ := by
  have hp : (sortedEntries m₁).Perm (sortedEntries m₂) :=
    ((sortedEntries_perm m₁).trans h).trans (sortedEntries_perm m₂).symm
  have hn : ((sortedEntries m₁).map Prod.fst).Nodup :=
    ((sortedEntries_perm m₁).map Prod.fst).nodup_iff.2 m₁.nodup
  haveI := strLE_antisymm
  exact eq_of_perm_of_keys_eq _ _ hp hn
    (List.eq_of_perm_of_sorted (hp.map Prod.fst) (sortedEntries_sorted m₁)
      (sortedEntries_sorted m₂))

theorem omitEmptyMap_congr (name : String) (m₁ m₂ : GoMap String) (h : m₁.Equiv m₂) :
    omitEmptyMap name m₁ = omitEmptyMap name m₂ := by
  have hl : m₁.len = m₂.len := List.Perm.length_eq h
  simp only [omitEmptyMap, marshalMap, hl, sortedEntries_congr m₁ m₂ h]

end json

namespace deployment

open api json

theorem marshalContainer_congr (a b : Container) (h : SameContainer a b) :
    marshalContainer a = marshalContainer b := by
  obtain ⟨h1, h2, h3, h4, h5, ⟨h6, h7⟩, h8, h9⟩ := h
  simp only [marshalContainer, marshalResourceRequirements, h1, h2, h3, h4, h5, h8, h9,
    omitEmptyMap_congr _ _ _ h6, omitEmptyMap_congr _ _ _ h7]

theorem marshalContainers_congr (l₁ l₂ : List Container)
    (h : List.Forall₂ SameContainer l₁ l₂) :
    l₁.map marshalContainer = l₂.map marshalContainer := by
  induction h with
  | nil => rfl
  | cons hab _ ih => rw [List.map_cons, List.map_cons, marshalContainer_congr _ _ hab, ih]

theorem marshalPodTemplateSpec_congr (timeText : Time → String) (a b : PodTemplateSpec)
    (h : SameTemplate a b) :
    marshalPodTemplateSpec timeText a = marshalPodTemplateSpec timeText b := by
  obtain ⟨h1, h2, h3, h4, h5, h6, h7, h8, h9, h10⟩ := h
  have hc : (match a.Spec.Containers with
      | none => JSON.null
      | some cs => JSON.arr (cs.map marshalContainer))
    = (match b.Spec.Containers with
      | none => JSON.null
      | some cs => JSON.arr (cs.map marshalContainer)) := by
    cases ha : a.Spec.Containers with
    | none =>
      cases hb : b.Spec.Containers with
      | none => rfl
      | some l₂ => simp [SameContainers, ha, hb] at h8
    | some l₁ =>
      cases hb : b.Spec.Containers with
      | none => simp [SameContainers, ha, hb] at h8
      | some l₂ =>
        rw [ha, hb] at h8
        simp only [marshalContainers_congr l₁ l₂ h8]
  simp only [marshalPodTemplateSpec, marshalObjectMeta, marshalPodSpec, h1, h2, h5, h6, h7,
    h9, h10, hc, omitEmptyMap_congr _ _ _ h3, omitEmptyMap_congr _ _ _ h4]

end deployment

namespace json

open api

/-! ### What a document holds under a key -/

theorem lookup_omitEmptyStr (k name v : String) :
    (omitEmptyStr name v).lookup k = if k = name ∧ v ≠ "" then some (JSON.str v) else none := by
  unfold omitEmptyStr
  by_cases hv : v = ""
  · simp [hv, List.lookup]
  · by_cases hk : k = name
    · simp [hv, hk, List.lookup]
    · have : (k == name) = false := by simpa using hk
      simp [hv, hk, List.lookup, this]

theorem lookup_omitEmptyInt (k name : String) (n : Int) :
    (omitEmptyInt name n).lookup k = if k = name ∧ n ≠ 0 then some (JSON.num n) else none := by
  unfold omitEmptyInt
  by_cases hv : n = 0
  · simp [hv, List.lookup]
  · by_cases hk : k = name
    · simp [hv, hk, List.lookup]
    · have : (k == name) = false := by simpa using hk
      simp [hv, hk, List.lookup, this]

theorem lookup_omitEmptyMap (k name : String) (m : GoMap String) :
    (omitEmptyMap name m).lookup k =
      if k = name ∧ m.len ≠ 0 then some (marshalMap m) else none := by
  unfold omitEmptyMap
  by_cases hv : m.len = 0
  · simp [hv, List.lookup]
  · by_cases hk : k = name
    · simp [hv, hk, List.lookup]
    · have : (k == name) = false := by simpa using hk
      simp [hv, hk, List.lookup, this]

theorem lookup_omitEmptyList (k name : String) (xs : List JSON) :
    (omitEmptyList name xs).lookup k =
      if k = name ∧ xs.isEmpty = false then some (JSON.arr xs) else none := by
  unfold omitEmptyList
  cases xs with
  | nil => simp [List.lookup]
  | cons x t =>
    by_cases hk : k = name
    · simp [hk, List.lookup]
    · have : (k == name) = false := by simpa using hk
      simp [hk, List.lookup, this]

theorem lookup_omitNil (k name : String) (x : Option JSON) :
    (omitNil name x).lookup k = if k = name then x else none := by
  unfold omitNil
  cases x with
  | none => simp [List.lookup]
  | some j =>
    by_cases hk : k = name
    · simp [hk, List.lookup]
    · have : (k == name) = false := by simpa using hk
      simp [hk, List.lookup, this]

theorem lookup_single (k name : String) (j : JSON) :
    List.lookup k [(name, j)] = if k = name then some j else none := by
  by_cases hk : k = name
  · simp [hk, List.lookup]
  · have : (k == name) = false := by simpa using hk
    simp [hk, List.lookup, this]

/-! ### The document determines the content -/

theorem optional_str_inj {a b : String}
    (h : (if a = "" then none else some (JSON.str a)) =
      (if b = "" then none else some (JSON.str b))) : a = b := by
  by_cases ha : a = "" <;> by_cases hb : b = ""
  · rw [ha, hb]
  · simp [ha, hb] at h
  · simp [ha, hb] at h
  · simpa [ha, hb] using h

theorem optional_int_inj {a b : Int}
    (h : (if a = 0 then none else some (JSON.num a)) =
      (if b = 0 then none else some (JSON.num b))) : a = b := by
  by_cases ha : a = 0 <;> by_cases hb : b = 0
  · rw [ha, hb]
  · simp [ha, hb] at h
  · simp [ha, hb] at h
  · simpa [ha, hb] using h

theorem marshalMap_equiv {a b : GoMap String} (h : marshalMap a = marshalMap b) :
    a.Equiv b := by
  unfold marshalMap at h
  injection h with h
  have hinj : Function.Injective (fun e : String × String => (e.1, JSON.str e.2)) := by
    intro x y hxy
    simp only [Prod.mk.injEq, JSON.str.injEq] at hxy
    exact Prod.ext hxy.1 hxy.2
  have hs : sortedEntries a = sortedEntries b := List.map_injective_iff.mpr hinj h
  exact ((sortedEntries_perm a).symm.trans (hs ▸ List.Perm.refl _)).trans (sortedEntries_perm b)

theorem optional_map_equiv {a b : GoMap String}
    (h : (if a.len = 0 then none else some (marshalMap a)) =
      (if b.len = 0 then none else some (marshalMap b))) : a.Equiv b := by
  by_cases ha : a.len = 0 <;> by_cases hb : b.len = 0
  · have h1 : a.entries = [] := List.length_eq_zero.mp ha
    have h2 : b.entries = [] := List.length_eq_zero.mp hb
    unfold GoMap.Equiv
    rw [h1, h2]
  · simp [ha, hb] at h
  · simp [ha, hb] at h
  · simp only [ha, hb, if_false, Option.some.injEq] at h
    exact marshalMap_equiv h

theorem optional_list_inj {α : Type} (f : α → JSON) (a b : List α)
    [Decidable (a = [])] [Decidable (b = [])]
    (h : (if a = [] then none else some (JSON.arr (a.map f))) =
      (if b = [] then none else some (JSON.arr (b.map f)))) : a.map f = b.map f := by
  by_cases ha : a = [] <;> by_cases hb : b = []
  · rw [ha, hb]
  · simp [ha, hb] at h
  · simp [ha, hb] at h
  · simp only [ha, hb, if_false, Option.some.injEq, JSON.arr.injEq] at h
    exact h

theorem map_str_inj {a b : List String} (h : a.map JSON.str = b.map JSON.str) : a = b :=
  List.map_injective_iff.mpr (fun x y hxy => by injection hxy) h

theorem option_map_inj {α : Type} (f : α → JSON) (P : α → Prop)
    (hf : ∀ x y, P x → P y → f x = f y → x = y) (a b : Option α)
    (ha : ∀ x, a = some x → P x) (hb : ∀ x, b = some x → P x)
    (h : a.map f = b.map f) : a = b := by
  cases a with
  | none =>
    cases b with
    | none => rfl
    | some y => simp at h
  | some x =>
    cases b with
    | none => simp at h
    | some y =>
      simp only [Option.map_some', Option.some.injEq] at h
      rw [hf x y (ha x rfl) (hb y rfl) h]

theorem marshalIntOrString_inj {a b : IntOrString} (ha : a.Decoded) (hb : b.Decoded)
    (h : marshalIntOrString a = marshalIntOrString b) : a = b := by
  obtain ⟨a1, a2, a3⟩ := a
  obtain ⟨b1, b2, b3⟩ := b
  unfold IntOrString.Decoded at ha hb
  simp only at ha hb
  unfold marshalIntOrString at h
  simp only at h
  rcases ha with ⟨h1, h2⟩ | ⟨h1, h2⟩ <;> rcases hb with ⟨h3, h4⟩ | ⟨h3, h4⟩
  · subst h1 h2 h3 h4
    simp only [if_true, JSON.num.injEq] at h
    rw [h]
  · subst h1 h2 h3 h4
    simp at h
  · subst h1 h2 h3 h4
    simp at h
  · subst h1 h2 h3 h4
    simp only [show ¬ ((1 : Int) = 0) by decide, if_false, JSON.str.injEq] at h
    rw [h]

theorem marshalHTTPGetAction_inj {a b : HTTPGetAction} (ha : a.Port.Decoded)
    (hb : b.Port.Decoded) (h : marshalHTTPGetAction a = marshalHTTPGetAction b) : a = b := by
  unfold marshalHTTPGetAction at h
  injection h with hm
  have h1 := congrArg (List.lookup "path") hm
  have h2 := congrArg (List.lookup "port") hm
  simp only [List.lookup_append, lookup_omitEmptyStr, lookup_single] at h1 h2
  simp at h1 h2
  obtain ⟨a1, a2⟩ := a
  obtain ⟨b1, b2⟩ := b
  simp only at h1 h2 ha hb
  rw [optional_str_inj h1, marshalIntOrString_inj ha hb h2]

theorem marshalTCPSocketAction_inj {a b : TCPSocketAction} (ha : a.Port.Decoded)
    (hb : b.Port.Decoded) (h : marshalTCPSocketAction a = marshalTCPSocketAction b) : a = b := by
  unfold marshalTCPSocketAction at h
  injection h with hm
  have h2 := congrArg (List.lookup "port") hm
  simp only [lookup_single] at h2
  simp at h2
  obtain ⟨a1⟩ := a
  obtain ⟨b1⟩ := b
  simp only at h2 ha hb
  rw [marshalIntOrString_inj ha hb h2]

theorem marshalProbe_inj {a b : Probe} (ha : a.Decoded) (hb : b.Decoded)
    (h : marshalProbe a = marshalProbe b) : a = b := by
  unfold marshalProbe at h
  injection h with hm
  have h1 := congrArg (List.lookup "httpGet") hm
  have h2 := congrArg (List.lookup "tcpSocket") hm
  have h3 := congrArg (List.lookup "initialDelaySeconds") hm
  have h4 := congrArg (List.lookup "periodSeconds") hm
  simp only [List.lookup_append, lookup_omitEmptyInt, lookup_omitNil] at h1 h2 h3 h4
  simp at h1 h2 h3 h4
  obtain ⟨a1, a2, a3, a4⟩ := a
  obtain ⟨b1, b2, b3, b4⟩ := b
  unfold Probe.Decoded at ha hb
  simp only at h1 h2 h3 h4 ha hb
  have e1 : a1 = b1 := option_map_inj marshalHTTPGetAction (fun x => x.Port.Decoded)
    (fun x y hx hy hxy => marshalHTTPGetAction_inj hx hy hxy) a1 b1 ha.1 hb.1 h1
  have e2 : a2 = b2 := option_map_inj marshalTCPSocketAction (fun x => x.Port.Decoded)
    (fun x y hx hy hxy => marshalTCPSocketAction_inj hx hy hxy) a2 b2 ha.2 hb.2 h2
  rw [e1, e2, optional_int_inj h3, optional_int_inj h4]

theorem marshalContainerPort_inj {a b : ContainerPort}
    (h : marshalContainerPort a = marshalContainerPort b) : a = b := by
  unfold marshalContainerPort at h
  injection h with hm
  have h1 := congrArg (List.lookup "name") hm
  have h2 := congrArg (List.lookup "containerPort") hm
  have h3 := congrArg (List.lookup "protocol") hm
  simp only [List.lookup_append, lookup_omitEmptyStr, lookup_single] at h1 h2 h3
  simp at h1 h2 h3
  obtain ⟨a1, a2, a3⟩ := a
  obtain ⟨b1, b2, b3⟩ := b
  simp only at h1 h2 h3
  rw [optional_str_inj h1, h2, optional_str_inj h3]

theorem marshalResourceRequirements_same {a b : ResourceRequirements}
    (h : marshalResourceRequirements a = marshalResourceRequirements b) :
    deployment.SameResources a b := by
  unfold marshalResourceRequirements at h
  injection h with hm
  have h1 := congrArg (List.lookup "requests") hm
  have h2 := congrArg (List.lookup "limits") hm
  simp only [List.lookup_append, lookup_omitEmptyMap] at h1 h2
  simp at h1 h2
  exact ⟨optional_map_equiv h1, optional_map_equiv h2⟩

theorem marshalContainer_same {a b : Container} (ha : a.Decoded) (hb : b.Decoded)
    (h : marshalContainer a = marshalContainer b) : deployment.SameContainer a b := by
  unfold marshalContainer at h
  injection h with hm
  have h1 := congrArg (List.lookup "name") hm
  have h2 := congrArg (List.lookup "image") hm
  have h3 := congrArg (List.lookup "command") hm
  have h4 := congrArg (List.lookup "args") hm
  have h5 := congrArg (List.lookup "ports") hm
  have h6 := congrArg (List.lookup "resources") hm
  have h7 := congrArg (List.lookup "livenessProbe") hm
  have h8 := congrArg (List.lookup "readinessProbe") hm
  simp only [List.lookup_append, lookup_omitEmptyStr, lookup_single, lookup_omitEmptyList,
    lookup_omitNil, List.lookup_cons, List.lookup_nil] at h1 h2 h3 h4 h5 h6 h7 h8
  simp at h1 h2 h3 h4 h5 h6 h7 h8
  refine ⟨h1, h2, map_str_inj (optional_list_inj _ _ _ h3),
    map_str_inj (optional_list_inj _ _ _ h4),
    List.map_injective_iff.mpr (fun x y hxy => marshalContainerPort_inj hxy)
      (optional_list_inj _ _ _ h5),
    marshalResourceRequirements_same h6,
    option_map_inj marshalProbe Probe.Decoded (fun x y hx hy hxy => marshalProbe_inj hx hy hxy)
      _ _ ha.1 hb.1 h7,
    option_map_inj marshalProbe Probe.Decoded (fun x y hx hy hxy => marshalProbe_inj hx hy hxy)
      _ _ ha.2 hb.2 h8⟩

theorem marshalContainers_same : ∀ (l₁ l₂ : List Container),
    (∀ c ∈ l₁, c.Decoded) → (∀ c ∈ l₂, c.Decoded) →
    l₁.map marshalContainer = l₂.map marshalContainer →
    List.Forall₂ deployment.SameContainer l₁ l₂ := by
  intro l₁
  induction l₁ with
  | nil =>
    intro l₂ _ _ h
    cases l₂ with
    | nil => exact List.Forall₂.nil
    | cons y t => simp at h
  | cons x s ih =>
    intro l₂ h1 h2 h
    cases l₂ with
    | nil => simp at h
    | cons y t =>
      simp only [List.map_cons, List.cons.injEq] at h
      exact List.Forall₂.cons
        (marshalContainer_same (h1 x (List.mem_cons_self _ _)) (h2 y (List.mem_cons_self _ _)) h.1)
        (ih t (fun c hc => h1 c (List.mem_cons_of_mem _ hc))
          (fun c hc => h2 c (List.mem_cons_of_mem _ hc)) h.2)

/-- The document of a pod template determines the content of the template: two templates
as decoded from JSON with the same document have the same content. -/
theorem marshalPodTemplateSpec_same (timeText : Time → String)
    (htime : Function.Injective timeText) (a b : PodTemplateSpec)
    (ha : deployment.DecodedTemplate a) (hb : deployment.DecodedTemplate b)
    (h : marshalPodTemplateSpec timeText a = marshalPodTemplateSpec timeText b) :
    deployment.SameTemplate a b := by
  unfold marshalPodTemplateSpec at h
  injection h with hm
  simp only [List.cons.injEq, Prod.mk.injEq, true_and, and_true] at hm
  obtain ⟨hmeta, hspec⟩ := hm
  unfold marshalObjectMeta at hmeta
  injection hmeta with hmeta
  unfold marshalPodSpec at hspec
  injection hspec with hspec
  have h1 := congrArg (List.lookup "name") hmeta
  have h2 := congrArg (List.lookup "namespace") hmeta
  have h3 := congrArg (List.lookup "labels") hmeta
  have h4 := congrArg (List.lookup "annotations") hmeta
  have h5 := congrArg (List.lookup "resourceVersion") hmeta
  have h6 := congrArg (List.lookup "creationTimestamp") hmeta
  have h7 := congrArg (List.lookup "deletionTimestamp") hmeta
  have h8 := congrArg (List.lookup "containers") hspec
  have h9 := congrArg (List.lookup "nodeName") hspec
  have h10 := congrArg (List.lookup "restartPolicy") hspec
  simp only [List.lookup_append, lookup_omitEmptyStr, lookup_single, lookup_omitEmptyMap,
    lookup_omitNil, List.lookup_cons, List.lookup_nil] at h1 h2 h3 h4 h5 h6 h7 h8 h9 h10
  simp at h1 h2 h3 h4 h5 h6 h7 h8 h9 h10
  refine ⟨optional_str_inj h1, optional_str_inj h2, optional_map_equiv h3,
    optional_map_equiv h4, optional_str_inj h5, htime h6, ?_, ?_, optional_str_inj h9,
    optional_str_inj h10⟩
  · exact option_map_inj (fun t => JSON.str (timeText t)) (fun _ => True)
      (fun x y _ _ hxy => htime (by injection hxy)) _ _ (fun _ _ => trivial)
      (fun _ _ => trivial) h7
  · unfold deployment.DecodedTemplate at ha hb
    cases hca : a.Spec.Containers with
    | none =>
      cases hcb : b.Spec.Containers with
      | none => exact trivial
      | some l₂ => rw [hca, hcb] at h8; simp at h8
    | some l₁ =>
      cases hcb : b.Spec.Containers with
      | none => rw [hca, hcb] at h8; simp at h8
      | some l₂ =>
        rw [hca, hcb] at h8
        simp only [JSON.arr.injEq] at h8
        rw [hca] at ha
        rw [hcb] at hb
        exact marshalContainers_same l₁ l₂ ha hb h8

theorem sortedObject_marshalMap (m : GoMap String) : SortedObject m (marshalMap m) :=
  ⟨sortedEntries m, rfl, sortedEntries_perm m, sortedEntries_sorted m⟩

theorem mapMember_of_lookup (members : List (String × JSON)) (key : String) (m : GoMap String)
    (h : members.lookup key = if m.len = 0 then none else some (marshalMap m)) :
    MapMember (.obj members) key m := by
  constructor
  · intro h0
    show members.lookup key = none
    rw [h, if_pos h0]
  · intro h0
    refine ⟨marshalMap m, ?_, sortedObject_marshalMap m⟩
    show members.lookup key = some (marshalMap m)
    rw [h, if_neg h0]

/-- The maps of a container in its document. -/
theorem marshalContainer_members (c : Container) :
    (marshalContainer c).member "name" = some (.str c.Name) ∧
    (marshalContainer c).member "image" = some (.str c.Image) ∧
    ∃ res, (marshalContainer c).member "resources" = some res ∧
      MapMember res "requests" c.Resources.Requests ∧
      MapMember res "limits" c.Resources.Limits := by
  refine ⟨by rfl, by rfl, marshalResourceRequirements c.Resources, ?_, ?_, ?_⟩
  · show List.lookup "resources" _ = _
    simp only [List.lookup_append, lookup_omitEmptyList, lookup_single, lookup_omitNil,
      List.lookup_cons, List.lookup_nil]
    simp
  · apply mapMember_of_lookup
    simp only [List.lookup_append, lookup_omitEmptyMap]
    simp
  · apply mapMember_of_lookup
    simp only [List.lookup_append, lookup_omitEmptyMap]
    simp

/-- The maps of a pod template in its document. -/
theorem marshalPodTemplateSpec_members (timeText : Time → String) (t : PodTemplateSpec) :
    ∃ metadata spec,
      (marshalPodTemplateSpec timeText t).member "metadata" = some metadata ∧
      (marshalPodTemplateSpec timeText t).member "spec" = some spec ∧
      MapMember metadata "labels" t.Labels ∧
      MapMember metadata "annotations" t.Annotations ∧
      (t.Spec.Containers = none → spec.member "containers" = some .null) ∧
      (∀ cs, t.Spec.Containers = some cs →
        spec.member "containers" = some (.arr (cs.map marshalContainer))) := by
  refine ⟨marshalObjectMeta timeText t.toObjectMeta, marshalPodSpec t.Spec, by rfl, by rfl,
    ?_, ?_, ?_, ?_⟩
  · apply mapMember_of_lookup
    simp only [List.lookup_append, lookup_omitEmptyStr, lookup_single, lookup_omitEmptyMap,
      lookup_omitNil]
    simp
  · apply mapMember_of_lookup
    simp only [List.lookup_append, lookup_omitEmptyStr, lookup_single, lookup_omitEmptyMap,
      lookup_omitNil]
    simp
  · intro h
    show List.lookup "containers" _ = _
    rw [h]
    rfl
  · intro cs h
    show List.lookup "containers" _ = _
    rw [h]
    rfl

end json

namespace deployment

open api json examples

/-- C9.  Deployment revision stability: `computeHash` depends on the content of the
template only.  For two pod templates with the same content (equal fields; label,
annotation and resource maps equal as finite maps, in whatever order their entries are
held) it returns the same string, namely the hex encoding of the SHA-256 of the JSON
encoding of the template.  In that encoding the labels and the annotations of the
template are members of the `metadata` object and the requests and limits of every
container members of its `resources` object, each written as an object with one member
for each entry of the map, the keys in increasing order, and left out when the map is
empty; and the encoding holds the whole content: two templates as decoded from JSON whose
encodings are equal have the same content. -/
theorem computeHash_stable (timeText : Time → String) (render : JSON → List UInt8)
    (sha256 : List UInt8 → List UInt8) (t₁ t₂ : PodTemplateSpec) (h : SameTemplate t₁ t₂) :
    computeHash timeText render sha256 t₁ = computeHash timeText render sha256 t₂ ∧
    computeHash timeText render sha256 t₁
      = EncodeToString (sha256 (render (marshalPodTemplateSpec timeText t₁))) ∧
    (∃ metadata spec,
      (marshalPodTemplateSpec timeText t₁).member "metadata" = some metadata ∧
      (marshalPodTemplateSpec timeText t₁).member "spec" = some spec ∧
      MapMember metadata "labels" t₁.Labels ∧
      MapMember metadata "annotations" t₁.Annotations ∧
      (t₁.Spec.Containers = none → spec.member "containers" = some .null) ∧
      (∀ cs, t₁.Spec.Containers = some cs →
        ∃ items, spec.member "containers" = some (.arr items) ∧ items.length = cs.length ∧
          ∀ i c, cs.get? i = some c →
            ∃ item res, items.get? i = some item ∧
              item.member "name" = some (.str c.Name) ∧
              item.member "image" = some (.str c.Image) ∧
              item.member "resources" = some res ∧
              MapMember res "requests" c.Resources.Requests ∧
              MapMember res "limits" c.Resources.Limits)) ∧
    (Function.Injective timeText → ∀ t₃ : PodTemplateSpec,
      DecodedTemplate t₁ → DecodedTemplate t₃ →
      marshalPodTemplateSpec timeText t₁ = marshalPodTemplateSpec timeText t₃ →
      SameTemplate t₁ t₃) := by
  refine ⟨?_, rfl, ?_, fun htime t₃ h1 h3 he =>
    marshalPodTemplateSpec_same timeText htime t₁ t₃ h1 h3 he⟩
  · simp only [computeHash, marshalPodTemplateSpec_congr timeText t₁ t₂ h]
  · obtain ⟨metadata, spec, h1, h2, h3, h4, h5, h6⟩ :=
      marshalPodTemplateSpec_members timeText t₁
    refine ⟨metadata, spec, h1, h2, h3, h4, h5, fun cs hcs => ?_⟩
    refine ⟨cs.map marshalContainer, h6 cs hcs, List.length_map _ _, fun i c hc => ?_⟩
    obtain ⟨hn, hi, res, hr, hq, hl⟩ := marshalContainer_members c
    exact ⟨marshalContainer c, res, by rw [List.get?_eq_getElem?, List.getElem?_map, ← List.get?_eq_getElem?, hc]; rfl, hn, hi, hr, hq, hl⟩

/-- C9, at a concrete input: a template and the same template with the entries of its
label and resource maps in the other order, with a byte writer that writes the document
out and the identity in the place of SHA-256.  The document of both is the one written
out below, labels and requests by increasing key, and the hash of both is the hexadecimal
text of its bytes. -/
theorem computeHash_stable_witness :
    computeHash timeText renderText digest templateAB
      = computeHash timeText renderText digest templateBA ∧
    textOf (renderText (marshalPodTemplateSpec timeText templateAB)) =
      "\x7b\"metadata\":\x7b\"labels\":\x7b\"app\":\"web\",\"tier\":\"fe\"\x7d,\"creationTimestamp\":\"0\"\x7d,\"spec\":\x7b\"containers\":[\x7b\"name\":\"c\",\"image\":\"nginx\",\"resources\":\x7b\"requests\":\x7b\"cpu\":\"100m\",\"memory\":\"64Mi\"\x7d\x7d\x7d]\x7d\x7d" ∧
    textOf (renderText (marshalPodTemplateSpec timeText templateBA)) =
      textOf (renderText (marshalPodTemplateSpec timeText templateAB)) ∧
    computeHash timeText renderText digest templateAB =
      EncodeToString (renderText (marshalPodTemplateSpec timeText templateAB)) ∧
    (computeHash timeText renderText digest templateAB).data.take 8 = "7b226d65".data :=
  ⟨(computeHash_stable timeText renderText digest templateAB templateBA
    ⟨rfl, rfl, (show List.Perm _ _ from List.Perm.swap _ _ _), List.Perm.refl _, rfl, rfl, rfl,
      (show List.Forall₂ SameContainer _ _ from
        List.Forall₂.cons
          (show SameContainer _ _ from
            ⟨rfl, rfl, rfl, rfl, rfl,
              ⟨(show List.Perm _ _ from List.Perm.swap _ _ _), List.Perm.refl _⟩, rfl, rfl⟩)
          List.Forall₂.nil),
      rfl, rfl⟩).1, by rfl, by rfl, by rfl, by rfl⟩

end deployment

/-! ## Service/Endpoints reconciler -/

namespace service

open api storage apiserver

/-- C10 (the code at the failing input).  The service `web` has a selector and no pod
matches it.  The first run creates the Endpoints object with the empty, non-nil
`Subsets`; the registry returns it with `Subsets` nil.  The second run, on the same
service, the same (empty) pod list and the stored object, finds the subsets different and
issues an Update, and so does the third run on what the second stored. -/
theorem reconcileService_updates_on_unchanged_inputs :
    reconcileService examples.webService (.ok [])
        (client.GetEndpoints examples.endpointsCodec (NewMemoryStore "") "web")
      = .ok (.create (desiredEp examples.webService [])) ∧
    (desiredEp examples.webService []).Subsets = some [] ∧
    client.CreateEndpoints examples.endpointsCodec (NewMemoryStore "")
        (desiredEp examples.webService []) none
      = .returned none examples.webRegistry ∧
    client.GetEndpoints examples.endpointsCodec examples.webRegistry "web"
      = .ok (some examples.storedWebEndpoints) ∧
    examples.storedWebEndpoints.Subsets = none ∧
    reconcileService examples.webService (.ok []) (.ok (some examples.storedWebEndpoints))
      = .ok (.update { examples.storedWebEndpoints with Subsets := some [] }) ∧
    client.UpdateEndpoints examples.endpointsCodec examples.webRegistry
        { examples.storedWebEndpoints with Subsets := some [] } none
      = .returned none examples.webRegistryAgain ∧
    client.GetEndpoints examples.endpointsCodec examples.webRegistryAgain "web"
      = .ok (some examples.storedWebEndpoints) := by
  refine ⟨by rfl, by rfl, by decide, by rfl, by rfl, by rfl, by decide, by rfl⟩

end service

/-! ## Leader election -/

namespace leaderelection

open api storage apiserver

/-- C4 (the code at the failing input).  The lease `lock` is held by a third identity `c`
and expired at 15 s.  At 20 s the electors `a` and `b` both read it and both decide to take
it over.  Whichever of the two updates is sent first, both are accepted: both electors get
a nil error and start leading, the registry ending with the holder written last.  Two
seconds later the elector whose write was overwritten is refused its renewal. -/
theorem both_electors_acquire_expired_lease :
    client.GetLease examples.leaseCodec (examples.leaseRegistry (examples.leaseHeld "c" 0))
        "lock" = .ok (some (examples.leaseHeld "c" 0)) ∧
    tryAcquireOrRenew.request examples.electorA (20 * examples.second)
        (some (examples.leaseHeld "c" 0))
      = .update (examples.leaseHeld "a" (20 * examples.second)) ∧
    tryAcquireOrRenew.request examples.electorB (20 * examples.second)
        (some (examples.leaseHeld "c" 0))
      = .update (examples.leaseHeld "b" (20 * examples.second)) ∧
    tryAcquireOrRenew.perform examples.leaseCodec
        (examples.leaseRegistry (examples.leaseHeld "c" 0)) none
        (.update (examples.leaseHeld "a" (20 * examples.second)))
      = .returned none (examples.leaseRegistry2 (examples.leaseHeld "c" 0)
          (examples.leaseHeld "a" (20 * examples.second))) ∧
    tryAcquireOrRenew.perform examples.leaseCodec
        (examples.leaseRegistry2 (examples.leaseHeld "c" 0)
          (examples.leaseHeld "a" (20 * examples.second))) none
        (.update (examples.leaseHeld "b" (20 * examples.second)))
      = .returned none (examples.leaseRegistry3 (examples.leaseHeld "c" 0)
          (examples.leaseHeld "a" (20 * examples.second))
          (examples.leaseHeld "b" (20 * examples.second))) ∧
    tryAcquireOrRenew.perform examples.leaseCodec
        (examples.leaseRegistry (examples.leaseHeld "c" 0)) none
        (.update (examples.leaseHeld "b" (20 * examples.second)))
      = .returned none (examples.leaseRegistry2 (examples.leaseHeld "c" 0)
          (examples.leaseHeld "b" (20 * examples.second))) ∧
    tryAcquireOrRenew.perform examples.leaseCodec
        (examples.leaseRegistry2 (examples.leaseHeld "c" 0)
          (examples.leaseHeld "b" (20 * examples.second))) none
        (.update (examples.leaseHeld "a" (20 * examples.second)))
      = .returned none (examples.leaseRegistry3 (examples.leaseHeld "c" 0)
          (examples.leaseHeld "b" (20 * examples.second))
          (examples.leaseHeld "a" (20 * examples.second))) ∧
    tryAcquireOrRenew examples.leaseCodec examples.electorA (22 * examples.second)
        (examples.leaseRegistry3 (examples.leaseHeld "c" 0)
          (examples.leaseHeld "a" (20 * examples.second))
          (examples.leaseHeld "b" (20 * examples.second))) none
      = .returned (some "lease currently held by b")
          (examples.leaseRegistry3 (examples.leaseHeld "c" 0)
            (examples.leaseHeld "a" (20 * examples.second))
            (examples.leaseHeld "b" (20 * examples.second))) := by
  refine ⟨by rfl, by decide, by decide, by decide, by decide, by decide, by decide, by decide⟩

end leaderelection

/-! ## ReplicaSet reconciler: convergence -/

theorem wrap32_of_range (x : Int) (h₁ : -2147483648 ≤ x) (h₂ : x < 2147483648) :
    wrap32 x = x := by
  unfold wrap32
  omega

namespace GoMap

variable {ν : Type}

end GoMap

namespace storage

variable {α β : Type}

theorem Create_returned_nil_data (marshal : α → Except StoreError β) (s s1 : MemoryStore α β)
    (key : String) (obj : α) (write : Option StoreError)
    (h : s.Create marshal key obj write = .returned none s1) :
    s.data.contains key = false ∧ ∃ data, marshal obj = .ok data ∧
      s1.data = s.data.set key data := by
  unfold MemoryStore.Create at h
  split at h
  · cases h
  · next hk =>
    refine ⟨by simpa using hk, ?_⟩
    split at h
    · cases h
    · next data hm =>
      dsimp only at h
      split at h
      · cases h
      · injection h with _ h2
        exact ⟨data, hm, by rw [← h2]⟩

end storage

namespace client

open storage apiserver

variable {α β : Type}

end client

namespace storage

variable {α β : Type}

/-- When every value under a key with the prefix decodes, List appends the decoded values
in the order of the visit and returns nil. -/
theorem ListObjs_decoded (unmarshal : β → Except StoreError α) (decoded : β → α)
    (keyPrefix : String) :
    ∀ (iter : List (String × β)) (slice : List α),
      (∀ e ∈ iter, HasPrefix e.1 keyPrefix = true → unmarshal e.2 = .ok (decoded e.2)) →
      MemoryStore.ListObjs unmarshal iter keyPrefix slice =
        (slice ++ (iter.filter (fun e => HasPrefix e.1 keyPrefix)).map (fun e => decoded e.2),
          none) := by
  intro iter
  induction iter with
  | nil => intro slice _; simp [MemoryStore.ListObjs]
  | cons e t ih =>
    intro slice h
    have ht : ∀ x ∈ t, HasPrefix x.1 keyPrefix = true → unmarshal x.2 = .ok (decoded x.2) :=
      fun x hx => h x (List.mem_cons_of_mem _ hx)
    by_cases hp : HasPrefix e.1 keyPrefix = true
    · have hd := h e (List.mem_cons_self _ _) hp
      simp only [MemoryStore.ListObjs, hp, if_true, hd, ih _ ht, List.filter_cons,
        List.map_cons, List.append_assoc, List.singleton_append]
    · simp only [MemoryStore.ListObjs, hp, if_false, ih _ ht, List.filter_cons]
      rfl

/-- When a value under a key with the prefix does not decode, List returns the decoder's
error for the first such value of the visit, having appended the values decoded before
it. -/
theorem ListObjs_undecodable (unmarshal : β → Except StoreError α) (keyPrefix : String) :
    ∀ (iter : List (String × β)) (slice : List α),
      (∃ e ∈ iter, HasPrefix e.1 keyPrefix = true ∧ ∃ err, unmarshal e.2 = .error err) →
      ∃ (pre : List (String × β)) (bad : String × β) (post : List (String × β))
          (err : StoreError) (objs : List α),
        iter = pre ++ bad :: post ∧ HasPrefix bad.1 keyPrefix = true ∧
        unmarshal bad.2 = .error err ∧
        List.Forall₂ (fun x o => unmarshal x.2 = .ok o)
          (pre.filter (fun e => HasPrefix e.1 keyPrefix)) objs ∧
        MemoryStore.ListObjs unmarshal iter keyPrefix slice = (slice ++ objs, some err) := by
  intro iter
  induction iter with
  | nil => intro slice h; obtain ⟨e, he, _⟩ := h; cases he
  | cons e t ih =>
    intro slice h
    by_cases hp : HasPrefix e.1 keyPrefix = true
    · cases hd : unmarshal e.2 with
      | error err =>
        refine ⟨[], e, t, err, [], rfl, hp, hd, List.Forall₂.nil, ?_⟩
        simp only [MemoryStore.ListObjs, hp, if_true, hd, List.append_nil]
      | ok o =>
        have ht : ∃ x ∈ t, HasPrefix x.1 keyPrefix = true ∧ ∃ err, unmarshal x.2 = .error err := by
          obtain ⟨x, hx, hxp, err, hxe⟩ := h
          rcases List.mem_cons.mp hx with h1 | h1
          · subst h1; rw [hd] at hxe; cases hxe
          · exact ⟨x, h1, hxp, err, hxe⟩
        obtain ⟨pre, bad, post, err, objs, h1, h2, h3, h4, h5⟩ := ih (slice ++ [o]) ht
        refine ⟨e :: pre, bad, post, err, o :: objs, by rw [h1]; rfl, h2, h3, ?_, ?_⟩
        · rw [List.filter_cons, if_pos hp]
          exact List.Forall₂.cons hd h4
        · simp only [MemoryStore.ListObjs, hp, if_true, hd, h5, List.append_assoc,
            List.singleton_append]
    · have ht : ∃ x ∈ t, HasPrefix x.1 keyPrefix = true ∧ ∃ err, unmarshal x.2 = .error err := by
        obtain ⟨x, hx, hxp, err, hxe⟩ := h
        rcases List.mem_cons.mp hx with h1 | h1
        · subst h1; exact absurd hxp hp
        · exact ⟨x, h1, hxp, err, hxe⟩
      obtain ⟨pre, bad, post, err, objs, h1, h2, h3, h4, h5⟩ := ih slice ht
      refine ⟨e :: pre, bad, post, err, objs, by rw [h1]; rfl, h2, h3, ?_, ?_⟩
      · rw [List.filter_cons, if_neg hp]
        exact h4
      · simp [MemoryStore.ListObjs, hp, h5]

end storage

namespace replicaset

open api storage apiserver

theorem scaleDown_calls (owned : List Pod) :
    ∀ n i, i + n ≤ owned.length →
      scaleDown owned i n
        = { calls := ((owned.drop i).take n).map (fun p => Request.deletePod p.Name),
            panicked := false } := by
  intro n
  induction n with
  | zero =>
    intro i _
    simp [scaleDown]
  | succ n ih =>
    intro i hi
    have hlt : i < owned.length := by omega
    have hget : owned.get? i = some owned[i] := by
      rw [List.get?_eq_getElem?, List.getElem?_eq_getElem hlt]
    simp only [scaleDown, hget, ih (i + 1) (by omega)]
    rw [List.drop_eq_getElem_cons hlt, List.take_succ_cons, List.map_cons]

end replicaset

/-! ## Decimal texts and JSON texts -/

namespace strconv

theorem digitVal_digitChar (d : Nat) (h : d < 10) : digitVal (digitChar d) = some d := by
  interval_cases d <;> rfl

theorem digitChar_toNat (d : Nat) (h : d < 10) : (digitChar d).toNat = 48 + d := by
  interval_cases d <;> rfl

/-- Every character of a decimal text is a digit, given that the tail is. -/
theorem natTextAux_digits (fuel : Nat) : ∀ (n : Nat) (acc : List Char),
    (∀ c ∈ acc, ∃ d, d < 10 ∧ c = digitChar d) →
    ∀ c ∈ natTextAux fuel n acc, ∃ d, d < 10 ∧ c = digitChar d := by
  induction fuel with
  | zero => intro n acc h; exact h
  | succ f ih =>
    intro n acc h c hc
    unfold natTextAux at hc
    split at hc
    · rcases List.mem_cons.mp hc with rfl | hc
      · exact ⟨n, by assumption, rfl⟩
      · exact h c hc
    · refine ih (n / 10) _ ?_ c hc
      intro x hx
      rcases List.mem_cons.mp hx with rfl | hx
      · exact ⟨n % 10, Nat.mod_lt _ (by decide), rfl⟩
      · exact h x hx

/-- A decimal text starts with a digit, and with the digit 0 only for the number 0. -/
theorem natTextAux_head (fuel : Nat) : ∀ (n : Nat) (acc : List Char), n < fuel →
    ∃ d tl, d < 10 ∧ natTextAux fuel n acc = digitChar d :: tl ∧ (d = 0 → n = 0 ∧ tl = acc) := by
  induction fuel with
  | zero => intro n acc h; omega
  | succ f ih =>
    intro n acc h
    unfold natTextAux
    split
    · rename_i h10
      exact ⟨n, acc, h10, rfl, fun h0 => ⟨h0, rfl⟩⟩
    · rename_i h10
      obtain ⟨d, tl, hd, htl, h0⟩ := ih (n / 10) (digitChar (n % 10) :: acc) (by omega)
      refine ⟨d, tl, hd, htl, fun hd0 => ?_⟩
      have := (h0 hd0).1
      omega

/-- Reading a decimal text gives the number back. -/
theorem loop_natTextAux (fuel : Nat) : ∀ (n : Nat) (rest : List Char), n < fuel →
    n ≤ 18446744073709551615 →
    ParseUint.loop 0 (natTextAux fuel n rest) = ParseUint.loop n rest := by
  induction fuel with
  | zero => intro n rest h; omega
  | succ f ih =>
    intro n rest h hmax
    unfold natTextAux
    split
    · rename_i h10
      simp only [ParseUint.loop, digitVal_digitChar n h10]
      rw [if_neg (by omega)]
      simp
    · rename_i h10
      rw [ih (n / 10) _ (by omega) (by omega)]
      simp only [ParseUint.loop, digitVal_digitChar (n % 10) (Nat.mod_lt _ (by decide))]
      have hn : n / 10 * 10 + n % 10 = n := by omega
      rw [hn, if_neg (by omega)]

theorem natText_ne_nil (n : Nat) : natText n ≠ [] := by
  obtain ⟨d, tl, _, h, _⟩ := natTextAux_head (n + 1) n [] (by omega)
  rw [natText, h]; simp

theorem ParseUint_natText (n : Nat) (h : n ≤ 18446744073709551615) :
    ParseUint (natText n) = .value n := by
  unfold ParseUint
  rw [if_neg (natText_ne_nil n), natText, loop_natTextAux (n + 1) n [] (by omega) h]
  rfl

/-- `ParseInt` on a text with a minus sign. -/
theorem ParseInt_minus (rest : List Char) (un : Nat) (h : ParseUint rest = .value un)
    (hun : un ≤ 9223372036854775808) : ParseInt ('-' :: rest) = (-(un : Int), false) := by
  have h2 : ¬ (9223372036854775808 < un) := by omega
  have e : ParseInt ('-' :: rest) =
      (match ParseUint rest with
      | .errSyntax => ((0 : Int), true)
      | .errRange => (-9223372036854775808, true)
      | .value un =>
        if (!true && decide (un ≥ 9223372036854775808)) = true then (9223372036854775807, true)
        else if (true && decide (un > 9223372036854775808)) = true then
          (-9223372036854775808, true)
        else (-(un : Int), false)) := rfl
  rw [e, h]
  simp [h2]

/-- `ParseInt` on a text without a sign. -/
theorem ParseInt_plain (c : Char) (rest : List Char) (un : Nat) (hp : (c == '+') = false)
    (hm : (c == '-') = false) (h : ParseUint (c :: rest) = .value un)
    (hun : un < 9223372036854775808) : ParseInt (c :: rest) = ((un : Int), false) := by
  have h2 : ¬ (9223372036854775808 ≤ un) := by omega
  simp only [ParseInt, hp, hm, Bool.or_self, Bool.false_eq_true, if_false]
  rw [h]
  simp [h2]

/-- `ParseInt` reads the text of an `int64` back. -/
theorem ParseInt_FormatInt (n : Int) (hlo : -9223372036854775808 ≤ n)
    (hhi : n ≤ 9223372036854775807) : ParseInt (FormatInt n) = (n, false) := by
  unfold FormatInt
  split
  · rename_i hneg
    have hu : ParseUint (natText (-n).toNat) = .value (-n).toNat :=
      ParseUint_natText _ (by omega)
    have h1 : ((-n).toNat : Int) = -n := Int.toNat_of_nonneg (by omega)
    rw [ParseInt_minus _ _ hu (by omega), h1, neg_neg]
  · rename_i hneg
    obtain ⟨d, tl, hd, htl, _⟩ := natTextAux_head (n.toNat + 1) n.toNat [] (by omega)
    have hu : ParseUint (natText n.toNat) = .value n.toNat := ParseUint_natText _ (by omega)
    have h1 : (n.toNat : Int) = n := Int.toNat_of_nonneg (by omega)
    have hplus : (digitChar d == '+') = false := by interval_cases d <;> rfl
    have hminus : (digitChar d == '-') = false := by interval_cases d <;> rfl
    have htxt : natText n.toNat = digitChar d :: tl := htl
    rw [htxt] at hu ⊢
    rw [ParseInt_plain _ _ _ hplus hminus hu (by omega), h1]

end strconv

namespace json

theorem dropWhile_of_head {α : Type} (p : α → Bool) (l : List α)
    (h : ∀ c, l.head? = some c → p c = false) : l.dropWhile p = l := by
  cases l with
  | nil => rfl
  | cons a t => rw [List.dropWhile_cons_of_neg]; simp [h a rfl]

/-- A text that neither starts nor ends with white space is not trimmed. -/
theorem trimSpace_eq (l : List Char) (h1 : ∀ c, l.head? = some c → isSpace c = false)
    (h2 : ∀ c, l.getLast? = some c → isSpace c = false) : trimSpace l = l := by
  unfold trimSpace
  rw [dropWhile_of_head isSpace l h1, dropWhile_of_head isSpace l.reverse, List.reverse_reverse]
  intro c hc
  rw [List.head?_reverse] at hc
  exact h2 c hc

theorem isSpace_digitChar (d : Nat) (h : d < 10) : isSpace (strconv.digitChar d) = false := by
  interval_cases d <;> rfl

/-- The characters of the text of an integer: digits and the minus sign. -/
theorem FormatInt_chars (n : Int) :
    ∀ c ∈ strconv.FormatInt n, c = '-' ∨ ∃ d, d < 10 ∧ c = strconv.digitChar d := by
  intro c hc
  unfold strconv.FormatInt at hc
  split at hc
  · rcases List.mem_cons.mp hc with rfl | hc
    · exact Or.inl rfl
    · exact Or.inr (strconv.natTextAux_digits _ _ [] (by simp) c hc)
  · exact Or.inr (strconv.natTextAux_digits _ _ [] (by simp) c hc)

theorem trimSpace_FormatInt (n : Int) : trimSpace (strconv.FormatInt n) = strconv.FormatInt n := by
  have hall : ∀ c ∈ strconv.FormatInt n, isSpace c = false := by
    intro c hc
    rcases FormatInt_chars n c hc with rfl | ⟨d, hd, rfl⟩
    · rfl
    · exact isSpace_digitChar d hd
  apply trimSpace_eq
  · intro c hc; exact hall c (List.mem_of_mem_head? hc)
  · intro c hc; exact hall c (List.mem_of_mem_getLast? hc)

/-- The text of a natural number is a JSON integer without sign. -/
theorem unsignedLiteral_natText (n : Nat) : unsignedLiteral (strconv.natText n) = true := by
  obtain ⟨d, tl, hd, htl, h0⟩ := strconv.natTextAux_head (n + 1) n [] (by omega)
  have hall := strconv.natTextAux_digits (n + 1) n [] (by simp)
  have htxt : strconv.natText n = strconv.digitChar d :: tl := htl
  rw [htxt]
  simp only [unsignedLiteral]
  split
  · rename_i hz
    have hd0 : d = 0 := by
      interval_cases d
      · rfl
      all_goals exact absurd hz (by decide)
    rw [(h0 hd0).2]; rfl
  · rw [strconv.digitVal_digitChar d hd]
    simp only [Option.isSome_some, Bool.true_and, List.all_eq_true]
    intro x hx
    obtain ⟨k, hk, rfl⟩ := hall x (by rw [htl]; exact List.mem_cons_of_mem _ hx)
    rw [strconv.digitVal_digitChar k hk]; rfl

/-- The text of an integer is a JSON integer. -/
theorem integerLiteral_FormatInt (n : Int) : integerLiteral (strconv.FormatInt n) = true := by
  unfold strconv.FormatInt
  split
  · exact unsignedLiteral_natText _
  · have h := unsignedLiteral_natText n.toNat
    obtain ⟨d, tl, hd, htl, h0⟩ := strconv.natTextAux_head (n.toNat + 1) n.toNat [] (by omega)
    have htxt : strconv.natText n.toNat = strconv.digitChar d :: tl := htl
    have hminus : (strconv.digitChar d == '-') = false := by interval_cases d <;> rfl
    rw [htxt] at h ⊢
    simp only [integerLiteral, hminus, Bool.false_eq_true, if_false]
    exact h

theorem FormatInt_head (n : Int) : ∃ c tl, strconv.FormatInt n = c :: tl ∧ c ≠ '"' ∧ c ≠ 'n' := by
  unfold strconv.FormatInt
  split
  · exact ⟨'-', _, rfl, by decide, by decide⟩
  · obtain ⟨d, tl, hd, htl, _⟩ := strconv.natTextAux_head (n.toNat + 1) n.toNat [] (by omega)
    exact ⟨strconv.digitChar d, tl, htl, by interval_cases d <;> decide,
      by interval_cases d <;> decide⟩

/-- Decoding the text of an `int32` gives the number back. -/
theorem unmarshalInt32_marshalInt32 (n : Int) (hlo : -2147483648 ≤ n) (hhi : n ≤ 2147483647) :
    unmarshalInt32 (marshalInt32 n) = .ok n := by
  obtain ⟨c, tl, htxt, _, hn⟩ := FormatInt_head n
  have hnull : strconv.FormatInt n ≠ ['n', 'u', 'l', 'l'] := by
    rw [htxt]; intro h; exact hn (List.cons.inj h).1
  unfold unmarshalInt32 marshalInt32
  simp only [trimSpace_FormatInt, if_neg hnull, integerLiteral_FormatInt, if_true,
    strconv.ParseInt_FormatInt n (by omega) (by omega)]
  rw [if_pos ⟨hlo, hhi⟩]

set_option maxRecDepth 100000 in
theorem hex4_low : ∀ n, n < 128 → hex4 '0' '0' (hex (n / 16)) (hex (n % 16)) = some n := by
  decide

theorem escaped_simple (e c : Char) (rest : List Char) (hu : e ≠ 'u')
    (h : simpleEscape e = some c) : escaped (e :: rest) = some (c, rest) := by
  simp only [escaped, if_neg hu, h]

theorem escaped_u2028 (rest : List Char) :
    escaped ('u' :: '2' :: '0' :: '2' :: hex (8232 % 16) :: rest) = some (Char.ofNat 8232, rest) := by
  have h : hex4 '2' '0' '2' (hex (8232 % 16)) = some 8232 := by decide
  simp only [escaped, if_true, h]
  rw [if_neg (by omega)]

theorem escaped_u2029 (rest : List Char) :
    escaped ('u' :: '2' :: '0' :: '2' :: hex (8233 % 16) :: rest) = some (Char.ofNat 8233, rest) := by
  have h : hex4 '2' '0' '2' (hex (8233 % 16)) = some 8233 := by decide
  simp only [escaped, if_true, h]
  rw [if_neg (by omega)]

/-- The decoder undoes what the encoder writes for one character. -/
theorem escaped_escapeChar (short : Bool) (c : Char) :
    (escapeChar short c = [c] ∧ c ≠ '"' ∧ c ≠ '\\' ∧ ¬ c.toNat < 32) ∨
    (∃ tl, escapeChar short c = '\\' :: tl ∧ ∀ rest, escaped (tl ++ rest) = some (c, rest)) := by
  unfold escapeChar
  split
  · rename_i h; subst h
    exact Or.inr ⟨_, rfl, fun rest => escaped_simple _ _ rest (by decide) (by decide)⟩
  rename_i h1
  split
  · rename_i h; subst h
    exact Or.inr ⟨_, rfl, fun rest => escaped_simple _ _ rest (by decide) (by decide)⟩
  rename_i h2
  split
  · rename_i h; subst h
    exact Or.inr ⟨_, rfl, fun rest => escaped_simple _ _ rest (by decide) (by decide)⟩
  split
  · rename_i h; subst h
    exact Or.inr ⟨_, rfl, fun rest => escaped_simple _ _ rest (by decide) (by decide)⟩
  split
  · rename_i h; subst h
    exact Or.inr ⟨_, rfl, fun rest => escaped_simple _ _ rest (by decide) (by decide)⟩
  split
  · rename_i h; obtain ⟨_, rfl⟩ := h
    exact Or.inr ⟨_, rfl, fun rest => escaped_simple _ _ rest (by decide) (by decide)⟩
  split
  · rename_i h; obtain ⟨_, rfl⟩ := h
    exact Or.inr ⟨_, rfl, fun rest => escaped_simple _ _ rest (by decide) (by decide)⟩
  split
  · rename_i h8
    refine Or.inr ⟨_, rfl, fun rest => ?_⟩
    have hlt : c.toNat < 128 := by
      rcases h8 with h | rfl | rfl | rfl
      · omega
      all_goals decide
    have hc : Char.ofNat c.toNat = c := Char.ofNat_toNat c
    simp only [List.cons_append, List.nil_append, escaped, if_true, hex4_low c.toNat hlt]
    rw [if_neg (by omega), hc]
  rename_i h8
  split
  · rename_i h9
    refine Or.inr ⟨_, rfl, fun rest => ?_⟩
    have hc : Char.ofNat c.toNat = c := Char.ofNat_toNat c
    rcases h9 with h | h
    · rw [h] at hc ⊢; rw [← hc]; exact escaped_u2028 rest
    · rw [h] at hc ⊢; rw [← hc]; exact escaped_u2029 rest
  · exact Or.inl ⟨rfl, h1, h2, fun h => h8 (Or.inl h)⟩

/-- Reading the body of an encoded string gives the characters back. -/
theorem stringBodyAux_escape (short : Bool) : ∀ (cs : List Char) (fuel : Nat),
    (cs.flatMap (escapeChar short)).length + 1 ≤ fuel →
    stringBodyAux fuel (cs.flatMap (escapeChar short) ++ ['"']) = some cs := by
  intro cs
  induction cs with
  | nil =>
    intro fuel h
    obtain ⟨f, rfl⟩ : ∃ f, fuel = f + 1 := ⟨fuel - 1, by omega⟩
    rfl
  | cons c cs ih =>
    intro fuel h
    obtain ⟨f, rfl⟩ : ∃ f, fuel = f + 1 := ⟨fuel - 1, by omega⟩
    rw [List.flatMap_cons, List.append_assoc]
    rw [List.flatMap_cons, List.length_append] at h
    rcases escaped_escapeChar short c with ⟨he, hq, hb, hctl⟩ | ⟨tl, he, hesc⟩
    · rw [he] at h ⊢
      rw [List.length_singleton] at h
      rw [List.singleton_append]
      simp only [stringBodyAux, if_neg hq, if_neg hb, if_neg hctl]
      rw [ih f (by omega)]
      rfl
    · rw [he] at h ⊢
      rw [List.length_cons] at h
      have hbs : ('\\' : Char) ≠ '"' := by decide
      rw [List.cons_append]
      simp only [stringBodyAux, if_neg hbs, if_true, hesc]
      rw [ih f (by omega)]
      rfl

/-- Decoding an encoded string gives the string back. -/
theorem unmarshalString_marshalString (short : Bool) (s : String) :
    unmarshalString (marshalString short s) = .ok s := by
  have htrim : trimSpace (marshalString short s) = marshalString short s := by
    apply trimSpace_eq
    · intro c hc
      have : c = '"' := by simpa [marshalString] using hc.symm
      subst this; rfl
    · intro c hc
      have : c = '"' := by
        unfold marshalString at hc
        rw [← List.cons_append, List.getLast?_append] at hc
        simpa using hc.symm
      subst this; rfl
  unfold unmarshalString
  simp only [htrim]
  have hnull : marshalString short s ≠ ['n', 'u', 'l', 'l'] := by
    unfold marshalString; intro h; exact absurd (List.cons.inj h).1 (by decide)
  rw [if_neg hnull]
  unfold marshalString stringBody
  simp only []
  rw [stringBodyAux_escape short s.data _ (by simp)]

end json

/-! ## Rounding to `float64` -/

namespace strconv

/-- `bitLen n` is the number of binary digits of `n`. -/
theorem bitLenAux_spec (fuel : Nat) : ∀ n, n ≤ fuel →
    n < 2 ^ bitLenAux fuel n ∧ (n ≠ 0 → 2 ^ (bitLenAux fuel n - 1) ≤ n) := by
  induction fuel with
  | zero =>
    intro n h
    have : n = 0 := by omega
    subst this
    exact ⟨by simp [bitLenAux], fun h => absurd rfl h⟩
  | succ f ih =>
    intro n h
    unfold bitLenAux
    split
    · next hz => subst hz; exact ⟨by simp, fun h => absurd rfl h⟩
    · next hz =>
      obtain ⟨h1, h2⟩ := ih (n / 2) (by omega)
      constructor
      · rw [pow_succ]; omega
      · intro _
        rw [Nat.add_sub_cancel]
        by_cases hq : n / 2 = 0
        · rw [hq]
          have : bitLenAux f 0 = 0 := by cases f <;> simp [bitLenAux]
          rw [this]; simp; omega
        · have h3 := h2 hq
          obtain ⟨k, hk⟩ : ∃ k, bitLenAux f (n / 2) = k + 1 := by
            refine ⟨bitLenAux f (n / 2) - 1, ?_⟩
            have : bitLenAux f (n / 2) ≠ 0 := by
              intro h0; rw [h0] at h1; simp at h1; exact hq h1
            omega
          rw [hk] at h3 ⊢
          rw [Nat.add_sub_cancel] at h3
          rw [pow_succ]; omega

/-- The logarithm found by `floorLog2`: `2 ^ e ≤ a / b < 2 ^ (e + 1)`. -/
theorem floorLog2_spec (a b : Nat) (ha : 0 < a) (hb : 0 < b) :
    geTwoPow a b (floorLog2 a b) = true ∧ geTwoPow a b (floorLog2 a b + 1) = false := by
  obtain ⟨ha1, ha2⟩ := bitLenAux_spec a a (le_refl a)
  obtain ⟨hb1, hb2⟩ := bitLenAux_spec b b (le_refl b)
  have ha2 := ha2 (by omega)
  have hb2 := hb2 (by omega)
  change a < 2 ^ bitLen a at ha1
  change 2 ^ (bitLen a - 1) ≤ a at ha2
  change b < 2 ^ bitLen b at hb1
  change 2 ^ (bitLen b - 1) ≤ b at hb2
  generalize hla : bitLen a = la at *
  generalize hlb : bitLen b = lb at *
  have hla1 : 1 ≤ la := by
    by_contra h
    have : la = 0 := by omega
    subst this; simp at ha1; omega
  have hlb1 : 1 ≤ lb := by
    by_contra h
    have : lb = 0 := by omega
    subst this; simp at hb1; omega
  -- the two outer bounds
  have hup : geTwoPow a b ((la : Int) - lb + 1) = false := by
    unfold geTwoPow
    split <;> rw [decide_eq_false_iff_not]
    · next h =>
      obtain ⟨k, hk⟩ : ∃ k : Nat, ((la : Int) - lb + 1).toNat = k ∧ lb - 1 + k = la :=
        ⟨_, rfl, by omega⟩
      rw [hk.1]
      have : 2 ^ (lb - 1) * 2 ^ k = 2 ^ la := by rw [← pow_add, hk.2]
      have h2 : 2 ^ (lb - 1) * 2 ^ k ≤ b * 2 ^ k := Nat.mul_le_mul_right _ hb2
      omega
    · next h =>
      obtain ⟨k, hk⟩ : ∃ k : Nat, (-((la : Int) - lb + 1)).toNat = k ∧ la + k = lb - 1 :=
        ⟨_, rfl, by omega⟩
      rw [hk.1]
      have : 2 ^ la * 2 ^ k = 2 ^ (lb - 1) := by rw [← pow_add, hk.2]
      have h2 : a * 2 ^ k < 2 ^ la * 2 ^ k := Nat.mul_lt_mul_of_pos_right ha1 (by positivity)
      omega
  have hlow : geTwoPow a b ((la : Int) - lb - 1) = true := by
    unfold geTwoPow
    split <;> rw [decide_eq_true_iff]
    · next h =>
      obtain ⟨k, hk⟩ : ∃ k : Nat, ((la : Int) - lb - 1).toNat = k ∧ lb + k = la - 1 :=
        ⟨_, rfl, by omega⟩
      rw [hk.1]
      have : 2 ^ lb * 2 ^ k = 2 ^ (la - 1) := by rw [← pow_add, hk.2]
      have h2 : b * 2 ^ k < 2 ^ lb * 2 ^ k := Nat.mul_lt_mul_of_pos_right hb1 (by positivity)
      omega
    · next h =>
      obtain ⟨k, hk⟩ : ∃ k : Nat, (-((la : Int) - lb - 1)).toNat = k ∧ la - 1 + k = lb :=
        ⟨_, rfl, by omega⟩
      rw [hk.1]
      have : 2 ^ (la - 1) * 2 ^ k = 2 ^ lb := by rw [← pow_add, hk.2]
      have h2 : 2 ^ (la - 1) * 2 ^ k ≤ a * 2 ^ k := Nat.mul_le_mul_right _ ha2
      omega
  have hdef : floorLog2 a b =
      if geTwoPow a b ((la : Int) - lb) = true then (la : Int) - lb
      else (la : Int) - lb - 1 := by
    unfold floorLog2
    simp only [hla, hlb]
  rw [hdef]
  split
  · next h => exact ⟨h, hup⟩
  · next h =>
    refine ⟨hlow, ?_⟩
    have : (la : Int) - lb - 1 + 1 = (la : Int) - lb := by ring
    rw [this]; simpa using h

/-- The rounded quotient is within half a unit of `a / b`, and even when `a / b` lies
midway between two integers. -/
theorem roundHalfEven_spec (a b : Nat) (hb : 0 < b) :
    2 * (roundHalfEven a b * b) ≤ 2 * a + b ∧ 2 * a ≤ 2 * (roundHalfEven a b * b) + b ∧
    (2 * (roundHalfEven a b * b) = 2 * a + b ∨ 2 * a = 2 * (roundHalfEven a b * b) + b →
      roundHalfEven a b % 2 = 0) := by
  have hdm : b * (a / b) + a % b = a := Nat.div_add_mod a b
  have hr : a % b < b := Nat.mod_lt a hb
  generalize hq : a / b = q at hdm
  generalize hrr : a % b = r at hdm hr
  have hmul : (q + 1) * b = q * b + b := by ring
  have hcomm : b * q = q * b := Nat.mul_comm b q
  unfold roundHalfEven
  simp only [hq, hrr]
  split
  · refine ⟨by omega, by omega, fun h => by omega⟩
  · split
    · rw [hmul]; refine ⟨by omega, by omega, fun h => by omega⟩
    · split
      · next hev => refine ⟨by omega, by omega, fun _ => hev⟩
      · next hodd => rw [hmul]; refine ⟨by omega, by omega, fun _ => by omega⟩

/-- Known values of the rounding: one tenth and one third, and the numbers midway between
two neighbours, which go to the even one. -/
theorem nearest64_known :
    nearest64 false 1 10 = some ⟨false, 7205759403792794, -56⟩ ∧
    nearest64 false 1 3 = some ⟨false, 6004799503160661, -54⟩ ∧
    nearest64 false 9007199254740993 1 = some ⟨false, 4503599627370496, 1⟩ ∧
    nearest64 false 9007199254740995 1 = some ⟨false, 4503599627370498, 1⟩ := by
  refine ⟨by decide, by decide, by decide, by decide⟩

theorem roundHalfEven_one (a : Nat) : roundHalfEven a 1 = a := by
  unfold roundHalfEven
  simp [Nat.mod_one]

/-- A natural number up to `2 ^ 31` is a `float64`: rounding keeps it. -/
theorem nearest64_nat (neg : Bool) (k : Nat) (hk : k ≤ 2147483648) :
    ∃ f, nearest64 neg k 1 = some f ∧ f.neg = neg ∧ f.e ≤ 0 ∧
      f.m / 2 ^ (-f.e).toNat = k ∧ (f.e = 0 → f.m = k) := by
  by_cases h0 : k = 0
  · subst h0
    exact ⟨⟨neg, 0, 0⟩, by simp [nearest64], rfl, le_refl _, by simp, fun _ => rfl⟩
  · obtain ⟨hlo, hhi⟩ := floorLog2_spec k 1 (by omega) (by decide)
    generalize hL : floorLog2 k 1 = L at hlo hhi
    have hL0 : 0 ≤ L := by
      by_contra hneg
      have h1 : L + 1 ≤ 0 := by omega
      unfold geTwoPow at hhi
      by_cases h2 : 0 ≤ L + 1
      · have h3 : L + 1 = 0 := by omega
        rw [h3] at hhi
        simp at hhi
        omega
      · rw [if_neg h2] at hhi
        have : 1 ≤ k * 2 ^ (-(L + 1)).toNat :=
          Nat.one_le_iff_ne_zero.mpr (Nat.mul_ne_zero h0 (by positivity))
        simp at hhi
        omega
    have hL31 : L ≤ 31 := by
      by_contra hbig
      unfold geTwoPow at hlo
      rw [if_pos hL0] at hlo
      have h1 : 1 * 2 ^ L.toNat ≤ k := by simpa using hlo
      have h2 : 32 ≤ L.toNat := by omega
      have h3 : 2 ^ 32 ≤ 2 ^ L.toNat := Nat.pow_le_pow_right (by decide) h2
      have h4 : (2 : Nat) ^ 32 = 4294967296 := by norm_num
      omega
    have hu : max (L - 52) (-1074) = L - 52 := max_eq_left (by omega)
    have hneg : ¬ (0 ≤ L - 52) := by omega
    refine ⟨⟨neg, k * 2 ^ (-(L - 52)).toNat, L - 52⟩, ?_, rfl, by show L - 52 ≤ 0; omega, ?_, ?_⟩
    · unfold nearest64
      rw [if_neg h0]
      simp only [hL, hu, hneg, if_false, roundHalfEven_one]
      rw [if_neg]
      omega
    · show k * 2 ^ (-(L - 52)).toNat / 2 ^ (-(L - 52)).toNat = k
      exact Nat.mul_div_cancel _ (by positivity)
    · intro h
      have : L - 52 = 0 := h
      omega

end strconv

/-! ## `IntOrString`, CPU quantities and the scheduler -/

namespace api

/-- C12.  Int-or-string round trip.  For an integer variant (`Type` 0) with a value in
`int32` and for a string variant (`Type` 1), `UnmarshalJSON` into a fresh value reads the
output of `MarshalJSON` without error and gives the same variant and the same value.  The
integer variant is written as a bare JSON integer, the decimal text of the value, and
the string variant as a JSON string literal that spells the string. -/
theorem IntOrString_round_trip (short : Bool) (v : IntOrString)
    (hv : (v.Typ = 0 ∧ -2147483648 ≤ v.IntVal ∧ v.IntVal ≤ 2147483647) ∨ v.Typ = 1) :
    (v.Typ = 0 →
      IntOrString.UnmarshalJSON {} (v.MarshalJSON short) = .ok { Typ := 0, IntVal := v.IntVal } ∧
      v.MarshalJSON short = strconv.FormatInt v.IntVal ∧
      json.integerLiteral (v.MarshalJSON short) = true) ∧
    (v.Typ = 1 →
      IntOrString.UnmarshalJSON {} (v.MarshalJSON short) = .ok { Typ := 1, StrVal := v.StrVal } ∧
      ∃ body, v.MarshalJSON short = '"' :: body ∧
        json.stringBody body = some v.StrVal.data) := by
  constructor
  · intro h0
    have hr : -2147483648 ≤ v.IntVal ∧ v.IntVal ≤ 2147483647 := by
      rcases hv with ⟨_, hlo, hhi⟩ | h1
      · exact ⟨hlo, hhi⟩
      · rw [h0] at h1; exact absurd h1 (by decide)
    obtain ⟨c, tl, htxt, hq, _⟩ := json.FormatInt_head v.IntVal
    have hm : v.MarshalJSON short = strconv.FormatInt v.IntVal := by
      unfold IntOrString.MarshalJSON; rw [if_pos h0]; rfl
    have hd := json.unmarshalInt32_marshalInt32 v.IntVal hr.1 hr.2
    unfold json.marshalInt32 at hd
    refine ⟨?_, hm, ?_⟩
    · rw [hm]
      unfold IntOrString.UnmarshalJSON
      rw [htxt] at hd ⊢
      simp only [if_neg hq, hd]
    · rw [hm]; exact json.integerLiteral_FormatInt _
  · intro h1
    have hm : v.MarshalJSON short = json.marshalString short v.StrVal := by
      unfold IntOrString.MarshalJSON; rw [if_neg (by rw [h1]; decide)]
    have hd := json.unmarshalString_marshalString short v.StrVal
    refine ⟨?_, _, hm, ?_⟩
    · rw [hm]
      have hform : json.marshalString short v.StrVal =
          '"' :: (v.StrVal.data.flatMap (json.escapeChar short) ++ ['"']) := rfl
      unfold IntOrString.UnmarshalJSON
      rw [hform] at hd ⊢
      simp only [if_true, hd]
    · unfold json.stringBody
      exact json.stringBodyAux_escape short v.StrVal.data _ (by simp)

/-- C12 at the two documents of `hack/debug-json`: the port 80 and the port name `http`. -/
theorem IntOrString_round_trip_witness :
    IntOrString.UnmarshalJSON {} (IntOrString.MarshalJSON true { Typ := 0, IntVal := 80 }) =
      .ok { Typ := 0, IntVal := 80 } ∧
    IntOrString.MarshalJSON true { Typ := 0, IntVal := 80 } = ['8', '0'] ∧
    IntOrString.UnmarshalJSON {} (IntOrString.MarshalJSON true { Typ := 1, StrVal := "http" }) =
      .ok { Typ := 1, StrVal := "http" } :=
  ⟨((IntOrString_round_trip true { Typ := 0, IntVal := 80 } (by decide)).1 rfl).1,
   ((IntOrString_round_trip true { Typ := 0, IntVal := 80 } (by decide)).1 rfl).2.1,
   ((IntOrString_round_trip true { Typ := 1, StrVal := "http" } (by decide)).2 rfl).1⟩

end api

namespace scheduler

open api

theorem HasSuffix_m (t : List Char) : HasSuffix (String.mk (t ++ ['m'])) "m" = true := by
  unfold HasSuffix
  simp [List.isSuffixOf]

theorem TrimSuffix_m (t : List Char) : TrimSuffix (String.mk (t ++ ['m'])) "m" = String.mk t := by
  unfold TrimSuffix
  rw [if_pos (HasSuffix_m t)]
  simp

/-- C13 (failing input).  `parseCPU` gives 0 for the empty text, `n` for the decimal text
of an `int64` `n` followed by `m` (250 for `250m`), 2000 for `2` and 500 for `0.5`; but
for the plain decimal `2.01` it gives 2009, not 2010: the `float64` nearest to 2.01 is
`4526117625507348 * 2 ^ -51`, below 2.01; its `float64` product with 1000 is
`8840073487319039 * 2 ^ -42`, below 2010; and the conversion to `int64` discards the
fraction. -/
theorem parseCPU_truncates :
    (∀ beyond, parseCPU beyond "" = 0) ∧
    (∀ beyond (n : Int), -9223372036854775808 ≤ n → n ≤ 9223372036854775807 →
      parseCPU beyond (String.mk (strconv.FormatInt n ++ ['m'])) = n) ∧
    (∀ beyond, parseCPU beyond "250m" = 250 ∧ parseCPU beyond "2" = 2000 ∧
      parseCPU beyond "0.5" = 500) ∧
    (∀ beyond, parseCPU beyond "2.01" = 2009) ∧
    strconv.ParseFloat "2.01".data = some (some ⟨false, 4526117625507348, -51⟩) ∧
    strconv.Float64.mul ⟨false, 4526117625507348, -51⟩ 1000 =
      some ⟨false, 8840073487319039, -42⟩ ∧
    strconv.Float64.toInt64 ⟨false, 8840073487319039, -42⟩ = some 2009 := by
  refine ⟨fun _ => rfl, ?_, fun _ => ⟨rfl, rfl, rfl⟩, fun _ => rfl, by decide, by decide,
    by decide⟩
  intro beyond n hlo hhi
  have hne : String.mk (strconv.FormatInt n ++ ['m']) ≠ "" := by
    intro h
    have := congrArg String.data h
    simp at this
  unfold parseCPU
  rw [if_neg hne, if_pos (HasSuffix_m _), TrimSuffix_m, strconv.ParseInt_FormatInt n hlo hhi]

/-- C11 (failing input).  A pod whose only container requests two cores and a node list
holding one Ready node with one core (capacity and allocatable): `selectNode` returns
that node, whatever number is drawn, and `scheduleOneRound` binds the pod to it, though
the node's 1000 millicores are fewer than the 2000 requested. -/
theorem selectNode_ignores_requests :
    ∀ (beyond : String → Int) (pick : Nat),
      selectNode beyond pick examples.hungryPod [examples.smallNode] = "small" ∧
      scheduleOneRound beyond (.ok [examples.hungryPod]) (.ok [examples.smallNode]) [pick] =
        [bind examples.hungryPod "small"] ∧
      (examples.hungryPod.Spec.Containers.toList.map (fun c => c.Resources.Requests.get? "cpu") =
        [some "2"]) ∧
      examples.smallNode.Status.Allocatable.get? "cpu" = some "1" ∧
      parseCPU beyond "1" = 1000 ∧ parseCPU beyond "2" = 2000 := by
  intro beyond pick
  have h : selectNode beyond pick examples.hungryPod [examples.smallNode] = "small" := by
    have hf : [examples.smallNode].filter (podFitsResources beyond examples.hungryPod) =
        [examples.smallNode] := rfl
    unfold selectNode
    simp only [hf, List.length_singleton, Nat.mod_one]
    rfl
  refine ⟨h, ?_, rfl, rfl, rfl, rfl⟩
  simp only [scheduleOneRound, scheduleEach, List.headD, h]
  rfl

end scheduler

/-! ## Resource server: names and keys -/

namespace GoMap

variable {ν : Type}

theorem mem_set (m : GoMap ν) (k : String) (v : ν) (e : String × ν)
    (h : e ∈ (m.set k v).entries) : e ∈ m.entries ∨ e = (k, v) := by
  simp only [set, List.mem_append, List.mem_filter, List.mem_singleton] at h
  rcases h with h | h
  · exact Or.inl h.1
  · exact Or.inr h

theorem mem_delete (m : GoMap ν) (k : String) (e : String × ν)
    (h : e ∈ (m.delete k).entries) : e ∈ m.entries := by
  simp only [delete, List.mem_filter] at h
  exact h.1

end GoMap

namespace apiserver

open storage

variable {α β : Type}

/-- The keys after `Create`: those before, and possibly the new one. -/
theorem Create_entries (marshal : α → Except StoreError β) (s : MemoryStore α β)
    (key : String) (obj : α) (write : Option StoreError) (s1 : MemoryStore α β)
    (h : (∃ err, s.Create marshal key obj write = .returned err s1) ∨
      s.Create marshal key obj write = .blocked s1) :
    ∀ e ∈ s1.data.entries, e ∈ s.data.entries ∨ e.1 = key := by
  unfold MemoryStore.Create at h
  split at h
  · rcases h with ⟨err, h⟩ | h
    · injection h with _ h; subst h; exact fun e he => Or.inl he
    · cases h
  · split at h
    · rcases h with ⟨err, h⟩ | h
      · injection h with _ h; subst h; exact fun e he => Or.inl he
      · cases h
    · next data _ =>
      dsimp only at h
      have hset : ∀ e ∈ (s.data.set key data).entries, e ∈ s.data.entries ∨ e.1 = key := by
        intro e he
        rcases GoMap.mem_set _ _ _ _ he with h1 | h1
        · exact Or.inl h1
        · exact Or.inr (by rw [h1])
      split at h
      · rcases h with ⟨err, h⟩ | h
        · cases h
        · injection h with h; subst h; exact hset
      · rcases h with ⟨err, h⟩ | h
        · injection h with _ h; subst h; exact hset
        · cases h

/-- The keys after `Update`: those before. -/
theorem Update_entries (marshal : α → Except StoreError β) (s : MemoryStore α β)
    (key : String) (obj : α) (write : Option StoreError) (s1 : MemoryStore α β)
    (h : (∃ err, s.Update marshal key obj write = .returned err s1) ∨
      s.Update marshal key obj write = .blocked s1) :
    ∀ e ∈ s1.data.entries, ∃ e0 ∈ s.data.entries, e0.1 = e.1 := by
  unfold MemoryStore.Update at h
  split at h
  · rcases h with ⟨err, h⟩ | h
    · injection h with _ h; subst h; exact fun e he => ⟨e, he, rfl⟩
    · cases h
  · next hc =>
    split at h
    · rcases h with ⟨err, h⟩ | h
      · injection h with _ h; subst h; exact fun e he => ⟨e, he, rfl⟩
      · cases h
    · next data _ =>
      dsimp only at h
      have hset : ∀ e ∈ (s.data.set key data).entries, ∃ e0 ∈ s.data.entries, e0.1 = e.1 := by
        intro e he
        rcases GoMap.mem_set _ _ _ _ he with h1 | h1
        · exact ⟨e, h1, rfl⟩
        · have hk : s.data.contains key = true := by simpa using hc
          unfold GoMap.contains at hk
          obtain ⟨v, hv⟩ := Option.isSome_iff_exists.mp hk
          exact ⟨(key, v), (GoMap.mem_entries_iff _ _ _).mpr hv, by rw [h1]⟩
      split at h
      · rcases h with ⟨err, h⟩ | h
        · cases h
        · injection h with h; subst h; exact hset
      · rcases h with ⟨err, h⟩ | h
        · injection h with _ h; subst h; exact hset
        · cases h

/-- The keys after `Delete`: among those before. -/
theorem Delete_entries (s : MemoryStore α β) (key : String) (write : Option StoreError)
    (s1 : MemoryStore α β)
    (h : (∃ err, s.Delete key write = .returned err s1) ∨ s.Delete key write = .blocked s1) :
    ∀ e ∈ s1.data.entries, e ∈ s.data.entries := by
  unfold MemoryStore.Delete at h
  split at h
  · rcases h with ⟨err, h⟩ | h
    · injection h with _ h; subst h; exact fun e he => he
    · cases h
  · dsimp only at h
    split at h
    · rcases h with ⟨err, h⟩ | h
      · cases h
      · injection h with h; subst h; exact fun e he => GoMap.mem_delete _ _ _ he
    · rcases h with ⟨err, h⟩ | h
      · injection h with _ h; subst h; exact fun e he => GoMap.mem_delete _ _ _ he
      · cases h

theorem outcome_cases {σ : Type} (o : Outcome σ) :
    ∃ s1, (∃ err, o = .returned err s1) ∨ o = .blocked s1 := by
  cases o with
  | returned err s1 => exact ⟨s1, Or.inl ⟨err, rfl⟩⟩
  | blocked s1 => exact ⟨s1, Or.inr rfl⟩

/-- Every handler keeps the keys named. -/
theorem serve_keysNamed (codec : String → Codec α β) (s : MemoryStore α β) (r : Request β)
    (h : KeysNamed s) : KeysNamed (serve codec s r).store := by
  cases r with
  | create resource body write =>
    simp only [serve, handleCreate]
    split
    · exact h
    · next obj _ =>
      split
      · exact h
      · next hname =>
        obtain ⟨s1, hs1⟩ := outcome_cases
          (s.Create (codec resource).marshal
            (registryKey resource ((codec resource).objectMeta obj).Name) obj write)
        have hk : KeysNamed s1 := by
          intro e he
          rcases Create_entries _ _ _ _ _ _ hs1 e he with h1 | h1
          · exact h e h1
          · exact ⟨resource, _, hname, h1⟩
        rcases hs1 with ⟨err, hs1⟩ | hs1
        · rw [hs1]
          cases err with
          | none => exact hk
          | some err => cases err <;> exact hk
        · rw [hs1]; exact hk
  | update resource name body write =>
    simp only [serve, handleUpdate]
    split
    · exact h
    · next obj _ =>
      obtain ⟨s1, hs1⟩ := outcome_cases
        (s.Update (codec resource).marshal (registryKey resource name) obj write)
      have hk : KeysNamed s1 := by
        intro e he
        obtain ⟨e0, he0, hkey⟩ := Update_entries _ _ _ _ _ _ hs1 e he
        rw [← hkey]; exact h e0 he0
      rcases hs1 with ⟨err, hs1⟩ | hs1
      · rw [hs1]
        cases err with
        | none => exact hk
        | some err => cases err <;> exact hk
      · rw [hs1]; exact hk
  | delete resource name write =>
    simp only [serve, handleDelete]
    obtain ⟨s1, hs1⟩ := outcome_cases (s.Delete (registryKey resource name) write)
    have hk : KeysNamed s1 := fun e he => h e (Delete_entries _ _ _ _ hs1 e he)
    rcases hs1 with ⟨err, hs1⟩ | hs1
    · rw [hs1]
      cases err with
      | none => exact hk
      | some err => cases err <;> exact hk
    · rw [hs1]; exact hk

theorem serveAll_keysNamed (codec : String → Codec α β) (reqs : List (Request β)) :
    ∀ s : MemoryStore α β, KeysNamed s → KeysNamed (serveAll codec s reqs) := by
  induction reqs with
  | nil => intro s h; exact h
  | cons r rest ih =>
    intro s h
    have h1 := serve_keysNamed codec s r h
    unfold serveAll
    split
    · next hs => rw [hs] at h1; exact ih _ h1
    · next hs => rw [hs] at h1; exact h1

open examples

theorem registryKey_inj (resource n1 n2 : String)
    (h : registryKey resource n1 = registryKey resource n2) : n1 = n2 := by
  unfold registryKey at h
  have := congrArg String.data h
  simp only [String.data_append] at this
  exact String.ext (List.append_cancel_left this)

/-- What a 201 answer of `handleCreate` tells. -/
theorem handleCreate_created (c : Codec α β) (s s1 : MemoryStore α β) (resource : String)
    (body : β) (write : Option StoreError) (obj : α)
    (h : handleCreate c s resource body write = .response 201 (some obj) s1) :
    c.unmarshal body = .ok obj ∧ (c.objectMeta obj).Name ≠ "" ∧
    s.Create c.marshal (registryKey resource (c.objectMeta obj).Name) obj write =
      .returned none s1 := by
  unfold handleCreate at h
  split at h
  · cases h
  · next o ho =>
    split at h
    · cases h
    · next hname =>
      dsimp only at h
      split at h
      · cases h
      · cases h
      · cases h
      · next s2 hc =>
        injection h with _ hb hs
        injection hb with hb
        subst hb; subst hs
        exact ⟨ho, hname, hc⟩

/-- What a 200 answer of `handleUpdate` tells. -/
theorem handleUpdate_updated (c : Codec α β) (s s1 : MemoryStore α β) (resource name : String)
    (body : β) (write : Option StoreError) (obj : α)
    (h : handleUpdate c s resource name body write = .response 200 (some obj) s1) :
    c.unmarshal body = .ok obj ∧
    s.Update c.marshal (registryKey resource name) obj write = .returned none s1 := by
  unfold handleUpdate at h
  split at h
  · cases h
  · next o ho =>
    dsimp only at h
    split at h
    · cases h
    · cases h
    · cases h
    · next s2 hc =>
      injection h with _ hb hs
      injection hb with hb
      subst hb; subst hs
      exact ⟨ho, hc⟩

theorem Update_returned_nil_data (marshal : α → Except StoreError β) (s s1 : MemoryStore α β)
    (key : String) (obj : α) (write : Option StoreError)
    (h : s.Update marshal key obj write = .returned none s1) :
    ∃ data, marshal obj = .ok data ∧ s1.data = s.data.set key data := by
  unfold MemoryStore.Update at h
  split at h
  · cases h
  · split at h
    · cases h
    · next data hm =>
      dsimp only at h
      split at h
      · cases h
      · injection h with _ h2
        exact ⟨data, hm, by rw [← h2]⟩

theorem Create_conflict (marshal : α → Except StoreError β) (s s1 : MemoryStore α β)
    (key : String) (obj : α) (write : Option StoreError)
    (hm : marshal obj ≠ .error .ErrConflict) (hw : write ≠ some .ErrConflict)
    (h : s.Create marshal key obj write = .returned (some .ErrConflict) s1) :
    s.data.contains key = true := by
  by_cases hk : s.data.contains key = true
  · exact hk
  · exfalso
    unfold MemoryStore.Create at h
    rw [if_neg hk] at h
    cases hmo : marshal obj with
    | error e =>
      rw [hmo] at h
      injection h with h _
      injection h with h
      exact hm (by rw [hmo, h])
    | ok data =>
      rw [hmo] at h
      dsimp only at h
      split at h
      · cases h
      · injection h with h _
        unfold MemoryStore.sync at h
        split at h
        · cases h
        · exact hw h

/-- What a 409 answer of `handleCreate` tells. -/
theorem handleCreate_conflict (c : Codec α β) (s s1 : MemoryStore α β) (resource : String)
    (body : β) (write : Option StoreError) (reply : Option α)
    (h : handleCreate c s resource body write = .response 409 reply s1) :
    ∃ obj, c.unmarshal body = .ok obj ∧
      s.Create c.marshal (registryKey resource (c.objectMeta obj).Name) obj write =
        .returned (some .ErrConflict) s1 := by
  unfold handleCreate at h
  split at h
  · cases h
  · next o ho =>
    split at h
    · cases h
    · dsimp only at h
      split at h
      · cases h
      · next s2 hc =>
        injection h with _ _ hs
        subst hs
        exact ⟨o, ho, hc⟩
      · cases h
      · cases h

/-- C14 (counterexample).  From an empty registry, a create of the lease `lock` (201)
followed by an update sent to `/leases/lock` whose body carries no `metadata.name` (200):
the registry then holds, under the key of `lock`, an object with the empty name. -/
theorem update_stores_object_without_name :
    serve (fun _ => leaseCodec) (NewMemoryStore "") (.create "leases" (leaseAt "1" "a") none) =
      .response 201 (some (leaseAt "1" "a"))
        { data := GoMap.empty.set lockKey (leaseAt "1" "a"), watchers := [], filePath := "" } ∧
    serve (fun _ => leaseCodec)
        { data := GoMap.empty.set lockKey (leaseAt "1" "a"), watchers := [], filePath := "" }
        (.update "leases" "lock" namelessLease none) =
      .response 200 (some namelessLease)
        { data := GoMap.empty.set lockKey namelessLease, watchers := [], filePath := "" } ∧
    (serveAll (fun _ => leaseCodec) (NewMemoryStore "")
        [.create "leases" (leaseAt "1" "a") none,
         .update "leases" "lock" namelessLease none]).data.entries = [(lockKey, namelessLease)] ∧
    (leaseCodec.objectMeta namelessLease).Name = "" := by
  refine ⟨by rfl, by rfl, by rfl, by rfl⟩

/-- C14 (amended).  Starting from an empty registry, after any sequence of create, update
and delete requests every registry key is the key of a resource and a non-empty name.
Create answers 400 for a body without `metadata.name`, and an object it stores (201) has a
non-empty name and lies under the key of that name.  Update (200) stores the decoded body
under the key of the name in the URL, whatever `metadata.name` the body carries. -/
theorem registry_keys_have_names (codec : String → Codec α β) (filePath : String)
    (reqs : List (Request β)) :
    (∀ e ∈ (serveAll codec (NewMemoryStore filePath) reqs).data.entries,
      ∃ resource name, name ≠ "" ∧ e.1 = registryKey resource name) ∧
    (∀ (s : MemoryStore α β) resource body write obj,
      (codec resource).unmarshal body = .ok obj → ((codec resource).objectMeta obj).Name = "" →
      serve codec s (.create resource body write) = .response 400 none s) ∧
    (∀ (s s1 : MemoryStore α β) resource body write obj,
      serve codec s (.create resource body write) = .response 201 (some obj) s1 →
      ((codec resource).objectMeta obj).Name ≠ "" ∧
      ∃ data, (codec resource).marshal obj = .ok data ∧
        s1.data.get? (registryKey resource ((codec resource).objectMeta obj).Name) = some data) ∧
    (∀ (s s1 : MemoryStore α β) resource name body write obj,
      serve codec s (.update resource name body write) = .response 200 (some obj) s1 →
      (codec resource).unmarshal body = .ok obj ∧
      ∃ data, (codec resource).marshal obj = .ok data ∧
        s1.data.get? (registryKey resource name) = some data) := by
  refine ⟨?_, ?_, ?_, ?_⟩
  · exact serveAll_keysNamed codec reqs _ (by intro e he; cases he)
  · intro s resource body write obj hu hn
    simp only [serve, handleCreate, hu, hn, if_true]
  · intro s s1 resource body write obj h
    obtain ⟨_, hname, hc⟩ := handleCreate_created _ _ _ _ _ _ _ h
    obtain ⟨_, data, hm, hd⟩ := Create_returned_nil_data _ _ _ _ _ _ hc
    exact ⟨hname, data, hm, by rw [hd, GoMap.get?_set_self]⟩
  · intro s s1 resource name body write obj h
    obtain ⟨hu, hc⟩ := handleUpdate_updated _ _ _ _ _ _ _ _ h
    obtain ⟨data, hm, hd⟩ := Update_returned_nil_data _ _ _ _ _ _ hc
    exact ⟨hu, data, hm, by rw [hd, GoMap.get?_set_self]⟩

/-- C15 (counterexample).  Two pods named `web`, one in namespace `x` and one in `y`: the
first create answers 201, the second 409 Conflict, and the registry is left as it was
after the first. -/
theorem create_in_second_namespace_conflicts :
    (podIn "x").Namespace ≠ (podIn "y").Namespace ∧
    handleCreate replicaset.podCodec (NewMemoryStore "") "pods" (podIn "x") none =
      .response 201 (some (podIn "x"))
        { data := GoMap.empty.set (registryKey "pods" "web") (podIn "x"), watchers := [],
          filePath := "" } ∧
    handleCreate replicaset.podCodec
        { data := GoMap.empty.set (registryKey "pods" "web") (podIn "x"), watchers := [],
          filePath := "" } "pods" (podIn "y") none =
      .response 409 none
        { data := GoMap.empty.set (registryKey "pods" "web") (podIn "x"), watchers := [],
          filePath := "" } := by
  refine ⟨by decide, by rfl, by rfl⟩

/-- C15 (amended).  Object identity in the registry is (kind, name).  After an object has
been created (201), a create of an object of the same resource with the same
`metadata.name` answers 409 Conflict and leaves the registry alone, whatever the
namespaces of the two.  A create answers 409 only when the key of its resource and name is
stored (`json.Marshal` and the file write never fail with the sentinel `ErrConflict`), and
within a resource two names have the same key only when they are equal. -/
theorem identity_is_kind_and_name (c : Codec α β) (s s1 : MemoryStore α β) (resource : String)
    (body1 body2 : β) (o1 o2 : α) (w1 w2 : Option StoreError)
    (h2 : c.unmarshal body2 = .ok o2)
    (hname : (c.objectMeta o2).Name = (c.objectMeta o1).Name)
    (hcreated : handleCreate c s resource body1 w1 = .response 201 (some o1) s1) :
    handleCreate c s1 resource body2 w2 = .response 409 none s1 ∧
    (∀ (s2 s3 : MemoryStore α β) body w reply, (∀ o, c.marshal o ≠ .error .ErrConflict) →
      w ≠ some .ErrConflict → handleCreate c s2 resource body w = .response 409 reply s3 →
      ∃ o, c.unmarshal body = .ok o ∧
        s2.data.contains (registryKey resource (c.objectMeta o).Name) = true) ∧
    (∀ n1 n2, registryKey resource n1 = registryKey resource n2 ↔ n1 = n2) := by
  obtain ⟨_, hne, hc⟩ := handleCreate_created _ _ _ _ _ _ _ hcreated
  obtain ⟨_, data, _, hd⟩ := Create_returned_nil_data _ _ _ _ _ _ hc
  refine ⟨?_, ?_, fun n1 n2 => ⟨registryKey_inj resource n1 n2, fun h => by rw [h]⟩⟩
  · have hk : s1.data.contains (registryKey resource (c.objectMeta o2).Name) = true := by
      rw [hname, hd, GoMap.contains_set_self]
    simp only [handleCreate, h2, hname ▸ hne, if_false, MemoryStore.Create, hk, if_true]
  · intro s2 s3 body w reply hm hw h
    obtain ⟨o, ho, hc⟩ := handleCreate_conflict _ _ _ _ _ _ _ h
    exact ⟨o, ho, Create_conflict _ _ _ _ _ _ (hm o) hw hc⟩

/-- C15 (amended) at the pods `web` of the namespaces `x` and `y`. -/
theorem identity_is_kind_and_name_witness :
    handleCreate replicaset.podCodec
        { data := GoMap.empty.set (registryKey "pods" "web") (podIn "x"), watchers := [],
          filePath := "" } "pods" (podIn "y") none =
      .response 409 none
        { data := GoMap.empty.set (registryKey "pods" "web") (podIn "x"), watchers := [],
          filePath := "" } :=
  (identity_is_kind_and_name replicaset.podCodec (NewMemoryStore "")
    { data := GoMap.empty.set (registryKey "pods" "web") (podIn "x"), watchers := [],
      filePath := "" } "pods" (podIn "x") (podIn "y") (podIn "x") (podIn "y") none none
    rfl rfl (by rfl)).1

end apiserver

/-! ## Take-over, deletion, listing and the scaling step -/

namespace leaderelection

open api storage apiserver examples

/-- C16 (failing input).  When `tryAcquireOrRenew` finds the lease held by another
identity and expired, the lease it sends with `UpdateLease` has the elector as holder,
`now` as acquire and renew time and the configured duration in seconds, and the
`leaseTransitions` it read, not one more.  With the lease `lock` held by `c`, expired at
15 s and at 3 transitions, the elector `a` at 20 s writes a lease with 3 transitions, and
that lease is what the registry holds afterwards. -/
theorem takeOver_keeps_leaseTransitions :
    (∀ (cfg : Config) (now : Time) (lease : Lease) (holder : String) (renewTime seconds : Int),
      lease.Spec.HolderIdentity = some holder → holder ≠ cfg.Identity →
      lease.Spec.RenewTime = some renewTime → lease.Spec.LeaseDurationSeconds = some seconds →
      renewTime + seconds * 1000000000 ≤ now →
      ∃ written, tryAcquireOrRenew.request cfg now (some lease) = .update written ∧
        written.Spec.HolderIdentity = some cfg.Identity ∧
        written.Spec.AcquireTime = some now ∧ written.Spec.RenewTime = some now ∧
        written.Spec.LeaseDurationSeconds = some (leaseDurationSeconds cfg) ∧
        written.Spec.LeaseTransitions = lease.Spec.LeaseTransitions) ∧
    tryAcquireOrRenew.request electorA (20 * second) (some leaseHeldThrice) =
      .update
        { Name := "lock",
          Spec := { HolderIdentity := some "a", LeaseDurationSeconds := some 15,
                    AcquireTime := some (20 * second), RenewTime := some (20 * second),
                    LeaseTransitions := some 3 } } ∧
    tryAcquireOrRenew leaseCodec electorA (20 * second) (leaseRegistry leaseHeldThrice) none =
      .returned none
        (leaseRegistry2 leaseHeldThrice
          { Name := "lock",
            Spec := { HolderIdentity := some "a", LeaseDurationSeconds := some 15,
                      AcquireTime := some (20 * second), RenewTime := some (20 * second),
                      LeaseTransitions := some 3 } }) := by
  refine ⟨?_, by rfl, by rfl⟩
  intro cfg now lease holder renewTime seconds hh hne hr hs hexp
  refine ⟨takeOver cfg now lease, ?_, rfl, rfl, rfl, rfl, rfl⟩
  simp only [tryAcquireOrRenew.request, hh, hr, hs, if_neg hne]
  rw [if_neg (not_lt.mpr hexp)]

end leaderelection

namespace storage

open examples apiserver

variable {α β : Type}

/-- C17 (counterexample).  In `slowMiddleStore` the key `lock` is stored and the second of
three subscribers has ten undelivered events.  Delete removes the key and then waits at
the full channel: it does not return, the first subscriber has the Deleted event, the
second and the third have not. -/
theorem Delete_waits_at_full_watcher :
    slowMiddleStore.Delete lockKey none =
      .blocked
        { data := GoMap.empty,
          watchers :=
            [{ ptr := 1, resultChan := [⟨.Deleted, .decoded (leaseAt "5" "a")⟩],
               keyPrefix := "/registry/leases" },
             { ptr := 0, resultChan := tenEvents, keyPrefix := "/registry/leases" },
             { ptr := 2, resultChan := [], keyPrefix := "/registry/leases" }],
          filePath := "" } := by
  rfl

/-- C17 (amended).  Delete returns NotFound for an absent key and leaves the store as it
is (keys and channels).  For a stored key, when no watcher subscribed to a prefix of the
key has a full channel, it returns (the result of the file write), having removed that
key and no other, left the value of every other key unchanged, and sent one Deleted event
carrying the decoded stored body to every watcher subscribed to a prefix of the key and
to no other; a following Get on the key returns NotFound. -/
theorem Delete_frame (unmarshal : β → Except StoreError α) (s : MemoryStore α β)
    (key : String) (write : Option StoreError) :
    (s.data.get? key = none → s.Delete key write = .returned (some .ErrNotFound) s) ∧
    (∀ raw, s.data.get? key = some raw → wouldBlock key s.watchers = false →
      s.Delete key write =
        .returned (s.sync write)
          { data := s.data.delete key,
            watchers := s.watchers.map (deliver ⟨.Deleted, .decoded raw⟩ key),
            filePath := s.filePath } ∧
      (s.data.delete key).get? key = none ∧
      (∀ k, k ≠ key → (s.data.delete key).get? k = s.data.get? k) ∧
      MemoryStore.Get unmarshal
          { data := s.data.delete key,
            watchers := s.watchers.map (deliver ⟨.Deleted, .decoded raw⟩ key),
            filePath := s.filePath } key = .error .ErrNotFound) := by
  constructor
  · intro h
    simp only [MemoryStore.Delete, h]
  · intro raw h hb
    refine ⟨?_, GoMap.get?_delete_self _ _, fun k hk => GoMap.get?_delete_other _ _ _ hk, ?_⟩
    · simp only [MemoryStore.Delete, h, notifyWatchers_done _ _ _ _ hb]
      rfl
    · simp only [MemoryStore.Get, GoMap.get?_delete_self]

/-- C18 (counterexample).  The registry holds a lease under one lease key and a string
under another.  List of the lease keys into an empty slice of leases returns the decoder's
error, in either order of the visit; the slice then holds the lease when the lease was
visited first and nothing when the string was, never one object for each matching key. -/
theorem ListObjs_fails_on_undecodable_value :
    mixedStore.data.entries =
      [(lockKey, .lease (leaseAt "5" "a")), (registryKey "leases" "note", .text "remember")] ∧
    MemoryStore.ListObjs unmarshalLease mixedStore.data.entries "/registry/leases" [] =
      ([leaseAt "5" "a"],
        some (.other "json: cannot unmarshal string into Go value of type api.Lease")) ∧
    MemoryStore.ListObjs unmarshalLease mixedStore.data.entries.reverse "/registry/leases" [] =
      ([], some (.other "json: cannot unmarshal string into Go value of type api.Lease")) := by
  refine ⟨by rfl, by rfl, by rfl⟩

/-- C18 (amended).  List visits the stored entries in some order `iter` and is a function
of them: it writes to nothing in the store.  Called with an empty slice: when every stored
value whose key begins with the prefix decodes (`decoded` names the object it decodes
to), it returns nil and the slice holds exactly one decoded object for each stored key
that begins with the prefix and nothing for any other key, a rearrangement of the decoded
values at the matching keys; when a matching value does not decode, it returns the
decoder's error for the first such value of the visit instead, and the slice holds the
objects decoded from the matching values visited before that one. -/
theorem ListObjs_lists_matching (unmarshal : β → Except StoreError α) (s : MemoryStore α β)
    (iter : List (String × β)) (keyPrefix : String) (hiter : iter.Perm s.data.entries) :
    (∀ decoded : β → α,
      (∀ e ∈ s.data.entries, HasPrefix e.1 keyPrefix = true →
        unmarshal e.2 = .ok (decoded e.2)) →
      ∃ objs, MemoryStore.ListObjs unmarshal iter keyPrefix [] = (objs, none) ∧
        objs.Perm ((s.data.entries.filter (fun e => HasPrefix e.1 keyPrefix)).map
          (fun e => decoded e.2)) ∧
        objs.length = (s.data.entries.filter (fun e => HasPrefix e.1 keyPrefix)).length) ∧
    ((∃ e ∈ s.data.entries, HasPrefix e.1 keyPrefix = true ∧
        ∃ err, unmarshal e.2 = .error err) →
      ∃ (pre : List (String × β)) (bad : String × β) (post : List (String × β))
          (err : StoreError) (objs : List α),
        iter = pre ++ bad :: post ∧ HasPrefix bad.1 keyPrefix = true ∧
        unmarshal bad.2 = .error err ∧
        List.Forall₂ (fun x o => unmarshal x.2 = .ok o)
          (pre.filter (fun e => HasPrefix e.1 keyPrefix)) objs ∧
        MemoryStore.ListObjs unmarshal iter keyPrefix [] = (objs, some err)) := by
  constructor
  · intro decoded hdec
    refine ⟨(iter.filter (fun e => HasPrefix e.1 keyPrefix)).map (fun e => decoded e.2),
      ?_, ?_, ?_⟩
    · have h := ListObjs_decoded unmarshal decoded keyPrefix iter []
        (fun e he hp => hdec e (hiter.subset he) hp)
      rw [h, List.nil_append]
    · exact (hiter.filter _).map _
    · rw [List.length_map]; exact (hiter.filter _).length_eq
  · rintro ⟨e, he, hp, err, herr⟩
    obtain ⟨pre, bad, post, err1, objs, h1, h2, h3, h4, h5⟩ :=
      ListObjs_undecodable unmarshal keyPrefix iter []
        ⟨e, hiter.symm.subset he, hp, err, herr⟩
    rw [List.nil_append] at h5
    exact ⟨pre, bad, post, err1, objs, h1, h2, h3, h4, h5⟩

/-- C18 (amended) for the two pods of `twoWebPods`, visited in reverse, and for
`mixedStore`, visited in the order of its entries: the listing of the lease keys stops at
the string with the decoder's error, the lease visited before it in the slice. -/
theorem ListObjs_lists_matching_witness :
    (∃ objs, MemoryStore.ListObjs replicaset.podCodec.unmarshal
        twoWebPods.data.entries.reverse "/registry/pods" [] = (objs, none) ∧
      objs.Perm ((twoWebPods.data.entries.filter
        (fun e => HasPrefix e.1 "/registry/pods")).map (fun e => id e.2)) ∧
      objs.length =
        (twoWebPods.data.entries.filter (fun e => HasPrefix e.1 "/registry/pods")).length) ∧
    (∃ (pre : List (String × Document)) (bad : String × Document)
        (post : List (String × Document)) (err : StoreError) (objs : List api.Lease),
      mixedStore.data.entries = pre ++ bad :: post ∧
      HasPrefix bad.1 "/registry/leases" = true ∧ unmarshalLease bad.2 = .error err ∧
      List.Forall₂ (fun x o => unmarshalLease x.2 = .ok o)
        (pre.filter (fun e => HasPrefix e.1 "/registry/leases")) objs ∧
      MemoryStore.ListObjs unmarshalLease mixedStore.data.entries "/registry/leases" [] =
        (objs, some err)) :=
  ⟨(ListObjs_lists_matching replicaset.podCodec.unmarshal twoWebPods
      twoWebPods.data.entries.reverse "/registry/pods" (List.reverse_perm _)).1 id
      (fun _ _ _ => rfl),
   (ListObjs_lists_matching unmarshalLease mixedStore mixedStore.data.entries
      "/registry/leases" (List.Perm.refl _)).2
      ⟨(registryKey "leases" "note", .text "remember"), by decide, by rfl, _, rfl⟩⟩

end storage

namespace replicaset

open api examples

theorem scaleUp_eq (rs : ReplicaSet) (uuids : Nat → String) : ∀ (n i : Nat),
    scaleUp rs uuids i n =
      (List.range n).map (fun j => Request.createPod (createPod rs (uuids (i + j)))) := by
  intro n
  induction n with
  | zero => intro i; rfl
  | succ n ih =>
    intro i
    rw [scaleUp, ih (i + 1), List.range_succ_eq_map, List.map_cons, List.map_map]
    simp only [Nat.add_zero, List.cons.injEq, true_and]
    apply List.map_congr_left
    intro j _
    simp only [Function.comp, Nat.succ_eq_add_one]
    rw [Nat.add_assoc, Nat.add_comm 1 j]

theorem creations_creates (f : Nat → Pod) (l : List Nat) :
    creations (l.map (fun j => Request.createPod (f j))) = l.map f ∧
    deletions (l.map (fun j => Request.createPod (f j))) = [] := by
  induction l with
  | nil => exact ⟨rfl, rfl⟩
  | cons a t ih => simp only [List.map_cons, creations, deletions, ih, and_self]

theorem deletions_deletes (l : List Pod) :
    creations (l.map (fun p => Request.deletePod p.Name)) = [] ∧
    deletions (l.map (fun p => Request.deletePod p.Name)) = l.map (fun p => p.Name) := by
  induction l with
  | nil => exact ⟨rfl, rfl⟩
  | cons a t ih => simp only [List.map_cons, creations, deletions, ih, and_self]

/-- C20 (counterexample).  A ReplicaSet without a replica count and two pods matching its
selector: `reconcileRS` issues no deletion (and no other call). -/
theorem reconcileRS_without_replicas_deletes_nothing :
    (webPods.filter (fun pod => labelsMatch idleRS.Spec.Selector.MatchLabels pod.Labels)).length
      = 2 ∧
    ∀ uuids, reconcileRS idleRS webPods uuids = { calls := [], panicked := false } := by
  exact ⟨by decide, fun _ => rfl⟩

/-- C20 (amended).  An absent replica count switches the reconciler off: for every
ReplicaSet whose `spec.replicas` is absent and every pod list, `reconcileRS` returns at
once and issues no creation and no deletion. -/
theorem reconcileRS_without_replicas (rs : ReplicaSet) (allPods : List Pod)
    (uuids : Nat → String) (h : rs.Spec.Replicas = none) :
    reconcileRS rs allPods uuids = { calls := [], panicked := false } := by
  simp only [reconcileRS, h]

/-- C20 (amended) for `idleRS` and no pod. -/
theorem reconcileRS_without_replicas_witness :
    reconcileRS idleRS [] (fun _ => "0f8a2c31-9d4e-4b6a-8f3e-2a1b0c9d8e7f") =
      { calls := [], panicked := false } :=
  reconcileRS_without_replicas idleRS [] (fun _ => "0f8a2c31-9d4e-4b6a-8f3e-2a1b0c9d8e7f") rfl

theorem createPod_shape (rs : ReplicaSet) (uuid : String) (h : 5 ≤ uuid.length) :
    (createPod rs uuid).Labels = rs.Spec.Template.Labels ∧
    (createPod rs uuid).Spec = rs.Spec.Template.Spec ∧
    ∃ suffix : String, suffix.length = 5 ∧ (createPod rs uuid).Name = rs.Name ++ "-" ++ suffix := by
  refine ⟨rfl, rfl, String.mk (uuid.data.take 5), ?_, rfl⟩
  show (uuid.data.take 5).length = 5
  rw [List.length_take]
  exact Nat.min_eq_left h

/-- The calls of `reconcileRS` for a replica count and a pod list within `int32`. -/
theorem reconcileRS_calls (rs : ReplicaSet) (allPods : List Pod) (uuids : Nat → String)
    (desired : Int) (owned : List Pod) (hrep : rs.Spec.Replicas = some desired)
    (h0 : 0 ≤ desired) (h32 : desired ≤ 2147483647)
    (howned : owned = allPods.filter
      (fun pod => labelsMatch rs.Spec.Selector.MatchLabels pod.Labels))
    (hlen : owned.length ≤ 2147483647) :
    reconcileRS rs allPods uuids =
      { calls :=
          (List.range (desired - (owned.length : Int)).toNat).map
              (fun i => Request.createPod (createPod rs (uuids i))) ++
            (owned.take ((owned.length : Int) - desired).toNat).map
              (fun p => Request.deletePod p.Name),
        panicked := false } := by
  have hw : wrap32 (owned.length : Int) = owned.length := wrap32_of_range _ (by omega) (by omega)
  simp only [reconcileRS, hrep, ← howned, hw]
  split
  · next hlt =>
    rw [wrap32_of_range _ (by omega) (by omega), scaleUp_eq]
    have hz : ((owned.length : Int) - desired).toNat = 0 := by omega
    simp only [hz, List.take_zero, List.map_nil, List.append_nil, Nat.zero_add]
  · next hge =>
    split
    · next hgt =>
      rw [wrap32_of_range _ (by omega) (by omega), scaleDown_calls owned _ 0 (by omega)]
      have hz : (desired - (owned.length : Int)).toNat = 0 := by omega
      simp only [hz, List.range_zero, List.map_nil, List.nil_append, List.drop_zero]
    · next hle =>
      have hz : (desired - (owned.length : Int)).toNat = 0 := by omega
      have hz2 : ((owned.length : Int) - desired).toNat = 0 := by omega
      simp only [hz, hz2, List.range_zero, List.map_nil, List.take_zero, List.append_nil]

theorem creations_append (a b : List Request) :
    creations (a ++ b) = creations a ++ creations b := by
  induction a with
  | nil => rfl
  | cons x t ih =>
    cases x
    · show _ :: creations (t ++ b) = _ :: _ ++ _
      rw [ih]; rfl
    · exact ih

theorem deletions_append (a b : List Request) :
    deletions (a ++ b) = deletions a ++ deletions b := by
  induction a with
  | nil => rfl
  | cons x t ih =>
    cases x
    · exact ih
    · show _ :: deletions (t ++ b) = _ :: _ ++ _
      rw [ih]; rfl

/-- C19.  ReplicaSet scaling step.  For a ReplicaSet with `spec.replicas = desired ≥ 0`
and a pod list, `owned` being the pods of the list that match the selector (`desired` is
an `int32` and the length of `owned` fits one; UUID texts have at least five characters):
one call of `reconcileRS` stops on no index, issues `max(0, desired - |owned|)` pod
creations and `max(0, |owned| - desired)` pod deletions, never both; the deletions name
the first `|owned| - desired` pods of `owned` in list order; each created pod has the
labels and the spec of `rs.spec.template` and is named `rs.name`, a hyphen and five
characters. -/
theorem reconcileRS_scaling_step (rs : ReplicaSet) (allPods : List Pod) (uuids : Nat → String)
    (desired : Int) (owned : List Pod) (hrep : rs.Spec.Replicas = some desired)
    (h0 : 0 ≤ desired) (h32 : desired ≤ 2147483647)
    (howned : owned = allPods.filter
      (fun pod => labelsMatch rs.Spec.Selector.MatchLabels pod.Labels))
    (hlen : owned.length ≤ 2147483647) (huuid : ∀ i, 5 ≤ (uuids i).length) :
    (reconcileRS rs allPods uuids).panicked = false ∧
    creations (reconcileRS rs allPods uuids).calls =
      (List.range (desired - (owned.length : Int)).toNat).map (fun i => createPod rs (uuids i)) ∧
    (creations (reconcileRS rs allPods uuids).calls).length =
      (max 0 (desired - (owned.length : Int))).toNat ∧
    deletions (reconcileRS rs allPods uuids).calls =
      (owned.take ((owned.length : Int) - desired).toNat).map (fun p => p.Name) ∧
    (deletions (reconcileRS rs allPods uuids).calls).length =
      (max 0 ((owned.length : Int) - desired)).toNat ∧
    (creations (reconcileRS rs allPods uuids).calls = [] ∨
      deletions (reconcileRS rs allPods uuids).calls = []) ∧
    (∀ pod ∈ creations (reconcileRS rs allPods uuids).calls,
      pod.Labels = rs.Spec.Template.Labels ∧ pod.Spec = rs.Spec.Template.Spec ∧
      ∃ suffix : String, suffix.length = 5 ∧ pod.Name = rs.Name ++ "-" ++ suffix) := by
  rw [reconcileRS_calls rs allPods uuids desired owned hrep h0 h32 howned hlen]
  have hc := creations_creates (fun i => createPod rs (uuids i))
    (List.range (desired - (owned.length : Int)).toNat)
  have hd := deletions_deletes (owned.take ((owned.length : Int) - desired).toNat)
  have e1 : creations ((List.range (desired - (owned.length : Int)).toNat).map
        (fun i => Request.createPod (createPod rs (uuids i))) ++
      (owned.take ((owned.length : Int) - desired).toNat).map
        (fun p => Request.deletePod p.Name)) =
      (List.range (desired - (owned.length : Int)).toNat).map (fun i => createPod rs (uuids i)) := by
    rw [creations_append, hc.1, hd.1, List.append_nil]
  have e2 : deletions ((List.range (desired - (owned.length : Int)).toNat).map
        (fun i => Request.createPod (createPod rs (uuids i))) ++
      (owned.take ((owned.length : Int) - desired).toNat).map
        (fun p => Request.deletePod p.Name)) =
      (owned.take ((owned.length : Int) - desired).toNat).map (fun p => p.Name) := by
    rw [deletions_append, hc.2, hd.2, List.nil_append]
  simp only [e1, e2]
  refine ⟨trivial, trivial, ?_, trivial, ?_, ?_, ?_⟩
  · rw [List.length_map, List.length_range]; omega
  · rw [List.length_map, List.length_take]; omega
  · by_cases h : (owned.length : Int) < desired
    · right
      have hz : ((owned.length : Int) - desired).toNat = 0 := by omega
      rw [hz]; rfl
    · left
      have hz : (desired - (owned.length : Int)).toNat = 0 := by omega
      rw [hz]; rfl
  · intro pod hpod
    obtain ⟨i, _, rfl⟩ := List.mem_map.mp hpod
    exact createPod_shape rs (uuids i) (huuid i)

/-- C19 for `webRS`, which asks for two replicas, and one matching pod: one creation. -/
theorem reconcileRS_scaling_step_witness :
    creations (reconcileRS webRS [createPod webRS "aaaaa"] (fun _ => "0f8a2c31-9d4e-4b6a-8f3e-2a1b0c9d8e7f")).calls =
      [createPod webRS "0f8a2c31-9d4e-4b6a-8f3e-2a1b0c9d8e7f"] ∧
    deletions (reconcileRS webRS [createPod webRS "aaaaa"] (fun _ => "0f8a2c31-9d4e-4b6a-8f3e-2a1b0c9d8e7f")).calls =
      [] :=
  have h := reconcileRS_scaling_step webRS [createPod webRS "aaaaa"] (fun _ => "0f8a2c31-9d4e-4b6a-8f3e-2a1b0c9d8e7f") 2
    [createPod webRS "aaaaa"] rfl (by decide) (by decide) (by decide) (by decide)
    (fun _ => show 5 ≤ "0f8a2c31-9d4e-4b6a-8f3e-2a1b0c9d8e7f".length by decide)
  ⟨h.2.1, h.2.2.2.1⟩

end replicaset

/-! ## Deployment reconciler: revisions and scaling -/

namespace deployment

open api examples storage apiserver

theorem EncodeToString_length (bs : List UInt8) : (EncodeToString bs).length = 2 * bs.length := by
  unfold EncodeToString
  show (bs.flatMap _).length = _
  induction bs with
  | nil => rfl
  | cons b t ih => simp only [List.flatMap_cons, List.length_append, List.length_cons,
      List.length_nil, ih]; omega

theorem requests_creations_append (a b : List Request) :
    creations (a ++ b) = creations a ++ creations b := by
  induction a with
  | nil => rfl
  | cons x t ih =>
    cases x
    · show _ :: creations (t ++ b) = _ :: _ ++ _
      rw [ih]; rfl
    · exact ih

theorem requests_updates_append (a b : List Request) :
    updates (a ++ b) = updates a ++ updates b := by
  induction a with
  | nil => rfl
  | cons x t ih =>
    cases x
    · exact ih
    · show _ :: updates (t ++ b) = _ :: _ ++ _
      rw [ih]; rfl

theorem scaleDownOld_eq (l : List ReplicaSet) :
    l.filterMap scaleDownOld =
      (l.filter positive).map (fun old => .updateReplicaSet (scaledDown old)) := by
  induction l with
  | nil => rfl
  | cons a t ih =>
    rw [List.filterMap_cons, List.filter_cons]
    cases h : a.Spec.Replicas with
    | none => simp only [scaleDownOld, positive, h, ih]; rfl
    | some n =>
      by_cases hn : n > 0
      · simp only [scaleDownOld, positive, h, hn, if_true, decide_True, ih, List.map_cons,
          scaledDown]
      · simp only [scaleDownOld, positive, h, hn, if_false, decide_False, ih]; rfl

theorem updates_map (l : List ReplicaSet) :
    updates (l.map (fun old => Request.updateReplicaSet (scaledDown old))) = l.map scaledDown ∧
    creations (l.map (fun old => Request.updateReplicaSet (scaledDown old))) = [] := by
  induction l with
  | nil => exact ⟨rfl, rfl⟩
  | cons a t ih => exact ⟨by rw [List.map_cons, List.map_cons, updates, ih.1], by
      rw [List.map_cons, creations, ih.2]⟩

/-- The requests of `scale`. -/
theorem scale_eq (d : Deployment) (newRS : ReplicaSet) (owned : List ReplicaSet) :
    creations (scale d newRS owned) = [] ∧
    updates (scale d newRS owned) =
      (if newRS.Spec.Replicas = some (desiredReplicas d) then []
       else [{ newRS with Spec := { newRS.Spec with Replicas := some (desiredReplicas d) } }]) ++
      ((owned.filter (fun rs => rs.Name != newRS.Name)).filter positive).map scaledDown := by
  unfold scale
  rw [scaleDownOld_eq, requests_creations_append, requests_updates_append, (updates_map _).1, (updates_map _).2]
  by_cases h : newRS.Spec.Replicas = some (desiredReplicas d)
  · have h2 : ¬ (newRS.Spec.Replicas = none ∨ newRS.Spec.Replicas ≠ some (desiredReplicas d)) := by
      rw [h]; simp
    rw [if_neg h2, if_pos h]
    exact ⟨rfl, rfl⟩
  · rw [if_pos (Or.inr h), if_neg h]
    exact ⟨rfl, rfl⟩

theorem computeHash_length (timeText : Time → String) (render : JSON → List UInt8)
    (sha256 : List UInt8 → List UInt8) (hsha : ∀ bs, (sha256 bs).length = 32)
    (template : PodTemplateSpec) :
    (computeHash timeText render sha256 template).length = 64 := by
  unfold computeHash
  rw [EncodeToString_length, hsha]

theorem findNewRS_none (hash : String) (owned : List ReplicaSet) :
    findNewRS hash owned = none ↔
      ∀ rs ∈ owned, (rs.Annotations.get? revisionAnnotation).getD "" ≠ hash := by
  unfold findNewRS
  rw [List.find?_eq_none]
  constructor
  · intro h rs hrs; simpa using h rs hrs
  · intro h rs hrs; simpa using h rs hrs

/-- C21, where the claim fails: the deployment `web` has no replica count and the labels
`tier=backend`, and no ReplicaSet exists.  `syncDeployment` creates the ReplicaSet
`web-ababababab` with `spec.replicas = 0`, not the deployment's absent count, and with the
labels `app=web` of the pod template, not the labels of the deployment. -/
theorem created_replicaSet_differs_from_deployment :
    computeHash timeText render digest32 webDeployment.Spec.Template = hashAB ∧
    syncDeployment timeText render digest32 webDeployment (.ok []) none =
      ([.createReplicaSet (createNewReplicaSet webDeployment hashAB),
        .updateReplicaSet
          { createNewReplicaSet webDeployment hashAB with
            Spec := { (createNewReplicaSet webDeployment hashAB).Spec with Replicas := some 1 } }],
       none) ∧
    webDeployment.Spec.Replicas = none ∧
    (createNewReplicaSet webDeployment hashAB).Spec.Replicas = some 0 ∧
    webDeployment.Labels.entries = [("tier", "backend")] ∧
    (createNewReplicaSet webDeployment hashAB).Labels.entries = [("app", "web")] := by
  refine ⟨by rfl, by rfl, by rfl, by rfl, by rfl, by rfl⟩

/-- C21, amended: with `h` the hash of the deployment's template (64 characters, given
that the digest has 32 bytes, so that its 10-character prefix exists), if no owned
ReplicaSet carries the revision annotation `h` then `syncDeployment` creates exactly one
ReplicaSet, named `deployment.name + "-" + h[0:10]`, carrying that annotation with value
`h`, with the deployment's selector and template, with the labels of the template, and
with `spec.replicas` the deployment's count, or 0 when that is absent; if an owned
ReplicaSet carries the annotation, it creates none. -/
theorem syncDeployment_creates_revision (timeText : Time → String)
    (render : JSON → List UInt8) (sha256 : List UInt8 → List UInt8) (d : Deployment)
    (allRS : List ReplicaSet) (created : Option String) (h : String)
    (hsha : ∀ bs, (sha256 bs).length = 32)
    (hh : h = computeHash timeText render sha256 d.Spec.Template) :
    h.length = 64 ∧
    ((∀ rs ∈ ownedRS d allRS, rs.Annotations.get? revisionAnnotation ≠ some h) →
      ∃ rs, creations (syncDeployment timeText render sha256 d (.ok allRS) created).1 = [rs] ∧
        rs.Name = d.Name ++ "-" ++ String.mk (h.data.take 10) ∧
        (h.data.take 10).length = 10 ∧
        rs.Annotations.get? revisionAnnotation = some h ∧
        rs.Spec.Selector = d.Spec.Selector ∧ rs.Spec.Template = d.Spec.Template ∧
        rs.Labels = d.Spec.Template.Labels ∧
        rs.Spec.Replicas = some (d.Spec.Replicas.getD 0)) ∧
    ((∃ rs ∈ ownedRS d allRS, rs.Annotations.get? revisionAnnotation = some h) →
      creations (syncDeployment timeText render sha256 d (.ok allRS) created).1 = []) := by
  have hlen : h.length = 64 := by rw [hh]; exact computeHash_length _ _ _ hsha _
  have hne : h ≠ "" := by
    intro h0; rw [h0] at hlen; exact absurd hlen (by decide)
  have hcarry : ∀ rs : ReplicaSet, (rs.Annotations.get? revisionAnnotation).getD "" = h ↔
      rs.Annotations.get? revisionAnnotation = some h := by
    intro rs
    cases hg : rs.Annotations.get? revisionAnnotation with
    | none => simp only [Option.getD_none]; exact ⟨fun e => absurd e.symm hne, fun e => by cases e⟩
    | some v => simp only [Option.getD_some, Option.some.injEq]
  refine ⟨hlen, ?_, ?_⟩
  · intro hno
    have hnone : findNewRS h (ownedRS d allRS) = none :=
      (findNewRS_none _ _).mpr (fun rs hrs e => hno rs hrs ((hcarry rs).mp e))
    refine ⟨createNewReplicaSet d h, ?_, rfl, ?_, ?_, rfl, rfl, rfl, ?_⟩
    · simp only [syncDeployment, ← hh, hnone]
      cases created with
      | some e => rfl
      | none =>
        show _ :: creations (scale d _ _) = _
        rw [(scale_eq d _ _).1]
    · rw [List.length_take]
      have : h.data.length = 64 := hlen
      omega
    · exact GoMap.get?_set_self _ _ _
    · unfold createNewReplicaSet
      cases d.Spec.Replicas <;> rfl
  · rintro ⟨rs, hrs, hrev⟩
    cases hfind : findNewRS h (ownedRS d allRS) with
    | none =>
      exact absurd ((hcarry rs).mpr hrev) ((findNewRS_none _ _).mp hfind rs hrs)
    | some newRS =>
      simp only [syncDeployment, ← hh, hfind]
      exact (scale_eq d _ _).1

/-- C21, amended, for `webDeployment` and an empty registry: the digest has 32 bytes, the
hash is `hashAB`, no ReplicaSet is owned, and exactly one ReplicaSet is created, with the
name, annotation, selector, template, labels and count stated. -/
theorem syncDeployment_creates_revision_witness :
    (∀ bs, (digest32 bs).length = 32) ∧
    hashAB = computeHash timeText render digest32 webDeployment.Spec.Template ∧
    ∃ rs, creations (syncDeployment timeText render digest32 webDeployment (.ok []) none).1 =
        [rs] ∧
      rs.Name = webDeployment.Name ++ "-" ++ String.mk (hashAB.data.take 10) ∧
      (hashAB.data.take 10).length = 10 ∧
      rs.Annotations.get? revisionAnnotation = some hashAB ∧
      rs.Spec.Selector = webDeployment.Spec.Selector ∧
      rs.Spec.Template = webDeployment.Spec.Template ∧
      rs.Labels = webDeployment.Spec.Template.Labels ∧
      rs.Spec.Replicas = some (webDeployment.Spec.Replicas.getD 0) :=
  ⟨fun _ => rfl, by rfl,
    (syncDeployment_creates_revision timeText render digest32 webDeployment [] none hashAB
      (fun _ => rfl) (by rfl)).2.1 (by intro rs hrs; cases hrs)⟩

/-- C22, where the claim fails: the deployment `web` has no replica count; it owns
`currentRS`, which carries the hash of its template and has three replicas, and `unsetRS`,
which has no replica count.  The one request of `syncDeployment` sets `currentRS` to one
replica; in the registry afterwards `currentRS` has `spec.replicas = 1`, not the absent
count of the deployment, and `unsetRS` still has no count, not 0. -/
theorem sync_defaults_to_one_and_skips_unset :
    webDeployment.Spec.Replicas = none ∧ unsetRS.Spec.Replicas = none ∧
    ownedRS webDeployment [currentRS, unsetRS] = [currentRS, unsetRS] ∧
    currentRS.Annotations.get? revisionAnnotation =
      some (computeHash timeText render digest32 webDeployment.Spec.Template) ∧
    syncDeployment timeText render digest32 webDeployment (.ok [currentRS, unsetRS]) none =
      ([.updateReplicaSet { currentRS with Spec := { currentRS.Spec with Replicas := some 1 } }],
       none) ∧
    (issueAll rsRegistry
        [.updateReplicaSet
          { currentRS with Spec := { currentRS.Spec with Replicas := some 1 } }]).map
        (fun s => s.data.entries.map (fun e => (e.2.Name, e.2.Spec.Replicas))) =
      some [("web-0123456789", none), ("web-ababababab", some 1)] := by
  refine ⟨by rfl, by rfl, by rfl, by rfl, by rfl, by rfl⟩

/-- C22, amended: for every deployment and every list of ReplicaSets, with the ReplicaSet
creation succeeding, `syncDeployment` returns no error and its updates are: the new
ReplicaSet (the first owned one carrying the template hash, or else the one just created)
with `spec.replicas` set to the deployment's count, or 1 when that is absent, unless it has
that count already; then every owned ReplicaSet of another name whose count is positive,
with `spec.replicas` set to 0.  Owned ReplicaSets whose count is absent, zero or negative
get no update. -/
theorem syncDeployment_scaling_step (timeText : Time → String) (render : JSON → List UInt8)
    (sha256 : List UInt8 → List UInt8) (d : Deployment) (allRS : List ReplicaSet)
    (newRS : ReplicaSet)
    (hnew : newRS = (findNewRS (computeHash timeText render sha256 d.Spec.Template)
      (ownedRS d allRS)).getD
        (createNewReplicaSet d (computeHash timeText render sha256 d.Spec.Template))) :
    (syncDeployment timeText render sha256 d (.ok allRS) none).2 = none ∧
    updates (syncDeployment timeText render sha256 d (.ok allRS) none).1 =
      (if newRS.Spec.Replicas = some (d.Spec.Replicas.getD 1) then []
       else [{ newRS with Spec := { newRS.Spec with Replicas := some (d.Spec.Replicas.getD 1) } }]) ++
      (((ownedRS d allRS).filter (fun rs => rs.Name != newRS.Name)).filter positive).map
        scaledDown ∧
    (newRS.Spec.Replicas = some (d.Spec.Replicas.getD 1) ∨
      { newRS with Spec := { newRS.Spec with Replicas := some (d.Spec.Replicas.getD 1) } } ∈
        updates (syncDeployment timeText render sha256 d (.ok allRS) none).1) ∧
    (∀ old ∈ ownedRS d allRS, old.Name ≠ newRS.Name → ∀ n, old.Spec.Replicas = some n → 0 < n →
      { old with Spec := { old.Spec with Replicas := some 0 } } ∈
        updates (syncDeployment timeText render sha256 d (.ok allRS) none).1) ∧
    (∀ rs ∈ updates (syncDeployment timeText render sha256 d (.ok allRS) none).1,
      rs = { newRS with Spec := { newRS.Spec with Replicas := some (d.Spec.Replicas.getD 1) } } ∨
      ∃ old ∈ ownedRS d allRS, old.Name ≠ newRS.Name ∧
        (∃ n, old.Spec.Replicas = some n ∧ 0 < n) ∧
        rs = { old with Spec := { old.Spec with Replicas := some 0 } }) := by
  have hdes : desiredReplicas d = d.Spec.Replicas.getD 1 := by
    unfold desiredReplicas; cases d.Spec.Replicas <;> rfl
  have hpos : ∀ rs : ReplicaSet, positive rs = true ↔ ∃ n, rs.Spec.Replicas = some n ∧ 0 < n := by
    intro rs
    unfold positive
    cases rs.Spec.Replicas with
    | none => simp
    | some n => simp
  have hcalls : (syncDeployment timeText render sha256 d (.ok allRS) none).2 = none ∧
      updates (syncDeployment timeText render sha256 d (.ok allRS) none).1 =
        updates (scale d newRS (ownedRS d allRS)) := by
    cases hfind : findNewRS (computeHash timeText render sha256 d.Spec.Template)
        (ownedRS d allRS) with
    | some found =>
      rw [hfind, Option.getD_some] at hnew
      subst hnew
      simp only [syncDeployment, hfind, and_self]
    | none =>
      rw [hfind, Option.getD_none] at hnew
      subst hnew
      simp only [syncDeployment, hfind, true_and]
      show updates (scale d _ _) = _
      rw [(scale_eq _ _ _).2, (scale_eq _ _ _).2, List.filter_append]
      have : [createNewReplicaSet d (computeHash timeText render sha256 d.Spec.Template)].filter
          (fun rs => rs.Name !=
            (createNewReplicaSet d (computeHash timeText render sha256 d.Spec.Template)).Name)
          = [] := by
        simp [List.filter_cons]
      rw [this, List.append_nil]
  have hupd := (scale_eq d newRS (ownedRS d allRS)).2
  rw [hdes] at hupd
  rw [← hcalls.2] at hupd
  refine ⟨hcalls.1, hupd, ?_, ?_, ?_⟩
  · by_cases h : newRS.Spec.Replicas = some (d.Spec.Replicas.getD 1)
    · exact Or.inl h
    · right
      rw [hupd, if_neg h]
      exact List.mem_append_left _ (List.mem_singleton.mpr rfl)
  · intro old hold hname n hn hpos0
    rw [hupd]
    apply List.mem_append_right
    refine List.mem_map.mpr ⟨old, ?_, rfl⟩
    rw [List.mem_filter, List.mem_filter]
    exact ⟨⟨hold, by simpa using hname⟩, (hpos old).mpr ⟨n, hn, hpos0⟩⟩
  · intro rs hrs
    rw [hupd] at hrs
    rcases List.mem_append.mp hrs with h | h
    · left
      by_cases hc : newRS.Spec.Replicas = some (d.Spec.Replicas.getD 1)
      · rw [if_pos hc] at h; cases h
      · rw [if_neg hc] at h; exact List.mem_singleton.mp h
    · right
      obtain ⟨old, hold, rfl⟩ := List.mem_map.mp h
      rw [List.mem_filter, List.mem_filter] at hold
      exact ⟨old, hold.1.1, by simpa using hold.1.2, (hpos old).mp hold.2, rfl⟩

/-- C22 (amended) for `webDeployment` with its current ReplicaSet at three replicas and an
earlier one at two. -/
theorem syncDeployment_scaling_step_witness :
    updates (syncDeployment timeText render digest32 webDeployment
        (.ok [currentRS, earlierRS]) none).1 =
      [{ currentRS with Spec := { currentRS.Spec with Replicas := some 1 } },
       { earlierRS with Spec := { earlierRS.Spec with Replicas := some 0 } }] :=
  (syncDeployment_scaling_step timeText render digest32 webDeployment [currentRS, earlierRS]
    currentRS (by rfl)).2.1

end deployment

/-! ## Endpoints of a service: addresses and ports -/

namespace service

open api examples

theorem ipTotal : IsTotal EndpointAddress (fun a b => strLE a.IP b.IP) :=
  ⟨fun a b => le_total a.IP.data b.IP.data⟩

theorem ipTrans : IsTrans EndpointAddress (fun a b => strLE a.IP b.IP) :=
  ⟨fun a b c (h₁ : a.IP.data ≤ b.IP.data) (h₂ : b.IP.data ≤ c.IP.data) => le_trans h₁ h₂⟩

/-- The addresses of the subset are the sorted addresses of the matching pods. -/
theorem desiredSubset_addresses (svc : Service) (pods : List Pod) :
    (desiredSubset svc pods).Addresses.toList =
      sortAddresses ((matchingPods svc pods).map addressOf) := by
  unfold desiredSubset
  show Slice.toList (match (matchingPods svc pods).map addressOf with
    | [] => none
    | l => some (sortAddresses l)) = _
  cases (matchingPods svc pods).map addressOf with
  | nil => rfl
  | cons a t => rfl

/-- The ports of the subset are the ports built from the service ports. -/
theorem desiredSubset_ports (svc : Service) (pods : List Pod) :
    (desiredSubset svc pods).Ports.toList = svc.Spec.Ports.map endpointPort := by
  unfold desiredSubset
  show Slice.toList (match svc.Spec.Ports.map endpointPort with
    | [] => none
    | l => some l) = _
  cases svc.Spec.Ports.map endpointPort with
  | nil => rfl
  | cons a t => rfl

theorem endpointPort_eq (sp : ServicePort) :
    endpointPort sp =
      { Name := sp.Name,
        Protocol := if sp.Protocol = "" then "TCP" else sp.Protocol,
        Port := if sp.TargetPort.Typ ≠ 1 ∧ sp.TargetPort.IntVal = 0 then sp.Port
                else sp.TargetPort.IntVal } := by
  unfold endpointPort
  by_cases hp : sp.Protocol = "" <;> by_cases ht : sp.TargetPort.Typ = 1 <;>
    by_cases hi : sp.TargetPort.IntVal = 0 <;> simp [hp, ht, hi]

/-- The addresses `reconcileService` builds, with the code's own `isMatch` as the test of
the labels: for every service with a non-empty selector and every pod list (when no
Endpoints object exists yet it creates `desiredEp`, whose subsets hold the subset built
here when it has an address) they are, up to order, one entry with the pod's `podIP` and
`nodeName` for each pod of the list that is in the service's namespace, for whose labels
`isMatch` holds, whose phase is `Running` and whose `podIP` is not empty, and nothing
else; and the address list is in non-decreasing order of IP. -/
theorem reconcileService_addresses (svc : Service) (pods : List Pod)
    (hsel : svc.Spec.Selector.len ≠ 0) :
    reconcileService svc (.ok pods) (.ok none) = .ok (.create (desiredEp svc pods)) ∧
    (desiredEp svc pods).Subsets =
      (if 0 < (desiredSubset svc pods).Addresses.len then some [desiredSubset svc pods]
       else some []) ∧
    ((desiredSubset svc pods).Addresses.toList).Perm
      ((pods.filter (fun pod => decide (pod.Namespace = svc.Namespace ∧
          isMatch pod.Labels svc.Spec.Selector = true ∧ pod.Status.Phase = "Running" ∧
          pod.Status.PodIP ≠ ""))).map
        (fun pod => { IP := pod.Status.PodIP, NodeName := pod.Spec.NodeName })) ∧
    List.Sorted (fun a b => strLE a.IP b.IP) (desiredSubset svc pods).Addresses.toList := by
  refine ⟨?_, rfl, ?_, ?_⟩
  · simp only [reconcileService, hsel, if_false]
  · rw [desiredSubset_addresses]
    have hf : matchingPods svc pods = pods.filter (fun pod => decide (pod.Namespace = svc.Namespace ∧
          isMatch pod.Labels svc.Spec.Selector = true ∧ pod.Status.Phase = "Running" ∧
          pod.Status.PodIP ≠ "")) := by
      unfold matchingPods
      congr 1
      funext pod
      rw [Bool.eq_iff_iff]
      simp [and_assoc]
    rw [← hf]
    exact List.perm_insertionSort _ _
  · rw [desiredSubset_addresses]
    haveI := ipTotal
    haveI := ipTrans
    exact List.sorted_insertionSort (fun a b : EndpointAddress => strLE a.IP b.IP) _

/-- C23 (the code at the failing input).  The selector of the service `web` asks for the
label `tier` with the empty value, and the pod `db`, running at 10.0.0.9 on node `n1`, has
no label `tier`: its labels do not satisfy the selector, and `labelsMatch` of the
ReplicaSet reconciler says so.  `isMatch` reads the missing label as the empty text and
accepts the pod: `reconcileService` builds the address 10.0.0.9 for it and creates the
Endpoints object with that address. -/
theorem reconcileService_publishes_pod_without_label :
    emptyValueService.Spec.Selector.entries = [("tier", "")] ∧
    tierlessPod.Labels.entries = [("app", "web")] ∧
    tierlessPod.Labels.contains "tier" = false ∧
    replicaset.labelsMatch emptyValueService.Spec.Selector tierlessPod.Labels = false ∧
    isMatch tierlessPod.Labels emptyValueService.Spec.Selector = true ∧
    (desiredSubset emptyValueService [tierlessPod]).Addresses =
      some [{ IP := "10.0.0.9", NodeName := "n1" }] ∧
    reconcileService emptyValueService (.ok [tierlessPod]) (.ok none) =
      .ok (.create
        { Name := "web",
          Subsets := some [{ Addresses := some [{ IP := "10.0.0.9", NodeName := "n1" }],
                             Ports := some [{ Port := 80, Protocol := "TCP" }] }] }) := by
  refine ⟨by rfl, by rfl, by rfl, by rfl, by rfl, by rfl, by rfl⟩

/-- C24, where the claim fails: the service port 80 has the target port `http`, a name (the
value `UnmarshalJSON` decodes from that text), and the service port 443 has the integer
target port 0.  The endpoint port built for the first is 0, not 80, and the one built for
the second is 443, not 0. -/
theorem named_and_zero_target_ports :
    api.IntOrString.UnmarshalJSON {} "\"http\"".data = .ok namedTargetPort ∧
    (desiredSubset namedPortService []).Ports =
      some [{ Name := "http", Port := 0, Protocol := "TCP" },
            { Name := "https", Port := 443, Protocol := "TCP" }] := by
  exact ⟨by rfl, by rfl⟩

/-- C24, amended: for every service, the ports built by `reconcileService` have one entry
per service port, in the service's port order, with the name of the service port; each
entry's protocol is the service port's protocol, or `TCP` when that is empty; each
entry's port is the `intVal` field of `targetPort`, except that an integer `targetPort`
of value 0 gives the service port's own port number.  A `targetPort` that is a name is
not looked up: the entry's port is its `intVal` field, which is 0 for a name decoded from
JSON. -/
theorem reconcileService_ports (svc : Service) (pods : List Pod) :
    (desiredSubset svc pods).Ports.toList =
      svc.Spec.Ports.map (fun sp =>
        { Name := sp.Name,
          Protocol := if sp.Protocol = "" then "TCP" else sp.Protocol,
          Port := if sp.TargetPort.Typ ≠ 1 ∧ sp.TargetPort.IntVal = 0 then sp.Port
                  else sp.TargetPort.IntVal }) := by
  rw [desiredSubset_ports]
  exact List.map_congr_left (fun sp _ => endpointPort_eq sp)

end service

/-! ## Lease decision, negative replica counts and the three selectors -/

namespace leaderelection

open api storage apiserver examples

/-- A lease duration of a whole number of seconds that fits `int32` is written as that
number. -/
theorem leaseDurationSeconds_whole (cfg : Config) (n : Int)
    (h : cfg.LeaseDuration = n * 1000000000) (h1 : -2147483648 ≤ n) (h2 : n ≤ 2147483647) :
    leaseDurationSeconds cfg = n := by
  have hdiv : Int.tdiv (n * 1000000000) 1000000000 = n := Int.mul_tdiv_cancel n (by decide)
  have hmod : Int.tmod (n * 1000000000) 1000000000 = 0 := Int.mul_tmod_left n 1000000000
  have hfrac : ∀ b : Bool, strconv.nearest64 b 0 1000000000 = some ⟨b, 0, 0⟩ := fun b => by
    simp [strconv.nearest64]
  obtain ⟨f, hf, hfneg, hfe, hfm, hf0⟩ :=
    strconv.nearest64_nat (decide (n * 1000000000 < 0)) n.natAbs (by omega)
  have hsec : time.Duration.Seconds (n * 1000000000) = some f := by
    unfold time.Duration.Seconds
    rw [hmod, hdiv]
    simp only [Int.natAbs_zero, hfrac]
    unfold strconv.Float64.add
    simp only [le_refl, if_true, Int.toNat_zero, pow_zero, mul_one, Nat.zero_mul, Nat.add_zero,
      Nat.mul_zero]
    exact hf
  unfold leaseDurationSeconds
  rw [h, hsec]
  have hval : f.toInt32 = some n := by
    unfold strconv.Float64.toInt32
    have ht : (if 0 ≤ f.e then f.m * 2 ^ f.e.toNat else f.m / 2 ^ (-f.e).toNat) = n.natAbs := by
      by_cases he : 0 ≤ f.e
      · have he0 : f.e = 0 := by omega
        rw [if_pos he, he0, hf0 he0]
        simp
      · rw [if_neg he]; exact hfm
    simp only [ht, hfneg]
    by_cases hn : n < 0
    · have hn1 : n * 1000000000 < 0 := by omega
      simp only [hn1, decide_True, if_true]
      have : -(n.natAbs : Int) = n := by omega
      rw [this, if_pos ⟨h1, h2⟩]
    · have hn1 : ¬ n * 1000000000 < 0 := by omega
      simp only [hn1, decide_False, Bool.false_eq_true, if_false]
      have : (n.natAbs : Int) = n := by omega
      rw [this, if_pos ⟨h1, h2⟩]
  show (f.toInt32).getD (-2147483648) = n
  rw [hval]
  rfl


/-- C25, where the claim fails: the elector `a` configured with a lease of three thousand
million seconds finds no lease and creates one whose `leaseDurationSeconds` is
-2147483648, in the request and in the registry afterwards; the field is an `int32` and
cannot hold the configured number.  Configured with one second and a half, it creates a
lease of 1 second. -/
theorem created_lease_duration_is_an_int32 :
    longElector.LeaseDuration = 3000000000 * 1000000000 ∧
    tryAcquireOrRenew.request longElector (20 * second) none =
      .create { Name := "lock",
                Spec := { HolderIdentity := some "a", AcquireTime := some (20 * second),
                          RenewTime := some (20 * second),
                          LeaseDurationSeconds := some (-2147483648) } } ∧
    tryAcquireOrRenew leaseCodec longElector (20 * second) (NewMemoryStore "") none =
      .returned none
        (leaseRegistry
          { Name := "lock",
            Spec := { HolderIdentity := some "a", AcquireTime := some (20 * second),
                      RenewTime := some (20 * second),
                      LeaseDurationSeconds := some (-2147483648) } }) ∧
    halfElector.LeaseDuration = 1500000000 ∧
    tryAcquireOrRenew.request halfElector (20 * second) none =
      .create { Name := "lock",
                Spec := { HolderIdentity := some "a", AcquireTime := some (20 * second),
                          RenewTime := some (20 * second),
                          LeaseDurationSeconds := some 1 } } := by
  refine ⟨by rfl, by rfl, by rfl, by rfl, by rfl⟩

/-- C25, amended: `tryAcquireOrRenew` is the write chosen by `tryAcquireOrRenew.request`
from the lease it reads, and the outcome of a write is the outcome of the registry call
`CreateLease` or `UpdateLease` made with the chosen lease.  Absent: it creates a lease
named after the lock with the elector as holder, `now` as acquire and renew time and
`int32(LeaseDuration.Seconds())` as `leaseDurationSeconds`, which is `n` for a
`LeaseDuration` of `n` whole seconds with `n` in `int32`.  Held by the elector: it issues an
update of the lease read with `renewTime` set to `now` and nothing else changed.  Held by
another identity with `now` before `renewTime` plus `leaseDurationSeconds`: it returns the
error `lease currently held by` that holder, makes no registry call and leaves the
registry as it is.  That error is returned in no other case. -/
theorem tryAcquireOrRenew_decision (cfg : Config) (now : Time) :
    (∀ {β : Type} (c : Codec Lease β) (s : MemoryStore Lease β) (write : Option StoreError)
        (read : Option Lease), client.GetLease c s cfg.LockName = .ok read →
      tryAcquireOrRenew c cfg now s write =
        tryAcquireOrRenew.perform c s write (tryAcquireOrRenew.request cfg now read)) ∧
    (∀ {β : Type} (c : Codec Lease β) (s s1 : MemoryStore Lease β)
        (write : Option StoreError) (lease : Lease) (err : Option String),
      (client.CreateLease c s lease write = .returned err s1 →
        tryAcquireOrRenew.perform c s write (.create lease) = .returned err s1) ∧
      (client.UpdateLease c s lease write = .returned err s1 →
        tryAcquireOrRenew.perform c s write (.update lease) = .returned err s1)) ∧
    tryAcquireOrRenew.request cfg now none =
      .create { Name := cfg.LockName,
                Spec := { HolderIdentity := some cfg.Identity, AcquireTime := some now,
                          RenewTime := some now,
                          LeaseDurationSeconds := some (leaseDurationSeconds cfg) } } ∧
    (∀ n : Int, cfg.LeaseDuration = n * 1000000000 → -2147483648 ≤ n → n ≤ 2147483647 →
      leaseDurationSeconds cfg = n) ∧
    (∀ lease : Lease, lease.Spec.HolderIdentity = some cfg.Identity →
      tryAcquireOrRenew.request cfg now (some lease) =
        .update { lease with Spec := { lease.Spec with RenewTime := some now } }) ∧
    (∀ (lease : Lease) (holder : String) (renewTime seconds : Int),
      lease.Spec.HolderIdentity = some holder → holder ≠ cfg.Identity →
      lease.Spec.RenewTime = some renewTime → lease.Spec.LeaseDurationSeconds = some seconds →
      now < renewTime + seconds * 1000000000 →
      tryAcquireOrRenew.request cfg now (some lease) =
        .fail ("lease currently held by " ++ holder)) ∧
    (∀ {β : Type} (c : Codec Lease β) (s : MemoryStore Lease β) (write : Option StoreError)
        (msg : String),
      tryAcquireOrRenew.perform c s write (.fail msg) = .returned (some msg) s) ∧
    (∀ (read : Option Lease) (msg : String),
      tryAcquireOrRenew.request cfg now read = .fail msg →
      ∃ (lease : Lease) (holder : String) (renewTime seconds : Int),
        read = some lease ∧ lease.Spec.HolderIdentity = some holder ∧ holder ≠ cfg.Identity ∧
        lease.Spec.RenewTime = some renewTime ∧ lease.Spec.LeaseDurationSeconds = some seconds ∧
        now < renewTime + seconds * 1000000000 ∧ msg = "lease currently held by " ++ holder) := by
  refine ⟨?_, ?_, rfl, ?_, ?_, ?_, ?_, ?_⟩
  · intro β c s write read h
    unfold tryAcquireOrRenew
    rw [h]
  · intro β c s s1 write lease err
    constructor
    · intro h
      simp only [tryAcquireOrRenew.perform, h]
    · intro h
      simp only [tryAcquireOrRenew.perform, h]
  · intro n h h1 h2
    exact leaseDurationSeconds_whole cfg n h h1 h2
  · intro lease h
    simp only [tryAcquireOrRenew.request, h, if_true]
  · intro lease holder renewTime seconds hh hne hr hs hlt
    simp only [tryAcquireOrRenew.request, hh, hne, if_false, hr, hs]
    rw [if_pos hlt]
  · intro β c s write msg
    rfl
  · intro read msg h
    cases read with
    | none => simp only [tryAcquireOrRenew.request] at h; cases h
    | some lease =>
      cases hh : lease.Spec.HolderIdentity with
      | none => simp only [tryAcquireOrRenew.request, hh] at h; cases h
      | some holder =>
        by_cases hself : holder = cfg.Identity
        · simp only [tryAcquireOrRenew.request, hh, hself, if_true] at h; cases h
        · cases hr : lease.Spec.RenewTime with
          | none => simp only [tryAcquireOrRenew.request, hh, hself, if_false, hr] at h; cases h
          | some renewTime =>
            cases hs : lease.Spec.LeaseDurationSeconds with
            | none =>
              simp only [tryAcquireOrRenew.request, hh, hself, if_false, hr, hs] at h; cases h
            | some seconds =>
              simp only [tryAcquireOrRenew.request, hh, hself, if_false, hr, hs] at h
              by_cases hlt : now < renewTime + seconds * 1000000000
              · rw [if_pos hlt] at h
                injection h with h
                exact ⟨lease, holder, renewTime, seconds, rfl, hh, hself, hr, hs, hlt, h.symm⟩
              · rw [if_neg hlt] at h; cases h

/-- C25, amended, for the elector `a` (15 s) at 20 s: on the empty registry it creates the
lease `lock` held by `a` for 15 seconds, and the registry then holds it; the lease held by
`c` and renewed at 10 s is reported as held, the registry staying as it is; and the lease
held by `a` gets the renew time 20 s, in the request and in the registry. -/
theorem tryAcquireOrRenew_decision_witness :
    electorA.LeaseDuration = 15 * 1000000000 ∧ leaseDurationSeconds electorA = 15 ∧
    tryAcquireOrRenew leaseCodec electorA (20 * second) (NewMemoryStore "") none =
      .returned none (leaseRegistry (leaseHeld "a" (20 * second))) ∧
    tryAcquireOrRenew.request electorA (20 * second) (some (leaseHeld "c" (10 * second))) =
      .fail "lease currently held by c" ∧
    tryAcquireOrRenew leaseCodec electorA (20 * second)
        (leaseRegistry (leaseHeld "c" (10 * second))) none =
      .returned (some "lease currently held by c")
        (leaseRegistry (leaseHeld "c" (10 * second))) ∧
    tryAcquireOrRenew.request electorA (20 * second) (some (leaseHeld "a" (10 * second))) =
      .update { Name := "lock",
                Spec := { HolderIdentity := some "a", LeaseDurationSeconds := some 15,
                          AcquireTime := some (10 * second),
                          RenewTime := some (20 * second) } } ∧
    tryAcquireOrRenew leaseCodec electorA (20 * second)
        (leaseRegistry (leaseHeld "a" (10 * second))) none =
      .returned none
        (leaseRegistry2 (leaseHeld "a" (10 * second))
          { Name := "lock",
            Spec := { HolderIdentity := some "a", LeaseDurationSeconds := some 15,
                      AcquireTime := some (10 * second),
                      RenewTime := some (20 * second) } }) :=
  ⟨by decide,
   (tryAcquireOrRenew_decision electorA (20 * second)).2.2.2.1 15 (by decide) (by decide)
     (by decide),
   by rfl,
   (tryAcquireOrRenew_decision electorA (20 * second)).2.2.2.2.2.1
     (leaseHeld "c" (10 * second)) "c" (10 * second) 15 rfl (by decide) rfl rfl (by decide),
   by rfl,
   (tryAcquireOrRenew_decision electorA (20 * second)).2.2.2.2.1
     (leaseHeld "a" (10 * second)) rfl,
   by rfl⟩

/-- C30 (the code at the failing input).  The registry returns the lease `lock` held by
`c` with a renew time and without `leaseDurationSeconds`.  The elector `a` passes the nil
checks of the holder and of the renew time and then dereferences the absent
`leaseDurationSeconds`: `tryAcquireOrRenew` panics instead of reaching an outcome. -/
theorem tryAcquireOrRenew_dereferences_absent_duration :
    leaseWithoutDuration.Spec.HolderIdentity = some "c" ∧
    leaseWithoutDuration.Spec.RenewTime = some (10 * second) ∧
    leaseWithoutDuration.Spec.LeaseDurationSeconds = none ∧
    client.GetLease leaseCodec (leaseRegistry leaseWithoutDuration) electorA.LockName =
      .ok (some leaseWithoutDuration) ∧
    tryAcquireOrRenew.request electorA (20 * second) (some leaseWithoutDuration) =
      .nilDereference ∧
    tryAcquireOrRenew leaseCodec electorA (20 * second) (leaseRegistry leaseWithoutDuration)
      none = .panicked := by
  refine ⟨by rfl, by rfl, by rfl, by rfl, by rfl, by rfl⟩

end leaderelection

namespace replicaset

open api examples

/-- C29 (the code at the failing input).  For the ReplicaSet `web` with `spec.replicas`
of -1, the scale-down loop of `reconcileRS` runs one turn more than there are owned pods:
with no pod it reads `ownedPods[0]` of an empty list, with one owned pod it deletes that
pod and then reads `ownedPods[1]`; both times it stops on an index out of range. -/
theorem reconcileRS_negative_replicas_out_of_range :
    negativeRS.Spec.Replicas = some (-1) ∧
    reconcileRS negativeRS [] (fun _ => "") = { calls := [], panicked := true } ∧
    reconcileRS negativeRS [createPod webRS "aaaaa"] (fun _ => "") =
      { calls := [.deletePod "web-aaaaa"], panicked := true } := by
  refine ⟨by rfl, by rfl, by rfl⟩

end replicaset

namespace deployment

open api examples

/-- C28, where the claim fails: for the empty selector and every label map the deployment
and the service reconcilers answer true and the ReplicaSet reconciler answers false; and
for the selector `tier=""` and the labels `app=web`, which lack the key `tier`, the first
two answer true and the third false. -/
theorem empty_selector_splits_the_reconcilers :
    (∀ L : GoMap String,
      deployment.labelsMatch GoMap.empty L = true ∧ service.isMatch L GoMap.empty = true ∧
      replicaset.labelsMatch GoMap.empty L = false) ∧
    deployment.labelsMatch emptyValueSelector webLabels = true ∧
    service.isMatch webLabels emptyValueSelector = true ∧
    replicaset.labelsMatch emptyValueSelector webLabels = false := by
  refine ⟨fun L => ⟨rfl, rfl, rfl⟩, by rfl, by rfl, by rfl⟩

/-- C28, amended: for every selector `S` and label map `L`, `deployment.labelsMatch S L`
and `service.isMatch L S` are the same boolean; for the empty selector they are true and
`replicaset.labelsMatch S L` is false; for a non-empty selector all of whose keys with an
empty value are keys of `L`, the three return the same boolean. -/
theorem selectors_agree (S L : GoMap String) :
    deployment.labelsMatch S L = service.isMatch L S ∧
    (S.len = 0 →
      deployment.labelsMatch S L = true ∧ replicaset.labelsMatch S L = false) ∧
    (S.len ≠ 0 → (∀ e ∈ S.entries, e.2 = "" → L.contains e.1 = true) →
      deployment.labelsMatch S L = replicaset.labelsMatch S L ∧
      service.isMatch L S = replicaset.labelsMatch S L) := by
  refine ⟨rfl, ?_, ?_⟩
  · intro h0
    have he : S.entries = [] := List.length_eq_zero.mp h0
    unfold deployment.labelsMatch replicaset.labelsMatch
    rw [if_pos h0, he]
    exact ⟨rfl, rfl⟩
  intro hne hkeys
  have h : deployment.labelsMatch S L = replicaset.labelsMatch S L := by
    unfold deployment.labelsMatch replicaset.labelsMatch
    rw [if_neg hne, Bool.eq_iff_iff, List.all_eq_true, List.all_eq_true]
    refine forall_congr' (fun e => forall_congr' (fun he => ?_))
    cases hg : L.get? e.1 with
    | some val => exact Iff.rfl
    | none =>
      have hv : e.2 ≠ "" := by
        intro hv
        have hc := hkeys e he hv
        unfold GoMap.contains at hc
        rw [hg] at hc
        cases hc
      constructor
      · intro h
        exact absurd (beq_iff_eq.mp h).symm hv
      · intro h
        cases h
  exact ⟨h, h⟩

/-- C28, amended, for the selector and labels `app=web`. -/
theorem selectors_agree_witness :
    webLabels.len ≠ 0 ∧
    deployment.labelsMatch webLabels webLabels = replicaset.labelsMatch webLabels webLabels ∧
    service.isMatch webLabels webLabels = replicaset.labelsMatch webLabels webLabels :=
  ⟨by decide, (selectors_agree webLabels webLabels).2.2 (by decide) (by decide)⟩

end deployment

/-! ## Node agent: containers and status -/

namespace kubelet

open api examples

theorem statusUpdates_append (a b : List Call) :
    statusUpdates (a ++ b) = statusUpdates a ++ statusUpdates b := by
  induction a with
  | nil => rfl
  | cons x t ih =>
    cases x <;> first
      | exact ih
      | (show _ :: statusUpdates (t ++ b) = _ :: _ ++ _; rw [ih]; rfl)

theorem withIP_status (pod : Pod) (answer : Except String String) :
    (withIP pod answer).Status.Phase = pod.Status.Phase ∧
    ((withIP pod answer).Status.PodIP = pod.Status.PodIP ∨
      (withIP pod answer).Status.PodIP ≠ "") := by
  unfold withIP
  split
  · split
    · rename_i ip h; exact ⟨rfl, Or.inr h⟩
    · exact ⟨rfl, Or.inl rfl⟩
  · exact ⟨rfl, Or.inl rfl⟩

/-- One turn of the loop sends no status, keeps the phase, and changes the address only
to a non-empty one. -/
theorem reconcileContainer_status (w : World) (rcs : List ContainerInfo) (pod : Pod)
    (c : Container) :
    statusUpdates (reconcileContainer w rcs pod c).2 = [] ∧
    (reconcileContainer w rcs pod c).1.Status.Phase = pod.Status.Phase ∧
    ((reconcileContainer w rcs pod c).1.Status.PodIP = pod.Status.PodIP ∨
      (reconcileContainer w rcs pod c).1.Status.PodIP ≠ "") := by
  unfold reconcileContainer
  split
  · split
    · exact ⟨rfl, rfl, Or.inl rfl⟩
    · split
      · exact ⟨rfl, withIP_status _ _⟩
      · dsimp only
        split
        · exact ⟨rfl, withIP_status _ _⟩
        · exact ⟨rfl, withIP_status _ _⟩
        · exact ⟨rfl, withIP_status _ _⟩
  · exact ⟨rfl, rfl, Or.inl rfl⟩

theorem reconcileContainers_status (w : World) (rcs : List ContainerInfo) :
    ∀ (cs : List Container) (pod : Pod),
    statusUpdates (reconcileContainers w rcs pod cs).2 = [] ∧
    (reconcileContainers w rcs pod cs).1.Status.Phase = pod.Status.Phase ∧
    ((reconcileContainers w rcs pod cs).1.Status.PodIP = pod.Status.PodIP ∨
      (reconcileContainers w rcs pod cs).1.Status.PodIP ≠ "") := by
  intro cs
  induction cs with
  | nil => intro pod; exact ⟨rfl, rfl, Or.inl rfl⟩
  | cons c t ih =>
    intro pod
    have h1 := reconcileContainer_status w rcs pod c
    have h2 := ih (reconcileContainer w rcs pod c).1
    show statusUpdates ((reconcileContainer w rcs pod c).2 ++
        (reconcileContainers w rcs (reconcileContainer w rcs pod c).1 t).2) = [] ∧
      (reconcileContainers w rcs (reconcileContainer w rcs pod c).1 t).1.Status.Phase =
        pod.Status.Phase ∧
      ((reconcileContainers w rcs (reconcileContainer w rcs pod c).1 t).1.Status.PodIP =
        pod.Status.PodIP ∨
       (reconcileContainers w rcs (reconcileContainer w rcs pod c).1 t).1.Status.PodIP ≠ "")
    refine ⟨?_, ?_, ?_⟩
    · rw [statusUpdates_append, h1.1, h2.1]; rfl
    · rw [h2.2.1, h1.2.1]
    · rcases h2.2.2 with h | h
      · rw [h]; exact h1.2.2
      · exact Or.inr h

/-- C26 (the code at the failing input).  The pod `web` has the container `app` without a
probe, and the runtime lists the container `k8s-lite-web-app` in the state `exited`.
`reconcilePod` reads the address of the container and publishes the status; it issues
neither `StopContainer` nor `RunContainer`.  It restarts the container when the state
text is `Exited (0) 5 minutes ago`, which starts with the `Exit` the code tests for. -/
theorem reconcilePod_leaves_exited_container :
    (appContainer "exited").Name = expectedName appPod { Name := "app", Image := "nginx" } ∧
    reconcilePod calmWorld appPod [appContainer "exited"] =
      [.GetContainerIP "4f2a",
       .UpdatePodStatus { appPod with Status := { Phase := "Running", PodIP := "10.0.0.5" } }] ∧
    runsAndStops (reconcilePod calmWorld appPod [appContainer "exited"]) = [] ∧
    runsAndStops (reconcilePod calmWorld appPod [appContainer "Exited (0) 5 minutes ago"]) =
      [.StopContainer "4f2a" 0, .RunContainer appPod { Name := "app", Image := "nginx" }] := by
  refine ⟨by rfl, by rfl, by rfl, by rfl⟩

/-- C27, where the claim fails: the only runtime container of the pod `web` is in the state
`exited`, and the phase computed and published is `Running`; and for the pod already
published as `Running` at 10.0.0.5 whose container runs at that address, neither the phase
nor the address differs and a status update is sent all the same. -/
theorem reconcilePod_publishes_running_for_exited :
    newPhase [appContainer "exited"] = "Running" ∧
    statusUpdates (reconcilePod calmWorld appPod [appContainer "exited"]) =
      [{ appPod with Status := { Phase := "Running", PodIP := "10.0.0.5" } }] ∧
    runningAppPod.Status.Phase = newPhase [appContainer "running"] ∧
    (podAfterLoop calmWorld runningAppPod [appContainer "running"]).Status.PodIP =
      runningAppPod.Status.PodIP ∧
    statusUpdates (reconcilePod calmWorld runningAppPod [appContainer "running"]) =
      [runningAppPod] := by
  refine ⟨by rfl, by rfl, by rfl, by rfl, by rfl⟩

/-- C27, amended: for every pod and every list of runtime containers of that pod, the phase
`reconcilePod` computes is `Running` if the list is not empty, whatever the states, and
`Pending` if it is empty; the loop leaves the phase of the pod alone; if the computed
phase differs from the pod's previous phase, or the pod's address after the loop differs
from its previous address, `reconcilePod` sends exactly one status update, carrying the
computed phase and that address; and if the phase is the same and the address after the
loop is empty, it sends none. -/
theorem reconcilePod_status_publication (w : World) (pod : Pod)
    (runningContainers : List ContainerInfo) :
    (runningContainers ≠ [] → newPhase runningContainers = "Running") ∧
    (runningContainers = [] → newPhase runningContainers = "Pending") ∧
    (podAfterLoop w pod runningContainers).Status.Phase = pod.Status.Phase ∧
    (pod.Status.Phase ≠ newPhase runningContainers ∨
        (podAfterLoop w pod runningContainers).Status.PodIP ≠ pod.Status.PodIP →
      statusUpdates (reconcilePod w pod runningContainers) =
        [{ podAfterLoop w pod runningContainers with
           Status := { (podAfterLoop w pod runningContainers).Status with
                       Phase := newPhase runningContainers } }]) ∧
    (pod.Status.Phase = newPhase runningContainers ∧
        (podAfterLoop w pod runningContainers).Status.PodIP = "" →
      statusUpdates (reconcilePod w pod runningContainers) = []) := by
  have hloop := reconcileContainers_status w runningContainers pod.Spec.Containers.toList pod
  have hph : (podAfterLoop w pod runningContainers).Status.Phase = pod.Status.Phase := hloop.2.1
  have hip : (podAfterLoop w pod runningContainers).Status.PodIP = pod.Status.PodIP ∨
      (podAfterLoop w pod runningContainers).Status.PodIP ≠ "" := hloop.2.2
  refine ⟨?_, ?_, hph, ?_, ?_⟩
  · intro h
    unfold newPhase
    rw [if_pos (List.length_pos.mpr h)]
  · intro h
    rw [h]; rfl
  · intro h
    have hc : (podAfterLoop w pod runningContainers).Status.Phase ≠ newPhase runningContainers ∨
        (podAfterLoop w pod runningContainers).Status.PodIP ≠ "" := by
      rcases h with h | h
      · left; rw [hph]; exact h
      · right
        rcases hip with h2 | h2
        · exact absurd h2 h
        · exact h2
    unfold podAfterLoop at hc
    unfold reconcilePod podAfterLoop
    dsimp only
    rw [if_pos hc, statusUpdates_append, hloop.1]
    rfl
  · intro h
    have hc : ¬ ((podAfterLoop w pod runningContainers).Status.Phase ≠ newPhase runningContainers ∨
        (podAfterLoop w pod runningContainers).Status.PodIP ≠ "") := by
      rw [hph]
      intro hx
      rcases hx with hx | hx
      · exact hx h.1
      · exact hx h.2
    unfold podAfterLoop at hc
    unfold reconcilePod
    dsimp only
    rw [if_neg hc]
    exact hloop.1

/-- C27, amended, for the pod `web` without a status and its running container: the phase
differs and one update is sent. -/
theorem reconcilePod_status_publication_witness :
    appPod.Status.Phase ≠ newPhase [appContainer "running"] ∧
    statusUpdates (reconcilePod calmWorld appPod [appContainer "running"]) =
      [{ appPod with Status := { Phase := "Running", PodIP := "10.0.0.5" } }] :=
  ⟨by decide,
   (reconcilePod_status_publication calmWorld appPod [appContainer "running"]).2.2.2.1
     (Or.inl (by decide))⟩

end kubelet

end K8sLite
